import Mathlib

/-! StringUtilities: brackets and the stream decorator.

A shallow embedding of `include/brackets.h` and `include/decorator.h`
(narrow-character instantiation `decorator<char>`), followed by theorems about it.

Conventions of the embedding

* `std::string` is `String`; `std::map<std::string, V>` is a key-sorted association
  list (`StdMap V`), with `find` and `operator[]=` as `tableFind` and `StdMap.assign`.
* The singleton `decorator<char>::theInstance` is passed explicitly as a value of the
  structure `decorator`; member functions that mutate it return the new value.
* A `std::ostream` is the record `OStream`: the characters written so far together
  with the formatting state (`flags()`, `fill()`, `width()`, `precision()`).
* `typeid(T).name()` and the text of a floating-point conversion are
  implementation-defined; they are the two fields of `Platform`. Theorems hold for every
  platform; `gccPlatform` (g++, libstdc++, glibc on x86-64) serves concrete instances.
* Integer widths are those of an LP64 target (`int64_t` is `long`); a `char` of the
  program is a `Char`, so the length of a string is its number of characters.
* The insertion operators of the standard library follow libstdc++: a formatted
  insertion pads to `width()` with `fill()` and resets the width to 0.
-/

namespace util

/-! ## brackets.h -/

namespace BracketKey

def NONE : String := ""
def BOOL : String := "bool"
def CHAR : String := "char"
def INT : String := "int"
def FLOAT : String := "float"
def STRING : String := "string"
def VECTOR : String := "vector"
def DEQUE : String := "deque"
def SET : String := "set"
def UNORDERED_SET : String := "unordered_set"
def MULTISET : String := "multiset"
def UNORDERED_MULTISET : String := "unordered_multiset"
def MAP : String := "map"
def UNORDERED_MAP : String := "unordered_map"
def MULTIMAP : String := "multimap"
def UNORDERED_MULTIMAP : String := "unordered_multimap"
def PAIR : String := "pair"
def TUPLE : String := "tuple"
def SLASH : String := "slash"
def BACKSLASH : String := "backslash"
def PIPE : String := "pipe"

end BracketKey

/-- The struct `LeftInnerRight` of brackets.h. -/
structure LeftInnerRight where
  left : String
  inner : String
  right : String
deriving DecidableEq, Repr

/-- Lookup in a table keyed by strings: the first entry whose key equals `key`
(`find` of `std::unordered_map` and of `std::map`, whose keys are unique). -/
def tableFind {β : Type} : List (String × β) → String → Option β
  | [], _ => none
  | (k, v) :: rest, key => if key = k then some v else tableFind rest key

/-- The table `DEFAULT_BRACKETS` of brackets.h, entry for entry. -/
def DEFAULT_BRACKETS : List (String × LeftInnerRight) :=
  [ (BracketKey.NONE, ⟨"", " ", ""⟩),
    (BracketKey.BOOL, ⟨"", " ", ""⟩),
    (BracketKey.CHAR, ⟨"'", " ", "'"⟩),
    (BracketKey.INT, ⟨"", " ", ""⟩),
    (BracketKey.FLOAT, ⟨"", " ", ""⟩),
    (BracketKey.STRING, ⟨"\"", ",", "\""⟩),
    (BracketKey.VECTOR, ⟨"<", ",", ">"⟩),
    (BracketKey.DEQUE, ⟨"^ ", " <- ", " $"⟩),
    (BracketKey.SET, ⟨"\x7b", ",", "\x7d"⟩),
    (BracketKey.UNORDERED_SET, ⟨"\x7b~", ",", "~\x7d"⟩),
    (BracketKey.MULTISET, ⟨"\x7b#", ",", "#\x7d"⟩),
    (BracketKey.UNORDERED_MULTISET, ⟨"\x7b#~", ",", "~#\x7d"⟩),
    (BracketKey.MAP, ⟨"[", ",", "]"⟩),
    (BracketKey.UNORDERED_MAP, ⟨"[~", ",", "~]"⟩),
    (BracketKey.MULTIMAP, ⟨"[#", ",", "#]"⟩),
    (BracketKey.UNORDERED_MULTIMAP, ⟨"[#~", ",", "~#]"⟩),
    (BracketKey.PAIR, ⟨"(", ",", ")"⟩),
    (BracketKey.TUPLE, ⟨"(", ",", ")"⟩),
    (BracketKey.SLASH, ⟨"/", "/", ""⟩),
    (BracketKey.BACKSLASH, ⟨"\\", "\\", ""⟩),
    (BracketKey.PIPE, ⟨"|", "|", "|"⟩) ]

/-- The class `Brackets`: its four private members. -/
structure Brackets where
  type_ : String
  left_ : String
  inner_ : String
  right_ : String
deriving DecidableEq, Repr

namespace Brackets

/-- The constructor `Brackets(BracketKey::Type type)`: the members are assigned only
when `type` is found in `DEFAULT_BRACKETS`; otherwise they stay default-constructed. -/
def fromKey (type : String) : Brackets :=
  match tableFind DEFAULT_BRACKETS type with
  | some found => ⟨type, found.left, found.inner, found.right⟩
  | none => ⟨"", "", "", ""⟩

/-- The constructor `Brackets(type, left, inner, right)`. -/
def fromStrings (type left inner right : String) : Brackets :=
  ⟨type, left, inner, right⟩

/-- The accessor `left(customLeft, customRight)`. -/
def left (b : Brackets) (customLeft customRight : String) : String :=
  customLeft ++ b.left_ ++ customRight

/-- The accessor `inner(customLeft, customRight)`. -/
def inner (b : Brackets) (customLeft customRight : String) : String :=
  customLeft ++ b.inner_ ++ customRight

/-- The accessor `right(customLeft, customRight)`. -/
def right (b : Brackets) (customLeft customRight : String) : String :=
  customLeft ++ b.right_ ++ customRight

end Brackets

/-! ## decorator.h: formats -/

inductive FloatBase
  | default_format
  | scientific
  | fixed
  | hexfloat
deriving DecidableEq, Repr

/-- The struct `floatFmt<char>`. -/
structure floatFmt where
  base_ : FloatBase
  width_ : Nat
  precision_ : Nat
  fill_ : Char
deriving DecidableEq, Repr

/-- The constructor `floatFmt{base}` with the remaining arguments defaulted
(`width = 8`, `precision = 5`, `fill = '0'`). -/
def floatFmt.ofBase (base : FloatBase) : floatFmt :=
  ⟨base, 8, 5, '0'⟩

inductive IntBase
  | default_format
  | as_char
  | decimal
  | hexadecimal
  | octal
deriving DecidableEq, Repr

/-- The struct `intFmt<char>`. -/
structure intFmt where
  isValid_ : Bool
  base_ : IntBase
  width_ : Nat
  showBase_ : Bool
  hexUpper_ : Bool
  fill_ : Char
  hexBaseStr_ : String
  octBaseStr_ : String
deriving DecidableEq, Repr

/-- The constructor `intFmt(base, width, showBase, hexUpper, fill, hexBaseStr, octBaseStr)`. -/
def intFmt.make (base : IntBase) (width : Nat) (showBase hexUpper : Bool) (fill : Char)
    (hexBaseStr octBaseStr : String) : intFmt :=
  ⟨decide (base ≠ IntBase.default_format), base, width, showBase, hexUpper, fill,
    hexBaseStr, octBaseStr⟩

/-- The constructor `intFmt{base}` with the remaining arguments defaulted. -/
def intFmt.ofBase (base : IntBase) : intFmt :=
  intFmt.make base 0 false false '0' "0x" "0o"

/-! ## Types and type names -/

/-- The integral types for which `decorate` and `initializeIntFormat` have a case. -/
inductive IntType
  | char
  | char16_t
  | char32_t
  | int8_t
  | int16_t
  | int32_t
  | int64_t
  | uint8_t
  | uint16_t
  | uint32_t
  | uint64_t
deriving DecidableEq, Repr

inductive FloatType
  | float
  | double
  | long_double
deriving DecidableEq, Repr

/-- A C++ type as far as the decorator tells types apart: the scalar types it names, the
two string types it looks brackets up for, and any other type (a container, pair or tuple
instantiation, a user type), identified by its C++ spelling. -/
inductive Ty
  | bool
  | int (t : IntType)
  | float (t : FloatType)
  | string
  | cstr
  | other (spelling : String)
deriving DecidableEq, Repr

/-- The digits a num_put conversion produces, split where internal padding goes:
`lead` is the sign or the 0x/0X base mark, `body` the rest. -/
structure NumText where
  lead : String
  body : String
deriving DecidableEq, Repr

/-- The bits of `std::ios_base::fmtflags`. -/
structure FmtFlags where
  boolalpha : Bool
  dec : Bool
  fixed : Bool
  hex : Bool
  internal : Bool
  left : Bool
  oct : Bool
  right : Bool
  scientific : Bool
  showbase : Bool
  showpoint : Bool
  showpos : Bool
  skipws : Bool
  unitbuf : Bool
  uppercase : Bool
deriving DecidableEq, Repr

/-- A finite floating-point value: `mantissa * 2 ^ exponent2`. -/
structure FloatVal where
  mantissa : Int
  exponent2 : Int
deriving DecidableEq, Repr

/-- What the C++ implementation fixes and the library only uses. -/
structure Platform where
  /-- The string `typeid(T).name()`. -/
  typeName : Ty → String
  /-- The characters `num_put` produces for a floating-point value under the given
  flags and precision, before padding to the field width. -/
  floatText : FmtFlags → Nat → FloatType → FloatVal → NumText

/-! ## decorator.h: the registry -/

/-- Strict lexicographic order on character lists (`std::less<std::string>`). -/
def charsLt : List Char → List Char → Bool
  | _, [] => false
  | [], _ :: _ => true
  | a :: as, b :: bs => if a.toNat < b.toNat then true else if b.toNat < a.toNat then false
      else charsLt as bs

/-- A `std::map<std::string, β>`: entries in ascending key order. -/
abbrev StdMap (β : Type) := List (String × β)

/-- The assignment `m[key] = value` on a `std::map`. -/
def StdMap.assign {β : Type} : StdMap β → String → β → StdMap β
  | [], key, value => [(key, value)]
  | (k, v) :: rest, key, value =>
    if key = k then (k, value) :: rest
    else if charsLt key.data k.data then (key, value) :: (k, v) :: rest
    else (k, v) :: StdMap.assign rest key value

/-- The data members of `decorator<char>`. -/
structure decorator where
  type2brackets_ : StdMap Brackets
  intType2format_ : StdMap intFmt
  floatType2format_ : StdMap floatFmt
  alphaBool_ : Bool
deriving DecidableEq, Repr

namespace decorator

/-- The statically constructed `theInstance` before `instance()` is first called:
empty maps and `alphaBool_ = true`. -/
def theInstance : decorator :=
  ⟨[], [], [], true⟩

/-- The private member `typeString<T>()`. -/
def typeString (P : Platform) (T : Ty) : String :=
  P.typeName T

def empty (d : decorator) : Bool :=
  d.type2brackets_.isEmpty

def clearBrackets (d : decorator) : decorator :=
  { d with type2brackets_ := [] }

def clearIntFormat (d : decorator) : decorator :=
  { d with intType2format_ := [] }

def clearFloatFormat (d : decorator) : decorator :=
  { d with floatType2format_ := [] }

def clear (d : decorator) : decorator :=
  clearFloatFormat (clearIntFormat (clearBrackets d))

/-- Both overloads `setBracketForKey(key, bracket)`. -/
def setBracketForKey (d : decorator) (key : String) (bracket : Brackets) : decorator :=
  { d with type2brackets_ := StdMap.assign d.type2brackets_ key bracket }

/-- Both overloads `setBracketForKey(key, left, inner, right)`. -/
def setBracketForKeyStrings (d : decorator) (key left inner right : String) : decorator :=
  setBracketForKey d key (Brackets.fromStrings key left inner right)

/-- The member `setBracketForObject<T>(object, left, inner, right)`; only the static type
`T` of the object is used. -/
def setBracketForObject (P : Platform) (d : decorator) (T : Ty) (left inner right : String) :
    decorator :=
  let type := typeString P T
  setBracketForKey d type (Brackets.fromStrings type left inner right)

/-- The member `getBracket<T>(object, defaultKey)`. -/
def getBracketOf (P : Platform) (d : decorator) (T : Ty) (defaultKey : String) : Brackets :=
  match tableFind d.type2brackets_ (typeString P T) with
  | none =>
    match tableFind d.type2brackets_ defaultKey with
    | none => Brackets.fromKey BracketKey.NONE
    | some found => found
  | some found => found

/-- The member `getBracket(key)`. -/
def getBracket (d : decorator) (key : String) : Brackets :=
  match tableFind d.type2brackets_ key with
  | none => Brackets.fromKey BracketKey.NONE
  | some found => found

def getBoolAlpha (d : decorator) : Bool :=
  d.alphaBool_

def setBoolAlpha (d : decorator) : decorator :=
  { d with alphaBool_ := true }

def setNoBoolAlpha (d : decorator) : decorator :=
  { d with alphaBool_ := false }

/-- The member `setFormat<IntT_>(fmt)`. -/
def setIntFormat (P : Platform) (d : decorator) (T : IntType) (fmt : intFmt) : decorator :=
  { d with intType2format_ := StdMap.assign d.intType2format_ (typeString P (Ty.int T)) fmt }

/-- The member `getFormat<IntT_>()`. -/
def getIntFormat (P : Platform) (d : decorator) (T : IntType) : intFmt :=
  match tableFind d.intType2format_ (typeString P (Ty.int T)) with
  | none => intFmt.ofBase IntBase.default_format
  | some found => found

/-- The member `setFormat<FloatT_>(fmt)`. -/
def setFloatFormat (P : Platform) (d : decorator) (T : FloatType) (fmt : floatFmt) : decorator :=
  { d with
    floatType2format_ := StdMap.assign d.floatType2format_ (typeString P (Ty.float T)) fmt }

/-- The member `getFormat<FloatT_>()`. -/
def getFloatFormat (P : Platform) (d : decorator) (T : FloatType) : floatFmt :=
  match tableFind d.floatType2format_ (typeString P (Ty.float T)) with
  | none => floatFmt.ofBase FloatBase.default_format
  | some found => found

/-- The member `setBase<IntT_>(base)`. -/
def setIntBase (P : Platform) (d : decorator) (T : IntType) (base : IntBase) : decorator :=
  let fmt := getIntFormat P d T
  let fmt := { fmt with base_ := base }
  let fmt := if base = IntBase.default_format then { fmt with isValid_ := false } else fmt
  setIntFormat P d T fmt

/-- The member `setWidth<IntT_>(width)`. -/
def setIntWidth (P : Platform) (d : decorator) (T : IntType) (width : Nat) : decorator :=
  let fmt := getIntFormat P d T
  setIntFormat P d T { fmt with width_ := width }

/-- The member `setShowBase<IntT_>(showBase)`. -/
def setShowBase (P : Platform) (d : decorator) (T : IntType) (showBase : Bool) : decorator :=
  let fmt := getIntFormat P d T
  setIntFormat P d T { fmt with showBase_ := showBase }

/-- The member `setHexBaseStr<IntT_>(hexBaseStr, setBaseAsWell, setShowBaseAsWell)`. -/
def setHexBaseStr (P : Platform) (d : decorator) (T : IntType) (hexBaseStr : String)
    (setBaseAsWell setShowBaseAsWell : Bool) : decorator :=
  let fmt := getIntFormat P d T
  let fmt := if setBaseAsWell then { fmt with base_ := IntBase.hexadecimal } else fmt
  let fmt := if setShowBaseAsWell then { fmt with showBase_ := true } else fmt
  setIntFormat P d T { fmt with hexBaseStr_ := hexBaseStr }

/-- The member `setOctBaseStr<IntT_>(octBaseStr, setBaseAsWell, setShowBaseAsWell)`. -/
def setOctBaseStr (P : Platform) (d : decorator) (T : IntType) (octBaseStr : String)
    (setBaseAsWell setShowBaseAsWell : Bool) : decorator :=
  let fmt := getIntFormat P d T
  let fmt := if setBaseAsWell then { fmt with base_ := IntBase.octal } else fmt
  let fmt := if setShowBaseAsWell then { fmt with showBase_ := true } else fmt
  setIntFormat P d T { fmt with octBaseStr_ := octBaseStr }

/-- The member `setHexUpper<IntT_>(hexUpper, setBaseAsWell)`. -/
def setHexUpper (P : Platform) (d : decorator) (T : IntType) (hexUpper setBaseAsWell : Bool) :
    decorator :=
  let fmt := getIntFormat P d T
  let fmt := if setBaseAsWell then { fmt with base_ := IntBase.hexadecimal } else fmt
  setIntFormat P d T { fmt with hexUpper_ := hexUpper }

/-- The member `setFill<IntT_>(fill)`. -/
def setIntFill (P : Platform) (d : decorator) (T : IntType) (fill : Char) : decorator :=
  let fmt := getIntFormat P d T
  setIntFormat P d T { fmt with fill_ := fill }

/-- The member `setFill<FloatT_>(fill)`. -/
def setFloatFill (P : Platform) (d : decorator) (T : FloatType) (fill : Char) : decorator :=
  let fmt := getFloatFormat P d T
  setFloatFormat P d T { fmt with fill_ := fill }

/-- The member `setWidth<FloatT_>(width)`. -/
def setFloatWidth (P : Platform) (d : decorator) (T : FloatType) (width : Nat) : decorator :=
  let fmt := getFloatFormat P d T
  setFloatFormat P d T { fmt with width_ := width }

/-- The member `setPrecision<FloatT_>(precision)`. -/
def setPrecision (P : Platform) (d : decorator) (T : FloatType) (precision : Nat) : decorator :=
  let fmt := getFloatFormat P d T
  setFloatFormat P d T { fmt with precision_ := precision }

/-- The member `setBase<FloatT_>(base)`. -/
def setFloatBase (P : Platform) (d : decorator) (T : FloatType) (base : FloatBase) : decorator :=
  let fmt := getFloatFormat P d T
  setFloatFormat P d T { fmt with base_ := base }

/-- The loop of `initializeBrackets` over `DEFAULT_BRACKETS`. -/
def insertDefaults (d : decorator) : List (String × LeftInnerRight) → decorator
  | [] => d
  | kv :: rest => insertDefaults (setBracketForKey d kv.1 (Brackets.fromKey kv.1)) rest

/-- The member `initializeBrackets()`: `clearBrackets()`, then `clear()`, then the loop. -/
def initializeBrackets (d : decorator) : decorator :=
  insertDefaults (clear (clearBrackets d)) DEFAULT_BRACKETS

def initializeIntFormat (P : Platform) (d : decorator) : decorator :=
  let d := clearIntFormat d
  let d := setIntFormat P d IntType.char (intFmt.ofBase IntBase.as_char)
  let d := setIntFormat P d IntType.char16_t (intFmt.ofBase IntBase.as_char)
  let d := setIntFormat P d IntType.char32_t (intFmt.ofBase IntBase.as_char)
  let d := setIntFormat P d IntType.int8_t (intFmt.ofBase IntBase.hexadecimal)
  let d := setIntFormat P d IntType.int16_t (intFmt.ofBase IntBase.decimal)
  let d := setIntFormat P d IntType.int32_t (intFmt.ofBase IntBase.decimal)
  let d := setIntFormat P d IntType.int64_t (intFmt.ofBase IntBase.decimal)
  let d := setIntFormat P d IntType.uint8_t (intFmt.ofBase IntBase.decimal)
  let d := setIntFormat P d IntType.uint16_t (intFmt.ofBase IntBase.decimal)
  let d := setIntFormat P d IntType.uint32_t (intFmt.ofBase IntBase.decimal)
  setIntFormat P d IntType.uint64_t (intFmt.ofBase IntBase.decimal)

def initializeFloatFormat (P : Platform) (d : decorator) : decorator :=
  let d := clearFloatFormat d
  let d := setFloatFormat P d FloatType.float (floatFmt.ofBase FloatBase.scientific)
  let d := setFloatFormat P d FloatType.double (floatFmt.ofBase FloatBase.scientific)
  setFloatFormat P d FloatType.long_double (floatFmt.ofBase FloatBase.scientific)

/-- The member `initialize()`: the three initialisers in sequence (each returns true,
so the conjunction never short-circuits). -/
def initializeAll (P : Platform) (d : decorator) : decorator :=
  initializeFloatFormat P (initializeIntFormat P (initializeBrackets d))

end decorator

/-! ## The output stream -/

/-- A `std::ostream`: the characters written so far and the formatting state. -/
structure OStream where
  out : String
  flags : FmtFlags
  fill : Char
  width : Nat
  precision : Nat
deriving DecidableEq, Repr

/-- The flags of a newly constructed stream: `skipws | dec`. -/
def FmtFlags.init : FmtFlags :=
  { boolalpha := false, dec := true, fixed := false, hex := false, internal := false,
    left := false, oct := false, right := false, scientific := false, showbase := false,
    showpoint := false, showpos := false, skipws := true, unitbuf := false,
    uppercase := false }

/-- The test `(flags & adjustfield) == left`. -/
def FmtFlags.adjustLeft (f : FmtFlags) : Bool :=
  f.left && !f.right && !f.internal

/-- The test `(flags & adjustfield) == internal`. -/
def FmtFlags.adjustInternal (f : FmtFlags) : Bool :=
  f.internal && !f.left && !f.right

/-- The test `(flags & basefield) == oct`. -/
def FmtFlags.baseOct (f : FmtFlags) : Bool :=
  f.oct && !f.dec && !f.hex

/-- The test `(flags & basefield) == hex`. -/
def FmtFlags.baseHex (f : FmtFlags) : Bool :=
  f.hex && !f.dec && !f.oct

namespace OStream

/-- A newly constructed `std::stringstream`: nothing written, fill `' '`, width 0,
precision 6. -/
def fresh : OStream :=
  ⟨"", FmtFlags.init, ' ', 0, 6⟩

/-- The string of `n` copies of `c`. -/
def fillChars (n : Nat) (c : Char) : String :=
  String.mk (List.replicate n c)

/-- Formatted insertion of a string, string view or C string: the text is padded with
the fill character to the field width (after the text only when the adjustment is
`left`), and the width is reset to 0. -/
def insertString (os : OStream) (s : String) : OStream :=
  let pad := fillChars (os.width - s.length) os.fill
  { os with out := os.out ++ (if os.flags.adjustLeft then s ++ pad else pad ++ s), width := 0 }

/-- Formatted insertion of converted digits: padded to the field width after the text
(`left`), between lead and body (`internal`) or before the text, then width 0. -/
def insertNum (os : OStream) (t : NumText) : OStream :=
  let pad := fillChars (os.width - (t.lead.length + t.body.length)) os.fill
  let text :=
    if os.flags.adjustLeft then t.lead ++ t.body ++ pad
    else if os.flags.adjustInternal then t.lead ++ pad ++ t.body
    else pad ++ t.lead ++ t.body
  { os with out := os.out ++ text, width := 0 }

/-- The member `flags(f)`. -/
def setFlags (os : OStream) (f : FmtFlags) : OStream :=
  { os with flags := f }

/-- The member `fill(c)`. -/
def setFill (os : OStream) (c : Char) : OStream :=
  { os with fill := c }

/-- The member `width(n)`. -/
def setWidth (os : OStream) (n : Nat) : OStream :=
  { os with width := n }

/-- The manipulator `std::setprecision(n)`. -/
def setPrecision (os : OStream) (n : Nat) : OStream :=
  { os with precision := n }

/-- The manipulator `std::boolalpha`. -/
def boolalpha (os : OStream) : OStream :=
  { os with flags := { os.flags with boolalpha := true } }

/-- The manipulator `std::noboolalpha`. -/
def noboolalpha (os : OStream) : OStream :=
  { os with flags := { os.flags with boolalpha := false } }

/-- The manipulator `std::dec`: `setf(dec, basefield)`. -/
def dec (os : OStream) : OStream :=
  { os with flags := { os.flags with dec := true, oct := false, hex := false } }

/-- The manipulator `std::hex`: `setf(hex, basefield)`. -/
def hex (os : OStream) : OStream :=
  { os with flags := { os.flags with dec := false, oct := false, hex := true } }

/-- The manipulator `std::oct`: `setf(oct, basefield)`. -/
def oct (os : OStream) : OStream :=
  { os with flags := { os.flags with dec := false, oct := true, hex := false } }

/-- The manipulator `std::uppercase`. -/
def uppercase (os : OStream) : OStream :=
  { os with flags := { os.flags with uppercase := true } }

/-- The manipulator `std::nouppercase`. -/
def nouppercase (os : OStream) : OStream :=
  { os with flags := { os.flags with uppercase := false } }

/-- The manipulator `std::defaultfloat`: `unsetf(floatfield)`. -/
def defaultfloat (os : OStream) : OStream :=
  { os with flags := { os.flags with fixed := false, scientific := false } }

/-- The manipulator `std::scientific`: `setf(scientific, floatfield)`. -/
def scientific (os : OStream) : OStream :=
  { os with flags := { os.flags with fixed := false, scientific := true } }

/-- The manipulator `std::fixed`: `setf(fixed, floatfield)`. -/
def fixed (os : OStream) : OStream :=
  { os with flags := { os.flags with fixed := true, scientific := false } }

/-- The manipulator `std::hexfloat`: `setf(fixed | scientific, floatfield)`. -/
def hexfloat (os : OStream) : OStream :=
  { os with flags := { os.flags with fixed := true, scientific := true } }

end OStream

/-- The digits of `n` in the given base, letters in upper case when `upper`. -/
def digitsOf (base : Nat) (upper : Bool) (n : Nat) : String :=
  String.mk (if upper then (Nat.toDigits base n).map Char.toUpper else Nat.toDigits base n)

/-- Conversion to a signed integer type of `bits` bits. -/
def wrapSigned (bits : Nat) (v : Int) : Int :=
  (v + 2 ^ (bits - 1)) % 2 ^ bits - 2 ^ (bits - 1)

/-- Conversion to an unsigned integer type of `bits` bits. -/
def wrapUnsigned (bits : Nat) (v : Int) : Int :=
  v % 2 ^ bits

/-- The conversion `num_put` applies to an integer of a type with the given signedness
and width: octal and hexadecimal print the value as unsigned of that width, with the
base mark when `showbase` is set and the value is not zero; decimal prints a sign,
`+` only for signed types under `showpos`. -/
def intText (f : FmtFlags) (signed : Bool) (bits : Nat) (v : Int) : NumText :=
  if f.baseOct then
    let u := (wrapUnsigned bits v).toNat
    ⟨"", (if f.showbase && u != 0 then "0" else "") ++ digitsOf 8 false u⟩
  else if f.baseHex then
    let u := (wrapUnsigned bits v).toNat
    ⟨if f.showbase && u != 0 then (if f.uppercase then "0X" else "0x") else "",
      digitsOf 16 f.uppercase u⟩
  else
    let w := if signed then wrapSigned bits v else wrapUnsigned bits v
    if w < 0 then ⟨"-", digitsOf 10 false w.natAbs⟩
    else ⟨if f.showpos && signed then "+" else "", digitsOf 10 false w.toNat⟩

/-- The insertion `os << value` for a value of static type `T`: the three one-byte types
are written as a character; the others are converted as integers (`char16_t` and
`char32_t` after promotion to `int` and `unsigned int`, as the language has it before
C++20, which removes these two insertions). -/
def insertInt (os : OStream) (T : IntType) (v : Int) : OStream :=
  match T with
  | IntType.char => os.insertString (String.singleton (Char.ofNat (wrapUnsigned 8 v).toNat))
  | IntType.int8_t => os.insertString (String.singleton (Char.ofNat (wrapUnsigned 8 v).toNat))
  | IntType.uint8_t => os.insertString (String.singleton (Char.ofNat (wrapUnsigned 8 v).toNat))
  | IntType.char16_t => os.insertNum (intText os.flags true 32 v)
  | IntType.char32_t => os.insertNum (intText os.flags false 32 v)
  | IntType.int16_t => os.insertNum (intText os.flags true 16 v)
  | IntType.int32_t => os.insertNum (intText os.flags true 32 v)
  | IntType.int64_t => os.insertNum (intText os.flags true 64 v)
  | IntType.uint16_t => os.insertNum (intText os.flags false 16 v)
  | IntType.uint32_t => os.insertNum (intText os.flags false 32 v)
  | IntType.uint64_t => os.insertNum (intText os.flags false 64 v)

/-- The insertion `os << value` for a `bool`: the words under `boolalpha`, otherwise
the integer 1 or 0. -/
def insertBool (os : OStream) (value : Bool) : OStream :=
  if os.flags.boolalpha then os.insertString (if value then "true" else "false")
  else os.insertNum (intText os.flags true 64 (if value then 1 else 0))

/-- The insertion `os << value` for a floating-point value. -/
def insertFloat (P : Platform) (os : OStream) (T : FloatType) (x : FloatVal) : OStream :=
  os.insertNum (P.floatText os.flags os.precision T x)

/-! ## decorator.h: decorate -/

/-- The containers for which decorator.h defines a stream operator. -/
inductive ContainerKind
  | vector
  | deque
  | set
  | unordered_set
  | multiset
  | unordered_multiset
  | map
  | unordered_map
  | multimap
  | unordered_multimap
deriving DecidableEq, Repr

/-- A value handed to `decorate(os, value)`, by the overload that takes it. Integer
values are within the range of their type. A pair, tuple or container carries its static
type `T` (what `typeid` sees) and its elements in iteration order; `other` is a value of
any other streamable type, whose own stream operator inserts `text` as one field. -/
inductive Value
  | bool (b : Bool)
  | int (T : IntType) (v : Int)
  | float (T : FloatType) (x : FloatVal)
  | string (s : String)
  | cstr (s : String)
  | string_view (s : String)
  | pair (T : Ty) (first second : Value)
  | tuple (T : Ty) (elems : List Value)
  | container (kind : ContainerKind) (T : Ty) (elems : List Value)
  | other (T : Ty) (text : String)

/-- The static type of a value, as `getBracket` sees it; a string view is converted to a
`std::string` before the lookup. -/
def Value.type : Value → Ty
  | Value.bool _ => Ty.bool
  | Value.int T _ => Ty.int T
  | Value.float T _ => Ty.float T
  | Value.string _ => Ty.string
  | Value.cstr _ => Ty.cstr
  | Value.string_view _ => Ty.string
  | Value.pair T _ _ => T
  | Value.tuple T _ => T
  | Value.container _ T _ => T
  | Value.other T _ => T

/-- The overload `decorate(os, bool const &value)`. -/
def decorateBool (P : Platform) (d : decorator) (os : OStream) (value : Bool) : OStream :=
  let bracket := d.getBracketOf P Ty.bool BracketKey.BOOL
  let alpha := d.getBoolAlpha
  let f := os.flags
  let os := if alpha then os.boolalpha else os.noboolalpha
  let os := os.insertString (bracket.left "" "")
  let os := insertBool os value
  let os := os.insertString (bracket.right "" "")
  os.setFlags f

/-- The statement `switch (fmt.base_)` of `decorateInt`: select the base, after writing
the base string when `showBase_` is set; `as_char` and `default_format` have no case. -/
def intBaseSwitch (fmt : intFmt) (os : OStream) : OStream :=
  match fmt.base_ with
  | IntBase.decimal => os.dec
  | IntBase.hexadecimal => (if fmt.showBase_ then os.insertString fmt.hexBaseStr_ else os).hex
  | IntBase.octal => (if fmt.showBase_ then os.insertString fmt.octBaseStr_ else os).oct
  | _ => os

/-- The chain of `typeid(IntT_)` tests of `decorateInt` ending in the insertion of the
value: `char`, `char16_t` and `int8_t` are cast to `int16_t` and `char32_t` to `int32_t`
unless the base is `as_char`; every other type is inserted as it is. -/
def insertIntWidened (fmt : intFmt) (T : IntType) (os : OStream) (value : Int) : OStream :=
  if T = IntType.char ∧ fmt.base_ ≠ IntBase.as_char then
    insertInt os IntType.int16_t (wrapSigned 16 value)
  else if T = IntType.char16_t ∧ fmt.base_ ≠ IntBase.as_char then
    insertInt os IntType.int16_t (wrapSigned 16 value)
  else if T = IntType.char32_t ∧ fmt.base_ ≠ IntBase.as_char then
    insertInt os IntType.int32_t (wrapSigned 32 value)
  else if T = IntType.int8_t ∧ fmt.base_ ≠ IntBase.as_char then
    insertInt os IntType.int16_t (wrapSigned 16 value)
  else
    insertInt os T value

/-- The statement `if (fmt.isValid_) ... else os << value;` of `decorateInt`. -/
def insertIntFormatted (fmt : intFmt) (T : IntType) (os : OStream) (value : Int) : OStream :=
  if fmt.isValid_ then
    let os := intBaseSwitch fmt os
    let os := os.setFill fmt.fill_
    let os := os.setWidth fmt.width_
    let os := if fmt.hexUpper_ then os.uppercase else os
    insertIntWidened fmt T os value
  else
    insertInt os T value

/-- The function template `decorateInt(os, key, value)` for `IntT_ = T`. -/
def decorateInt (P : Platform) (d : decorator) (os : OStream) (key : String) (T : IntType)
    (value : Int) : OStream :=
  let bracket := d.getBracketOf P (Ty.int T) key
  let fmt := d.getIntFormat P T
  let f := os.flags
  let os := os.insertString (bracket.left "" "")
  let os := insertIntFormatted fmt T os value
  let os := if fmt.isValid_ then os.nouppercase else os
  let os := os.insertString (bracket.right "" "")
  os.setFlags f

/-- The bracket key the `decorate` overload for `T` passes to `decorateInt`: `CHAR` for
the three character types, `INT` for the eight integer types. -/
def intKey : IntType → String
  | IntType.char => BracketKey.CHAR
  | IntType.char16_t => BracketKey.CHAR
  | IntType.char32_t => BracketKey.CHAR
  | _ => BracketKey.INT

/-- The statement `switch (fmt.base_)` of `decorateFloat`. -/
def floatBaseSwitch (fmt : floatFmt) (os : OStream) : OStream :=
  match fmt.base_ with
  | FloatBase.default_format => os.defaultfloat
  | FloatBase.scientific => os.scientific
  | FloatBase.hexfloat => os.hexfloat
  | FloatBase.fixed =>
    ((os.fixed.setPrecision fmt.precision_).setFill fmt.fill_).setWidth fmt.width_

/-- The function template `decorateFloat(os, key, value)` for `FloatT_ = T`. -/
def decorateFloat (P : Platform) (d : decorator) (os : OStream) (key : String) (T : FloatType)
    (value : FloatVal) : OStream :=
  let bracket := d.getBracketOf P (Ty.float T) key
  let fmt := d.getFloatFormat P T
  let f := os.flags
  let os := os.insertString (bracket.left "" "")
  let os := floatBaseSwitch fmt os
  let os := insertFloat P os T value
  let os := os.insertString (bracket.right "" "")
  os.setFlags f

/-- The overloads `decorate(os, std::string const &)` and `decorate(os, char const *)`;
`T` is the type the bracket is looked up for. -/
def decorateString (P : Platform) (d : decorator) (os : OStream) (T : Ty) (value : String) :
    OStream :=
  let bracket := d.getBracketOf P T BracketKey.STRING
  ((os.insertString (bracket.left "" "")).insertString value).insertString
    (bracket.right "" "")

/-- The bracket key each container stream operator of decorator.h passes to `decorate`. -/
def streamKey : ContainerKind → String
  | ContainerKind.vector => BracketKey.VECTOR
  | ContainerKind.deque => BracketKey.DEQUE
  | ContainerKind.set => BracketKey.SET
  | ContainerKind.unordered_set => BracketKey.UNORDERED_SET
  | ContainerKind.multiset => BracketKey.MULTISET
  | ContainerKind.unordered_multiset => BracketKey.UNORDERED_MULTISET
  | ContainerKind.map => BracketKey.MAP
  | ContainerKind.unordered_map => BracketKey.UNORDERED_MAP
  | ContainerKind.multimap => BracketKey.MULTIMAP
  | ContainerKind.unordered_multimap => BracketKey.MULTIMAP

mutual

/-- The overload set `decorate(os, value)`. The scalar and string overloads are the
functions above; every other type takes the generic overload `os << value`, which for a
pair, a tuple and a container is the stream operator of decorator.h, inlined here:
the pair operator, `decorate(os, tuple_obj, TUPLE)` and
`decorate(os, container, defaultBracketId)`. -/
def decorate (P : Platform) (d : decorator) : OStream → Value → OStream
  | os, Value.bool b => decorateBool P d os b
  | os, Value.int T v => decorateInt P d os (intKey T) T v
  | os, Value.float T x => decorateFloat P d os BracketKey.FLOAT T x
  | os, Value.string s => decorateString P d os Ty.string s
  | os, Value.cstr s => decorateString P d os Ty.cstr s
  | os, Value.string_view s => decorateString P d os Ty.string s
  | os, Value.pair T first second =>
    let bracket := d.getBracketOf P T BracketKey.PAIR
    let os := os.insertString (bracket.left "" "")
    let os := decorate P d os first
    let os := os.insertString (bracket.inner "" "")
    let os := decorate P d os second
    os.insertString (bracket.right "" "")
  | os, Value.tuple T elems =>
    let bracket := d.getBracketOf P T BracketKey.TUPLE
    let os := os.insertString (bracket.left "" "")
    let os := iterateTuple P d os bracket elems
    os.insertString (bracket.right "" "")
  | os, Value.container kind T elems =>
    let bracket := d.getBracketOf P T (streamKey kind)
    let os := os.insertString (bracket.left "" "")
    let os :=
      match elems with
      | [] => os
      | _ :: _ => containerLoop P d os bracket elems
    os.insertString (bracket.right "" "")
  | os, Value.other _ text => os.insertString text

/-- The function template `iterateTuple<..., Index>` on the elements from `Index` on:
decorate the element, write the separator unless it is the last, go on. -/
def iterateTuple (P : Platform) (d : decorator) : OStream → Brackets → List Value → OStream
  | os, _, [] => os
  | os, bracket, x :: rest =>
    let os := decorate P d os x
    let os :=
      match rest with
      | [] => os
      | _ :: _ => os.insertString (bracket.inner "" "")
    iterateTuple P d os bracket rest

/-- The while loop of `decorate(os, container, defaultBracketId)` from the iterator
position on: decorate `*iter`, advance, write the separator unless at the end. -/
def containerLoop (P : Platform) (d : decorator) : OStream → Brackets → List Value → OStream
  | os, _, [] => os
  | os, bracket, x :: rest =>
    let os := decorate P d os x
    let os :=
      match rest with
      | [] => os
      | _ :: _ => os.insertString (bracket.inner "" "")
    containerLoop P d os bracket rest

end

/-- The function `toString(value)` of to_string.h: decorate into a new string stream
and return what was written. -/
def toString (P : Platform) (d : decorator) (value : Value) : String :=
  (decorate P d OStream.fresh value).out

/-! ## A concrete platform -/

/-- Type names as g++ and clang++ give them (Itanium ABI) for the scalar types, for
`std::string`, `char const*` and for the instantiations used in the test suite; any
other spelling is kept as its own name. -/
def gccTypeName : Ty → String
  | Ty.bool => "b"
  | Ty.int IntType.char => "c"
  | Ty.int IntType.char16_t => "Ds"
  | Ty.int IntType.char32_t => "Di"
  | Ty.int IntType.int8_t => "a"
  | Ty.int IntType.int16_t => "s"
  | Ty.int IntType.int32_t => "i"
  | Ty.int IntType.int64_t => "l"
  | Ty.int IntType.uint8_t => "h"
  | Ty.int IntType.uint16_t => "t"
  | Ty.int IntType.uint32_t => "j"
  | Ty.int IntType.uint64_t => "m"
  | Ty.float FloatType.float => "f"
  | Ty.float FloatType.double => "d"
  | Ty.float FloatType.long_double => "e"
  | Ty.string => "NSt7__cxx1112basic_stringIcSt11char_traitsIcESaIcEEE"
  | Ty.cstr => "PKc"
  | Ty.other spelling =>
    if spelling = "std::vector<int>" then "St6vectorIiSaIiEE"
    else if spelling = "std::vector<char>" then "St6vectorIcSaIcEE"
    else if spelling = "std::deque<int>" then "St5dequeIiSaIiEE"
    else if spelling = "std::pair<const int, int>" then "St4pairIKiiE"
    else if spelling = "std::pair<const int, char>" then "St4pairIKicE"
    else if spelling = "std::map<int, int>" then
      "St3mapIiiSt4lessIiESaISt4pairIKiiEEE"
    else if spelling = "std::multimap<int, char>" then
      "St8multimapIicSt4lessIiESaISt4pairIKicEEE"
    else if spelling = "std::unordered_multimap<int, char>" then
      "St18unordered_multimapIicSt4hashIiESt8equal_toIiESaISt4pairIKicEEE"
    else spelling

namespace printf

/-- The quotient `n / d` rounded to the nearest integer, ties to even. -/
def roundDiv (n d : Nat) : Nat :=
  if d < 2 * (n % d) ∨ (2 * (n % d) = d ∧ (n / d) % 2 = 1) then n / d + 1 else n / d

/-- Numerator of `|x| * 10 ^ k` over the denominator `scaledDen x k`. -/
def scaledNum (x : FloatVal) (k : Int) : Nat :=
  x.mantissa.natAbs * 2 ^ x.exponent2.toNat * 10 ^ k.toNat

/-- Denominator of `|x| * 10 ^ k`. -/
def scaledDen (x : FloatVal) (k : Int) : Nat :=
  2 ^ (-x.exponent2).toNat * 10 ^ (-k).toNat

/-- The integer nearest to `|x| * 10 ^ k`, ties to even. -/
def scaledRound (x : FloatVal) (k : Int) : Nat :=
  roundDiv (scaledNum x k) (scaledDen x k)

/-- The decimal exponent of a non-zero `x`: the `E` with `10 ^ E ≤ |x| < 10 ^ (E + 1)`. -/
def decimalExponent (x : FloatVal) : Int :=
  let e0 : Int :=
    (Nat.toDigits 10 (scaledNum x 0)).length - (Nat.toDigits 10 (scaledDen x 0)).length
  if scaledDen x (-e0) ≤ scaledNum x (-e0) then e0 else e0 - 1

/-- The `p + 1` significant digits, as a number, and the exponent of the conversion
`%.pe` of `|x|`. -/
def sciParts (x : FloatVal) (p : Nat) : Nat × Int :=
  if x.mantissa = 0 then (0, 0)
  else if 10 ^ (p + 1) ≤ scaledRound x (p - decimalExponent x) then
    (scaledRound x (p - decimalExponent x) / 10, decimalExponent x + 1)
  else (scaledRound x (p - decimalExponent x), decimalExponent x)

/-- The digits of `n` in the given base, left-padded with zeros to `len` characters. -/
def zeroPadded (base : Nat) (upper : Bool) (len n : Nat) : String :=
  String.mk (List.replicate (len - (Nat.toDigits base n).length) '0') ++ digitsOf base upper n

/-- Remove the trailing zeros after a decimal point, and the point if nothing follows. -/
def stripZeros (s : String) : String :=
  if '.' ∈ s.data then
    String.mk
      (match s.data.reverse.dropWhile (fun c => c = '0') with
      | '.' :: rest => rest.reverse
      | t => t.reverse)
  else s

/-- The exponent part of `%e`: the letter, a sign and at least two digits. -/
def expText (upper : Bool) (e : Int) : String :=
  (if upper then "E" else "e") ++ (if e < 0 then "-" else "+")
    ++ zeroPadded 10 false 2 e.natAbs

/-- The mantissa `d.ddd` of `%.pe` from its `p + 1` digits. -/
def sciMantissa (showpoint : Bool) (p n : Nat) : String :=
  String.mk ((zeroPadded 10 false (p + 1) n).data.take 1)
    ++ (if p = 0 ∧ showpoint = false then "" else ".")
    ++ String.mk ((zeroPadded 10 false (p + 1) n).data.drop 1)

/-- The conversion `%.pf` of `|x|`. -/
def fixedText (showpoint : Bool) (x : FloatVal) (p : Nat) : String :=
  let s := zeroPadded 10 false (p + 1) (scaledRound x p)
  String.mk (s.data.take (s.length - p)) ++ (if p = 0 ∧ showpoint = false then "" else ".")
    ++ String.mk (s.data.drop (s.length - p))

/-- The conversion `%.pe` of `|x|`. -/
def sciText (showpoint upper : Bool) (x : FloatVal) (p : Nat) : String :=
  sciMantissa showpoint p (sciParts x p).1 ++ expText upper (sciParts x p).2

/-- The conversion `%.pg` of `|x|`: with `q` the precision (1 for 0) and `e` the exponent
of the `%e` conversion with `q - 1` decimals, the `%f` style with `q - 1 - e` decimals
when `-4 ≤ e < q` and the `%e` style otherwise, trailing zeros removed unless the
alternative form (`showpoint`) is asked for. -/
def generalText (showpoint upper : Bool) (x : FloatVal) (p : Nat) : String :=
  let q := if p = 0 then 1 else p
  let e := (sciParts x (q - 1)).2
  if -4 ≤ e ∧ e < q then
    if showpoint then fixedText showpoint x (q - 1 - e).toNat
    else stripZeros (fixedText showpoint x (q - 1 - e).toNat)
  else
    (if showpoint then sciMantissa showpoint (q - 1) (sciParts x (q - 1)).1
      else stripZeros (sciMantissa showpoint (q - 1) (sciParts x (q - 1)).1))
      ++ expText upper e

/-- The conversion `%a` of `|x|` for a normal value: the leading hexadecimal digit holds
the first `leadBits` bits of the mantissa (1 for `double`, 4 for the 80-bit
`long double`), the remaining bits follow the point with trailing zeros removed. -/
def hexText (showpoint upper : Bool) (leadBits : Nat) (x : FloatVal) : String :=
  if x.mantissa = 0 then
    (if upper then "0X" else "0x") ++ "0" ++ (if showpoint then "." else "")
      ++ (if upper then "P" else "p") ++ "+0"
  else
    let len := Nat.log2 x.mantissa.natAbs + 1
    let fracBits := (len - leadBits + 3) / 4 * 4
    let shifted := x.mantissa.natAbs * 2 ^ (leadBits + fracBits - len)
    let frac :=
      if fracBits = 0 then ""
      else stripZeros ("." ++ zeroPadded 16 upper (fracBits / 4) (shifted % 2 ^ fracBits))
    let e : Int := (len : Int) - leadBits + x.exponent2
    (if upper then "0X" else "0x") ++ digitsOf 16 upper (shifted / 2 ^ fracBits)
      ++ (if frac = "" ∧ showpoint = true then "." else frac)
      ++ (if upper then "P" else "p") ++ (if e < 0 then "-" else "+")
      ++ digitsOf 10 false e.natAbs

end printf

/-- The text of a floating-point insertion as libstdc++ produces it through `printf`:
`%a` for `fixed | scientific`, `%f` for `fixed`, `%e` for `scientific`, `%g` otherwise,
with the sign (a `+` under `showpos`) in front; the lead, after which internal padding
goes, is the sign or else the 0x mark. A `float` is converted as a `double`. -/
def gccFloatText (f : FmtFlags) (precision : Nat) (T : FloatType) (x : FloatVal) : NumText :=
  let sign := if x.mantissa < 0 then "-" else if f.showpos then "+" else ""
  if f.fixed && f.scientific then
    let t := printf.hexText f.showpoint f.uppercase
      (if T = FloatType.long_double then 4 else 1) x
    if sign = "" then ⟨String.mk (t.data.take 2), String.mk (t.data.drop 2)⟩ else ⟨sign, t⟩
  else if f.fixed then ⟨sign, printf.fixedText f.showpoint x precision⟩
  else if f.scientific then ⟨sign, printf.sciText f.showpoint f.uppercase x precision⟩
  else ⟨sign, printf.generalText f.showpoint f.uppercase x precision⟩

/-- A platform as g++ with libstdc++ and glibc on x86-64 make it. -/
def gccPlatform : Platform :=
  { typeName := gccTypeName
    floatText := gccFloatText }

end util

namespace util

/-! ## Vocabulary of the specification -/

/-- The built-in default bracket table as section 6 of the specification prints it:
key, left, inner, right. -/
def specBracketTable : List (String × String × String × String) :=
  [ ("", "", " ", ""),
    ("bool", "", " ", ""),
    ("char", "'", " ", "'"),
    ("int", "", " ", ""),
    ("float", "", " ", ""),
    ("string", "\"", ",", "\""),
    ("vector", "<", ",", ">"),
    ("deque", "^ ", " <- ", " $"),
    ("set", "\x7b", ",", "\x7d"),
    ("unordered_set", "\x7b~", ",", "~\x7d"),
    ("multiset", "\x7b#", ",", "#\x7d"),
    ("unordered_multiset", "\x7b#~", ",", "~#\x7d"),
    ("map", "[", ",", "]"),
    ("unordered_map", "[~", ",", "~]"),
    ("multimap", "[#", ",", "#]"),
    ("unordered_multimap", "[#~", ",", "~#]"),
    ("pair", "(", ",", ")"),
    ("tuple", "(", ",", ")"),
    ("slash", "/", "/", ""),
    ("backslash", "\\", "\\", ""),
    ("pipe", "|", "|", "|") ]

/-- The built-in identifiers: the 21 constants of namespace `BracketKey`. -/
def builtinKeys : List String :=
  [ BracketKey.NONE, BracketKey.BOOL, BracketKey.CHAR, BracketKey.INT, BracketKey.FLOAT,
    BracketKey.STRING, BracketKey.VECTOR, BracketKey.DEQUE, BracketKey.SET,
    BracketKey.UNORDERED_SET, BracketKey.MULTISET, BracketKey.UNORDERED_MULTISET,
    BracketKey.MAP, BracketKey.UNORDERED_MAP, BracketKey.MULTIMAP,
    BracketKey.UNORDERED_MULTIMAP, BracketKey.PAIR, BracketKey.TUPLE, BracketKey.SLASH,
    BracketKey.BACKSLASH, BracketKey.PIPE ]

/-- The built-in default integer formats as section 6 of the specification lists them:
the three character types render as a character, `int8` is hexadecimal, every other
integer type is decimal. -/
def specIntBase : IntType → IntBase
  | IntType.char => IntBase.as_char
  | IntType.char16_t => IntBase.as_char
  | IntType.char32_t => IntBase.as_char
  | IntType.int8_t => IntBase.hexadecimal
  | _ => IntBase.decimal

/-- The structural key the specification names for each container kind. -/
def specKey : ContainerKind → String
  | ContainerKind.vector => "vector"
  | ContainerKind.deque => "deque"
  | ContainerKind.set => "set"
  | ContainerKind.unordered_set => "unordered_set"
  | ContainerKind.multiset => "multiset"
  | ContainerKind.unordered_multiset => "unordered_multiset"
  | ContainerKind.map => "map"
  | ContainerKind.unordered_map => "unordered_map"
  | ContainerKind.multimap => "multimap"
  | ContainerKind.unordered_multimap => "unordered_multimap"

/-- The word or digit `decorate` writes for a boolean under the alpha-bool flag. -/
def boolWord (alpha b : Bool) : String :=
  if alpha then (if b then "true" else "false") else (if b then "1" else "0")

/-- The stream `after` holds what `before` holds and possibly more text after it. -/
def OStream.Extends (before after : OStream) : Prop :=
  ∃ t, after.out = before.out ++ t

/-- The text written to a stream between two of its states. -/
def written (before after : OStream) : String :=
  String.mk (after.out.data.drop before.out.data.length)

/-- The text `decorate` writes for the value on the sink: render(value). -/
def render (P : Platform) (d : decorator) (os : OStream) (value : Value) : String :=
  written os (decorate P d os value)

/-- The renderings of the elements e1..eN of a sequence whose first element is decorated
on the sink `os` and whose separator is `inner`: each element is rendered on the sink as
it stands when its turn comes, after the previous element and the separator. -/
def renderEach (P : Platform) (d : decorator) (inner : String) :
    OStream → List Value → List String
  | _, [] => []
  | os, x :: rest =>
    render P d os x :: renderEach P d inner ((decorate P d os x).insertString inner) rest

mutual

/-- The leaves of a value joined by single spaces with no brackets: a leaf is what
inserting it into a new stream writes, except that a bool is inserted under `boolalpha`
when `alpha` is set and under `noboolalpha` when it is not; a pair is its two members with
one space between, a tuple or container its elements joined by single spaces. -/
def plain (P : Platform) (alpha : Bool) : Value → String
  | Value.bool b => (insertBool (if alpha then OStream.fresh.boolalpha else OStream.fresh.noboolalpha) b).out
  | Value.int T v => (insertInt OStream.fresh T v).out
  | Value.float T x => (insertFloat P OStream.fresh T x).out
  | Value.string s => s
  | Value.cstr s => s
  | Value.string_view s => s
  | Value.pair _ first second => plain P alpha first ++ " " ++ plain P alpha second
  | Value.tuple _ elems => String.intercalate " " (plainEach P alpha elems)
  | Value.container _ _ elems => String.intercalate " " (plainEach P alpha elems)
  | Value.other _ text => text
/-- The native stream forms of the elements of a sequence. -/
def plainEach (P : Platform) (alpha : Bool) : List Value → List String
  | [] => []
  | x :: rest => plain P alpha x :: plainEach P alpha rest
end

/-- The native stream form of a value, joined by single spaces with no brackets: every
leaf is what `os << leaf` writes on a new stream, a bool being 1 or 0. -/
def native (P : Platform) (v : Value) : String :=
  plain P false v

/-- A sink in the formatting state of a new stream that holds the text `s`. -/
def freshWith (s : String) : OStream := { OStream.fresh with out := s }

/-- The registry after `instance()` is first called: `theInstance` initialised. -/
def defaultRegistry (P : Platform) : decorator :=
  decorator.initializeAll P decorator.theInstance

/-! ## stringutil.h and ci_string.h

A `std::basic_string<char, Traits>` is the list of its characters; `size_t` is 64 bits
wide, and an index or length is a natural number below `2 ^ 64`. -/

/-- The constant `npos` of `std::basic_string`: the largest `size_t`. -/
def npos : Nat := 2 ^ 64 - 1

/-- The sum `a + b` of two `size_t`. -/
def sizeAdd (a b : Nat) : Nat := (a + b) % 2 ^ 64

/-- The difference `a - b` of two `size_t`. -/
def sizeSub (a b : Nat) : Nat := (a + 2 ^ 64 - b % 2 ^ 64) % 2 ^ 64

/-- The enumeration `NumberClass`. -/
inductive NumberClass
  | NONE
  | INT
  | UINT
  | FLOAT
deriving DecidableEq, Repr

/-- The values of the enumeration `StripTrimMode`, as the integers they are. -/
abbrev StripTrimMode := Nat

namespace StripTrimMode

def FRONT : StripTrimMode := 0x01
def LEFT : StripTrimMode := FRONT
def INSIDE : StripTrimMode := 0x02
def BACK : StripTrimMode := 0x04
def RIGHT : StripTrimMode := BACK
def OUTSIDE : StripTrimMode := FRONT ||| BACK
def ALL : StripTrimMode := FRONT ||| INSIDE ||| BACK

end StripTrimMode

/-- The functions `towupper` and `towlower` of the C library in the "C" locale, on the
characters of a `char` string: only the 26 letters of ASCII change. -/
def towupper (c : Char) : Char := c.toUpper

def towlower (c : Char) : Char := c.toLower

/-- The conversion `wchar_t{c}` of a `char` to the signed 32-bit `wchar_t`: `char` is
signed (g++ on x86-64), so the bytes from 0x80 on are the values -128 to -1. A character
beyond one byte, which no `char` holds, is left at its code. -/
def wideOfChar (c : Char) : Int :=
  if 128 ≤ c.toNat ∧ c.toNat < 256 then (c.toNat : Int) - 256 else (c.toNat : Int)

/-- The character at an address of a NUL-terminated character array: `*s`. -/
def deref (s : List Char) : Char := s.headD (Char.ofNat 0)

/-- The members of a character-traits class that `std::basic_string` calls in `find`,
`find_first_of`, `find_first_not_of` and `find_last_not_of`: `eq(c1, c2)` and
`compare(s1, s2, n)`; `find(s, n, c)` returns the first position of `s` whose character
is `eq` to `c`. -/
structure CharTraits where
  eq : Char → Char → Bool
  compare : List Char → List Char → Nat → Int

/-- The loop `std::char_traits<char>::compare(s1, s2, n)`: the first `n` characters are
compared as unsigned bytes. -/
def char_traits_compare : List Char → List Char → Nat → Int
  | _, _, 0 => 0
  | s1, s2, n + 1 =>
    if (deref s1).toNat < (deref s2).toNat then -1
    else if (deref s2).toNat < (deref s1).toNat then 1
    else char_traits_compare s1.tail s2.tail n

/-- The traits `std::char_traits<char>` of `std::string`. -/
def char_traits : CharTraits :=
  ⟨fun c1 c2 => c1 == c2, char_traits_compare⟩

namespace ci_char_traits

/-- The member `ci_char_traits::eq(c1, c2)`. -/
def eq (c1 c2 : Char) : Bool :=
  towupper c1 == towupper c2

/-- The member `ci_char_traits::ne(c1, c2)`. -/
def ne (c1 c2 : Char) : Bool :=
  towupper c1 != towupper c2

/-- The member `ci_char_traits::lt(c1, c2)`: the two values `towupper(wchar_t{c})` are
compared as the signed `wchar_t` they are. -/
def lt (c1 c2 : Char) : Bool :=
  decide (wideOfChar (towupper c1) < wideOfChar (towupper c2))

/-- The while loop of `ci_char_traits::compare` and the return statement after it, for
two non-null NUL-terminated arrays: `remaining` is `n - i`. -/
def compareLoop : List Char → List Char → Nat → Int → Int
  | _, _, 0, _ => 0
  | s1, s2, remaining + 1, i =>
    if deref s1 ≠ Char.ofNat 0 ∧ deref s2 ≠ Char.ofNat 0 ∧ eq (deref s1) (deref s2) then
      compareLoop s1.tail s2.tail remaining (i + 1)
    else if lt (deref s1) (deref s2) then -i - 1
    else if eq (deref s1) (deref s2) then 0
    else i + 1

/-- The member `ci_char_traits::compare(s1, s2, n)` for non-null `s1` and `s2`. -/
def compare (s1 s2 : List Char) (n : Nat) : Int :=
  if n = 0 then 0 else compareLoop s1 s2 n 0

end ci_char_traits

/-- The traits `ci_char_traits<char>` of `ci_string`. -/
def ci_traits : CharTraits :=
  ⟨ci_char_traits.eq, ci_char_traits.compare⟩

/-- Whether `traits_type::find(chars, n, c)` finds `c` among the `n` characters `chars`. -/
def CharTraits.contains (tr : CharTraits) (chars : List Char) (c : Char) : Bool :=
  chars.any (fun x => tr.eq x c)

/-- The index of the first character of the list that is not among `chars`. -/
def firstNotIn (tr : CharTraits) (chars : List Char) : List Char → Option Nat
  | [] => none
  | c :: rest =>
    if tr.contains chars c then (firstNotIn tr chars rest).map (· + 1) else some 0

/-- The member `str.find_first_not_of(chars)`. -/
def find_first_not_of (tr : CharTraits) (str chars : List Char) : Nat :=
  (firstNotIn tr chars str).getD npos

/-- The member `str.find_last_not_of(chars)`. -/
def find_last_not_of (tr : CharTraits) (str chars : List Char) : Nat :=
  match firstNotIn tr chars str.reverse with
  | none => npos
  | some k => str.length - 1 - k

/-- The index of the first character of the list that is among `chars`. -/
def firstIn (tr : CharTraits) (chars : List Char) : List Char → Option Nat
  | [] => none
  | c :: rest =>
    if tr.contains chars c then some 0 else (firstIn tr chars rest).map (· + 1)

/-- The member `str.find_first_of(chars)`. -/
def find_first_of (tr : CharTraits) (str chars : List Char) : Nat :=
  (firstIn tr chars str).getD npos

/-- The member `str.substr(pos, count)` for `pos <= size()`. -/
def substr (str : List Char) (pos count : Nat) : List Char :=
  (str.drop pos).take count

/-- The element `str[i]`; the terminating NUL at `i = size()`. -/
def charAt (str : List Char) (i : Nat) : Char :=
  str.getD i (Char.ofNat 0)

/-- A separator of `splitIntoVector` and `splitIntoSet`: a character or a string. -/
inductive Separator
  | char (c : Char)
  | string (s : List Char)
deriving DecidableEq, Repr

/-- Modelled from the spec: the helper `util::string_or_char_size(sep)`, declared outside
the sources at hand: the number of characters of a string separator, 1 for a character. -/
def string_or_char_size : Separator → Nat
  | Separator.char _ => 1
  | Separator.string s => s.length

/-- Whether the separator occurs at the start of `rest`, the characters of the string from
some position on, as `std::basic_string::find` tests it: for a character by `eq`, for a
string of `n` characters when `n` characters are left, the first is `eq` to the first of
the separator and `compare(rest, sep, n)` is 0. -/
def occursAt (tr : CharTraits) (sep : Separator) (rest : List Char) : Bool :=
  match sep with
  | Separator.char c =>
    match rest with
    | [] => false
    | x :: _ => tr.eq x c
  | Separator.string s =>
    match s with
    | [] => true
    | c :: _ =>
      decide (s.length ≤ rest.length) && tr.eq (deref rest) c && tr.compare rest s s.length == 0

/-- The offset of the first position of `rest` at which the separator occurs. -/
def firstOcc (tr : CharTraits) (sep : Separator) : List Char → Option Nat
  | [] => if occursAt tr sep [] then some 0 else none
  | c :: rest =>
    if occursAt tr sep (c :: rest) then some 0 else (firstOcc tr sep rest).map (· + 1)

/-- The member `str.find(sep, pos)`: the first position from `pos` on at which the
separator occurs, `npos` when there is none. -/
def find (tr : CharTraits) (str : List Char) (sep : Separator) (pos : Nat) : Nat :=
  if pos > str.length then npos
  else
    match firstOcc tr sep (str.drop pos) with
    | none => npos
    | some k => pos + k

/-- The function `toLower(str)`. -/
def toLower (str : List Char) : List Char :=
  str.map towlower

/-- The function `toUpper(str)`. -/
def toUpper (str : List Char) : List Char :=
  str.map towupper

/-- The three flags `strip` and `replaceChar` read from the mode. -/
def doStripFront (mode : StripTrimMode) : Bool := (mode &&& StripTrimMode.FRONT) == StripTrimMode.FRONT

def doStripBack (mode : StripTrimMode) : Bool := (mode &&& StripTrimMode.BACK) == StripTrimMode.BACK

def doStripInside (mode : StripTrimMode) : Bool :=
  (mode &&& StripTrimMode.INSIDE) == StripTrimMode.INSIDE

/-- The while loop of `strip`: `count` is `finish - start` when `start < finish`, else 0. -/
def stripLoop (tr : CharTraits) (str stringStripChars : List Char) (inside : Bool) :
    Nat → Nat → List Char → List Char
  | 0, _, reval => reval
  | count + 1, start, reval =>
    let reval :=
      if !inside then reval ++ [charAt str start]
      else if !tr.contains stringStripChars (charAt str start) then reval ++ [charAt str start]
      else reval
    stripLoop tr str stringStripChars inside count (start + 1) reval

/-- The function `strip(str, stripChars, mode)`; the result is the new value of `str`. -/
def strip (tr : CharTraits) (str stripChars : List Char) (mode : StripTrimMode) : List Char :=
  if str.isEmpty then str
  else
    let start := if doStripFront mode then find_first_not_of tr str stripChars else 0
    let finish :=
      if doStripBack mode then sizeAdd (find_last_not_of tr str stripChars) 1 else str.length
    if start = npos then []
    else
      let stringStripChars :=
        if stripChars.isEmpty then ['\t', ' ', '\r', '\n'] else stripChars
      stripLoop tr str stringStripChars (doStripInside mode) (finish - start) start []

/-- The function `trim(str, trimChars)`. -/
def trim (tr : CharTraits) (str trimChars : List Char) : List Char :=
  strip tr str trimChars StripTrimMode.OUTSIDE

/-- The function `trimLeft(str, trimChars)`. -/
def trimLeft (tr : CharTraits) (str trimChars : List Char) : List Char :=
  strip tr str trimChars StripTrimMode.LEFT

/-- The function `trimRight(str, trimChars)`. -/
def trimRight (tr : CharTraits) (str trimChars : List Char) : List Char :=
  strip tr str trimChars StripTrimMode.RIGHT

/-- The first while loop of `replaceChar`, over the leading characters that are among
`chars`; `count` bounds the iterations by the size of the string. Returns the string and
`firstNonReplChar`. -/
def replaceFront (tr : CharTraits) (chars : List Char) (replaceWith : Char) (front : Bool) :
    Nat → List Char → Nat → List Char × Nat
  | 0, str, first => (str, first)
  | count + 1, str, first =>
    if first < str.length ∧ tr.contains chars (charAt str first) then
      replaceFront tr chars replaceWith front count
        (if front then str.set first replaceWith else str) (first + 1)
    else (str, first)

/-- The second while loop of `replaceChar`, downwards from `lastNonReplChar`; the loop
has no bound of its own, and `none` stands for its running below index 0. Returns the
string and `lastNonReplChar`. -/
def replaceBack (tr : CharTraits) (chars : List Char) (replaceWith : Char) (back : Bool) :
    Nat → List Char → Option (List Char × Nat)
  | 0, str =>
    if tr.contains chars (charAt str 0) then none else some (str, 0)
  | last + 1, str =>
    if tr.contains chars (charAt str (last + 1)) then
      replaceBack tr chars replaceWith back last
        (if back then str.set (last + 1) replaceWith else str)
    else some (str, last + 1)

/-- The third while loop of `replaceChar`: `count` is `lastNonReplChar + 1 - inside` when
that is positive, else 0. -/
def replaceInside (tr : CharTraits) (chars : List Char) (replaceWith : Char) (inside : Bool) :
    Nat → List Char → Nat → List Char
  | 0, str, _ => str
  | count + 1, str, i =>
    let str :=
      if inside then
        (if tr.contains chars (charAt str i) then str.set i replaceWith else str)
      else str
    replaceInside tr chars replaceWith inside count str (i + 1)

/-- The function `replaceChar(str, replChars, replaceWith, mode)`; the result is the new
value of `str`. -/
def replaceChar (tr : CharTraits) (str replChars : List Char) (replaceWith : Char)
    (mode : StripTrimMode) : Option (List Char) :=
  if str.isEmpty then some str
  else
    let stringReplChars := if replChars.isEmpty then ['\n', '\t', ' ', '\r'] else replChars
    if find_first_not_of tr str stringReplChars = npos then
      some (List.replicate str.length replaceWith)
    else
      let (str, firstNonReplChar) :=
        replaceFront tr stringReplChars replaceWith (doStripFront mode) str.length str 0
      match replaceBack tr stringReplChars replaceWith (doStripBack mode) (str.length - 1) str with
      | none => none
      | some (str, lastNonReplChar) =>
        some (replaceInside tr stringReplChars replaceWith (doStripInside mode)
          (lastNonReplChar + 1 - firstNonReplChar) str firstNonReplChar)

/-- The function `replaceCharLeft(str, replChars, replaceWith)`. -/
def replaceCharLeft (tr : CharTraits) (str replChars : List Char) (replaceWith : Char) :
    Option (List Char) :=
  replaceChar tr str replChars replaceWith StripTrimMode.LEFT

/-- The table `VALID_BOOL` of `scanBoolString`. -/
def VALID_BOOL : List (String × Bool) :=
  [("true", true), ("t", true), ("yes", true), ("y", true), ("1", true), ("on", true),
    ("false", false), ("f", false), ("no", false), ("n", false), ("0", false), ("off", false)]

/-- The function `scanBoolString(strVal, result)`: the value returned and the value left in
`result`. -/
def scanBoolString (strVal : List Char) : Bool × Bool :=
  let lower := toLower strVal
  let found := VALID_BOOL.find? (fun kv => kv.1.data == lower)
  (found.isSome, match found with
    | some kv => kv.2
    | none => false)

/-- The function `substr_from_to_incl(str, start, finish)`. -/
def substr_from_to_incl (str : List Char) (start finish : Nat) : List Char :=
  if start > str.length ∨ start > finish then []
  else
    let finish := if finish > str.length then npos else sizeAdd (sizeSub finish start) 1
    substr str start finish

/-- The while loop of `splitIntoVector`; `fuel` bounds the number of iterations and
`none` stands for a loop that has not finished within it. -/
def splitLoop (tr : CharTraits) (str : List Char) (sep : Separator) :
    Nat → Nat → Nat → List (List Char) → Option (List (List Char))
  | 0, _, _, _ => none
  | fuel + 1, subStrStart, sepStart, results =>
    let results :=
      if sepStart = subStrStart then results ++ [[]]
      else results ++ [substr_from_to_incl str subStrStart (sizeSub sepStart 1)]
    let subStrStart := sizeAdd sepStart (string_or_char_size sep)
    let sepStart := find tr str sep subStrStart
    if sepStart > str.length then
      some (results ++ [substr_from_to_incl str subStrStart (sizeSub sepStart 1)])
    else splitLoop tr str sep fuel subStrStart sepStart results

/-- The function `splitIntoVector(str, sep)`; the loop is given one iteration for every
character of `str` and one more. -/
def splitIntoVector (tr : CharTraits) (str : List Char) (sep : Separator) :
    Option (List (List Char)) :=
  let sepStart := find tr str sep 0
  let sepLen := string_or_char_size sep
  if sepLen = 0 ∨ sepStart > str.length then some [str]
  else splitLoop tr str sep (str.length + 1) 0 sepStart []

/-- The function `classifyNumberString(str)`; `maxIntLen` and `maxUintLen` are the two
function-local statics, the lengths of `toString` of the largest `int64_t` and `uint64_t`
when the function is first called. -/
def classifyNumberString (tr : CharTraits) (maxIntLen maxUintLen : Nat) (str : List Char) :
    NumberClass :=
  if str.isEmpty ∨ find_first_not_of tr str "0123456789+-.eElL".data ≠ npos then
    NumberClass.NONE
  else if find_first_of tr str ".e".data ≠ npos then NumberClass.FLOAT
  else
    let isNegative := charAt str 0 == '-'
    let isSigned := charAt str 0 == '-' || charAt str 0 == '+'
    if str.length - (if isSigned then 1 else 0) > maxUintLen then NumberClass.FLOAT
    else if str.length - (if isSigned then 1 else 0) ≥ maxIntLen then
      (if isNegative then NumberClass.FLOAT else NumberClass.UINT)
    else NumberClass.INT

/-! ### Vocabulary of the claims on stringutil.h -/

/-- The characters of a separator: the one character, or those of the string. -/
def Separator.chars : Separator → List Char
  | Separator.char c => [c]
  | Separator.string s => s

/-- The pieces of `s` between consecutive occurrences of the separator found from left
to right, each search starting behind the occurrence found before; a separator without
characters, or an empty string, gives the one piece `s`. -/
def specSplit (tr : CharTraits) (sep : Separator) (s : List Char) : List (List Char) :=
  if string_or_char_size sep = 0 ∨ s = [] then [s]
  else
    match firstOcc tr sep s with
    | none => [s]
    | some k => s.take k :: specSplit tr sep (s.drop (k + string_or_char_size sep))
termination_by s.length
decreasing_by
  rename_i h0
  have h1 : s.length ≠ 0 := fun h => h0 (Or.inr (List.length_eq_zero.mp h))
  have h2 : string_or_char_size sep ≠ 0 := fun h => h0 (Or.inl h)
  simp only [List.length_drop]
  omega

/-- The words `scanBoolString` accepts as true, and as false. -/
def trueWords : List String := ["true", "t", "yes", "y", "1", "on"]

def falseWords : List String := ["false", "f", "no", "n", "0", "off"]

/-- The function-local static `maxIntLen` of `classifyNumberString`, when the function is
first called with the registry in the state `d`. -/
def maxIntLen (P : Platform) (d : decorator) : Nat :=
  (toString P d (Value.int IntType.int64_t 9223372036854775807)).length

/-- The function-local static `maxUintLen` of `classifyNumberString`. -/
def maxUintLen (P : Platform) (d : decorator) : Nat :=
  (toString P d (Value.int IntType.uint64_t 18446744073709551615)).length

/-! ## ci_string.h: `ci_char_traits::compare` on pointers, the hash of a `ci_string` -/

/-- The conversion `(long)n` of a `size_t` `n`: the 64 bits of `n` read as a signed
integer. -/
def toLong (n : Nat) : Int :=
  if n % 2 ^ 64 < 2 ^ 63 then ((n % 2 ^ 64 : Nat) : Int) else ((n % 2 ^ 64 : Nat) : Int) - 2 ^ 64

/-- The conversion of a `long` to the `int` that `compare` returns: the low 32 bits read
as a signed integer. -/
def longToInt (x : Int) : Int :=
  (x + 2 ^ 31) % 2 ^ 32 - 2 ^ 31

namespace ci_char_traits

/-- The return statement of `ci_char_traits::compare` behind the loop, with `n` standing
for `(long)n`. -/
def compareResult (s1 s2 : List Char) (n i : Int) : Int :=
  longToInt
    (if i = n then 0
      else if lt (deref s1) (deref s2) then -i - 1
      else if eq (deref s1) (deref s2) then 0
      else i + 1)

/-- The while loop of `ci_char_traits::compare` with its condition
`i < (long)n && *s1 && *s2 && eq(*s1, *s2)`, followed by the return statement. -/
def compareLongLoop : List Char → List Char → Int → Int → Int
  | [], s2, n, i => compareResult [] s2 n i
  | c1 :: r1, s2, n, i =>
    if i < n ∧ c1 ≠ Char.ofNat 0 ∧ deref s2 ≠ Char.ofNat 0 ∧ eq c1 (deref s2) = true then
      compareLongLoop r1 s2.tail n (i + 1)
    else compareResult (c1 :: r1) s2 n i

/-- The member `ci_char_traits::compare(s1, s2, n)` on two pointers, `none` being the null
pointer and `some s` the address of the NUL-terminated characters `s`. With `s1` not null
and `s2` null the code reads `*s2`: no result. -/
def comparePointers (s1 s2 : Option (List Char)) (n : Nat) : Option Int :=
  if n = 0 then some 0
  else
    match s1, s2 with
    | none, none => some 0
    | none, some _ => some (-1)
    | some _, none => none
    | some a, some b => some (compareLongLoop a b (toLong n) 0)

end ci_char_traits

/-- The call operator of `std::hash<util::ci_string>`: the hash of `std::string` applied
to `toLower(s)`; `hasher` is `std::hash<std::string>`. -/
def hash_ci_string (hasher : List Char → Nat) (s : List Char) : Nat :=
  let strLower := toLower s
  hasher strLower

/-! ## container_convert.h

A `std::vector` is the list of its elements, an iterator of it the index of its element
(`end()` is the size). A `std::map` is the list of its entries in the order of iteration,
a `std::set` the list of its elements in the order of iteration. -/

/-- The call operator of `true_pred`. -/
def true_pred {α : Type} (_ : α) : Bool := true

/-- The loop of `eraseByKey`; `it` is the position of the iterator, `fuel` bounds the
iterations and `none` stands for a loop that has not finished within it. -/
def eraseByKeyLoop {κ ν : Type} (pred : κ → Bool) :
    Nat → List (κ × ν) → Nat → Option (List (κ × ν))
  | 0, _, _ => none
  | fuel + 1, map2filter, it =>
    match map2filter.get? it with
    | none => some map2filter
    | some kv =>
      if pred kv.1 then eraseByKeyLoop pred fuel (map2filter.eraseIdx it) it
      else eraseByKeyLoop pred fuel map2filter (it + 1)

/-- The function `eraseByKey(map2filter, pred)`; the result is the new value of the map. -/
def eraseByKey {κ ν : Type} (map2filter : List (κ × ν)) (pred : κ → Bool) :
    Option (List (κ × ν)) :=
  eraseByKeyLoop pred (map2filter.length + 1) map2filter 0

/-- The loop of `eraseByValue`. -/
def eraseByValueLoop {κ ν : Type} (pred : ν → Bool) :
    Nat → List (κ × ν) → Nat → Option (List (κ × ν))
  | 0, _, _ => none
  | fuel + 1, map2filter, it =>
    match map2filter.get? it with
    | none => some map2filter
    | some kv =>
      if pred kv.2 then eraseByValueLoop pred fuel (map2filter.eraseIdx it) it
      else eraseByValueLoop pred fuel map2filter (it + 1)

/-- The function `eraseByValue(map2filter, pred)`. -/
def eraseByValue {κ ν : Type} (map2filter : List (κ × ν)) (pred : ν → Bool) :
    Option (List (κ × ν)) :=
  eraseByValueLoop pred (map2filter.length + 1) map2filter 0

/-- The loop of `moveElementsTo`: the new values of `source` and `destination`. -/
def moveLoop {α : Type} (pred : α → Bool) :
    Nat → List α → List α → Nat → Option (List α × List α)
  | 0, _, _, _ => none
  | fuel + 1, source, destination, it =>
    match source.get? it with
    | none => some (source, destination)
    | some x =>
      if pred x then moveLoop pred fuel (source.eraseIdx it) (destination ++ [x]) it
      else moveLoop pred fuel source destination (it + 1)

/-- The function `moveElementsTo(source, destination, pred)` for two different vectors. -/
def moveElementsTo {α : Type} (source destination : List α) (pred : α → Bool) :
    Option (List α × List α) :=
  moveLoop pred (source.length + 1) source destination 0

/-- The member `insert` of a `std::set` whose comparison is `lt`, as `emplace` and the
insert iterator of `std::inserter` call it (the hint of the iterator has no effect on the
result): the value goes before the first element it is less than, and is dropped when an
element is equivalent to it, neither being less than the other. -/
def setInsert {α : Type} (lt : α → α → Bool) (x : α) : List α → List α
  | [] => [x]
  | y :: rest =>
    if lt x y then x :: y :: rest
    else if lt y x then y :: setInsert lt x rest
    else y :: rest

/-- The function `toVector(orderedSet)`: `std::copy` through a back inserter. -/
def toVector {α : Type} (orderedSet : List α) : List α :=
  if !orderedSet.isEmpty then orderedSet.foldl (fun reval x => reval ++ [x]) [] else []

/-- The function `toSet(vec)`: `std::copy` through an inserter into a `std::set` ordered
by `std::less`, which is `lt`. -/
def toSet {α : Type} (lt : α → α → Bool) (vec : List α) : List α :=
  if !vec.isEmpty then vec.foldl (fun reval x => setInsert lt x reval) [] else []

/-! ## stringutil.h: splitIntoSet -/

/-- The comparison `a < b` of two `std::basic_string`s, the order of a `std::set` of them:
`traits_type::compare` on the common length decides, and the lengths when it returns 0. -/
def basic_string_lt (tr : CharTraits) (a b : List Char) : Bool :=
  let r := tr.compare a b (min a.length b.length)
  decide (r < 0) || (r == 0 && decide (a.length < b.length))

/-- The number of occurrences of the separator found in `s` from left to right, each
search starting behind the occurrence found before. -/
def specCount (tr : CharTraits) (sep : Separator) (s : List Char) : Nat :=
  if string_or_char_size sep = 0 ∨ s = [] then 0
  else
    match firstOcc tr sep s with
    | none => 0
    | some k => specCount tr sep (s.drop (k + string_or_char_size sep)) + 1
termination_by s.length
decreasing_by
  rename_i h0
  have h1 : s.length ≠ 0 := fun h => h0 (Or.inr (List.length_eq_zero.mp h))
  have h2 : string_or_char_size sep ≠ 0 := fun h => h0 (Or.inl h)
  simp only [List.length_drop]
  omega

end util

namespace util

/-! ## Lemmas on tables and strings -/

theorem tableFind_assign {β : Type} (m : StdMap β) (k : String) (v : β) (q : String) :
    tableFind (StdMap.assign m k v) q = if q = k then some v else tableFind m q := by
  induction m with
  | nil => simp [StdMap.assign, tableFind]
  | cons e rest ih =>
    obtain ⟨k0, v0⟩ := e
    by_cases h1 : k = k0
    · subst h1
      by_cases h2 : q = k <;> simp [StdMap.assign, tableFind, h2]
    · by_cases h3 : charsLt k.data k0.data = true
      · simp [StdMap.assign, tableFind, h1, h3]
      · by_cases h2 : q = k0
        · subst h2
          have h4 : ¬ q = k := fun h => h1 h.symm
          simp [StdMap.assign, tableFind, h1, h3, h4]
        · simp [StdMap.assign, tableFind, h1, h3, h2, ih]

theorem tableFind_none_of_not_mem {β : Type} (m : List (String × β)) (q : String)
    (h : q ∉ m.map Prod.fst) : tableFind m q = none := by
  induction m with
  | nil => rfl
  | cons e rest ih =>
    obtain ⟨k0, v0⟩ := e
    simp only [List.map_cons, List.mem_cons, not_or] at h
    simp [tableFind, h.1, ih h.2]

end util

namespace util

/-! ## Brackets -/

/-- C5: for each of the 21 built-in keys, the bracket constructed from the key alone has
the left, inner and right strings of the built-in table of the specification; the table
has 21 rows, `Brackets(SET)` is ("{", ",", "}") and `Brackets(DEQUE)` is
("^ ", " <- ", " $"). -/
theorem builtin_brackets_match_table :
    specBracketTable.length = 21 ∧
    specBracketTable.map Prod.fst = builtinKeys ∧
    (∀ row ∈ specBracketTable,
      (Brackets.fromKey row.1).left "" "" = row.2.1 ∧
      (Brackets.fromKey row.1).inner "" "" = row.2.2.1 ∧
      (Brackets.fromKey row.1).right "" "" = row.2.2.2) ∧
    ((Brackets.fromKey BracketKey.SET).left "" "" = "\x7b" ∧
      (Brackets.fromKey BracketKey.SET).inner "" "" = "," ∧
      (Brackets.fromKey BracketKey.SET).right "" "" = "\x7d") ∧
    ((Brackets.fromKey BracketKey.DEQUE).left "" "" = "^ " ∧
      (Brackets.fromKey BracketKey.DEQUE).inner "" "" = " <- " ∧
      (Brackets.fromKey BracketKey.DEQUE).right "" "" = " $") := by
  refine ⟨by decide, by decide, ?_, by decide, by decide⟩
  decide

/-- Witness of C5 at the row of the key "set". -/
theorem builtin_brackets_match_table_witness :
    ("set", "\x7b", ",", "\x7d") ∈ specBracketTable ∧
    (Brackets.fromKey "set").left "" "" = "\x7b" ∧
    (Brackets.fromKey "set").inner "" "" = "," ∧
    (Brackets.fromKey "set").right "" "" = "\x7d" :=
  ⟨by decide, builtin_brackets_match_table.2.2.1 ("set", "\x7b", ",", "\x7d") (by decide)⟩

/-- C8: for every key that is not one of the built-in identifiers, the bracket constructed
from the key alone exists (the constructor is total) and its left, inner and right are
empty. -/
theorem unknown_key_brackets_empty (key : String) (h : key ∉ builtinKeys) :
    Brackets.fromKey key = ⟨"", "", "", ""⟩ ∧
    (Brackets.fromKey key).left "" "" = "" ∧
    (Brackets.fromKey key).inner "" "" = "" ∧
    (Brackets.fromKey key).right "" "" = "" := by
  have hfind : tableFind DEFAULT_BRACKETS key = none :=
    tableFind_none_of_not_mem DEFAULT_BRACKETS key h
  have hb : Brackets.fromKey key = ⟨"", "", "", ""⟩ := by
    simp [Brackets.fromKey, hfind]
  rw [hb]
  exact ⟨rfl, by decide, by decide, by decide⟩

/-- Witness of C8 at the key "MyQueue". -/
theorem unknown_key_brackets_empty_witness :
    "MyQueue" ∉ builtinKeys ∧
    (Brackets.fromKey "MyQueue").left "" "" = "" ∧
    (Brackets.fromKey "MyQueue").inner "" "" = "" ∧
    (Brackets.fromKey "MyQueue").right "" "" = "" :=
  ⟨by decide, (unknown_key_brackets_empty "MyQueue" (by decide)).2⟩

/-- C9: for every key, strings l, i, r and paddings a, b, the bracket built from
(key, l, i, r) returns a + l + b, a + i + b and a + r + b, and l, i, r themselves when
the paddings are omitted; `Brackets(PIPE).left("=", "-")` is "=|-". -/
theorem custom_brackets_accessors (key l i r a b : String) :
    (Brackets.fromStrings key l i r).left a b = a ++ l ++ b ∧
    (Brackets.fromStrings key l i r).inner a b = a ++ i ++ b ∧
    (Brackets.fromStrings key l i r).right a b = a ++ r ++ b ∧
    (Brackets.fromStrings key l i r).left "" "" = l ∧
    (Brackets.fromStrings key l i r).inner "" "" = i ∧
    (Brackets.fromStrings key l i r).right "" "" = r ∧
    (Brackets.fromKey BracketKey.PIPE).left "=" "-" = "=|-" := by
  refine ⟨rfl, rfl, rfl, ?_, ?_, ?_, by decide⟩ <;>
    simp [Brackets.fromStrings, Brackets.left, Brackets.inner, Brackets.right]

end util

namespace util

/-! ## The registry -/

theorem getBracketOf_of_type_entry (P : Platform) (d : decorator) (T : Ty) (k : String)
    (b : Brackets) (h : tableFind d.type2brackets_ (decorator.typeString P T) = some b) :
    d.getBracketOf P T k = b := by
  simp [decorator.getBracketOf, h]

theorem getBracketOf_of_no_type_entry (P : Platform) (d : decorator) (T : Ty) (k : String)
    (h : tableFind d.type2brackets_ (decorator.typeString P T) = none) :
    d.getBracketOf P T k = d.getBracket k := by
  simp only [decorator.getBracketOf, decorator.getBracket, h]

theorem find_setBracketForKey (d : decorator) (k : String) (b : Brackets) (q : String) :
    tableFind (d.setBracketForKey k b).type2brackets_ q
      = if q = k then some b else tableFind d.type2brackets_ q := by
  simp [decorator.setBracketForKey, tableFind_assign]

/-- C2: `getBracket(v, k)` for a value of type T returns the bracket stored under T's type
name if one is stored; otherwise the bracket stored under k if one is stored; otherwise
the NONE bracket. A stored type-specific entry is returned whatever is stored under k,
and when both entries are registered, in either order, the type-specific one is
returned. -/
theorem getBracket_two_level (P : Platform) (d : decorator) (T : Ty) (k : String) :
    (∀ b, tableFind d.type2brackets_ (decorator.typeString P T) = some b →
      d.getBracketOf P T k = b) ∧
    (tableFind d.type2brackets_ (decorator.typeString P T) = none →
      ∀ b, tableFind d.type2brackets_ k = some b → d.getBracketOf P T k = b) ∧
    (tableFind d.type2brackets_ (decorator.typeString P T) = none →
      tableFind d.type2brackets_ k = none →
      d.getBracketOf P T k = Brackets.fromKey BracketKey.NONE) ∧
    (∀ bT bK, k ≠ decorator.typeString P T →
      ((d.setBracketForKey (decorator.typeString P T) bT).setBracketForKey k bK).getBracketOf
          P T k = bT ∧
      ((d.setBracketForKey k bK).setBracketForKey (decorator.typeString P T) bT).getBracketOf
          P T k = bT) := by
  refine ⟨fun b h => getBracketOf_of_type_entry P d T k b h, ?_, ?_, ?_⟩
  · intro h b hk
    rw [getBracketOf_of_no_type_entry P d T k h]
    simp [decorator.getBracket, hk]
  · intro h hk
    rw [getBracketOf_of_no_type_entry P d T k h]
    simp [decorator.getBracket, hk]
  · intro bT bK hne
    constructor
    · apply getBracketOf_of_type_entry
      rw [find_setBracketForKey, find_setBracketForKey]
      have hne2 : ¬ decorator.typeString P T = k := fun h => hne h.symm
      simp [hne2]
    · apply getBracketOf_of_type_entry
      rw [find_setBracketForKey]
      simp

/-- Witness of C2: with the g++ type names and the built-in defaults, a `vector<char>`
has no entry of its own and gets the VECTOR bracket; once an entry is stored under its
type name it gets that entry, also when VECTOR is registered afterwards. -/
theorem getBracket_two_level_witness :
    (defaultRegistry gccPlatform).getBracketOf gccPlatform (Ty.other "std::vector<char>")
        BracketKey.VECTOR = Brackets.fromKey BracketKey.VECTOR ∧
    (((defaultRegistry gccPlatform).setBracketForKey "St6vectorIcSaIcEE"
        (Brackets.fromStrings "St6vectorIcSaIcEE" "++ " " * " " ++")).setBracketForKey
        BracketKey.VECTOR (Brackets.fromStrings BracketKey.VECTOR "|| " " | " " ||")).getBracketOf
        gccPlatform (Ty.other "std::vector<char>") BracketKey.VECTOR
      = Brackets.fromStrings "St6vectorIcSaIcEE" "++ " " * " " ++" :=
  ⟨(getBracket_two_level gccPlatform (defaultRegistry gccPlatform)
      (Ty.other "std::vector<char>") BracketKey.VECTOR).2.1 (by decide)
      (Brackets.fromKey BracketKey.VECTOR) (by decide),
    ((getBracket_two_level gccPlatform (defaultRegistry gccPlatform)
      (Ty.other "std::vector<char>") BracketKey.VECTOR).2.2.2
      (Brackets.fromStrings "St6vectorIcSaIcEE" "++ " " * " " ++")
      (Brackets.fromStrings BracketKey.VECTOR "|| " " | " " ||") (by decide)).1⟩

/-- C7, as amended: for every registry state and every key that has no entry in the
bracket map, `getBracket(key)` returns the NONE default bracket set, whose left and
right are empty and whose inner is a single space. -/
theorem getBracket_absent_key (d : decorator) (key : String)
    (h : tableFind d.type2brackets_ key = none) :
    d.getBracket key = Brackets.fromKey BracketKey.NONE ∧
    (d.getBracket key).left "" "" = "" ∧
    (d.getBracket key).inner "" "" = " " ∧
    (d.getBracket key).right "" "" = "" := by
  have hb : d.getBracket key = Brackets.fromKey BracketKey.NONE := by
    simp [decorator.getBracket, h]
  rw [hb]
  exact ⟨rfl, by decide, by decide, by decide⟩

/-- Witness of C7 as amended: the key "deque" once the brackets were cleared. -/
theorem getBracket_absent_key_witness :
    tableFind ((defaultRegistry gccPlatform).clearBrackets).type2brackets_ "deque" = none ∧
    (((defaultRegistry gccPlatform).clearBrackets).getBracket "deque").left "" "" = "" ∧
    (((defaultRegistry gccPlatform).clearBrackets).getBracket "deque").inner "" "" = " " ∧
    (((defaultRegistry gccPlatform).clearBrackets).getBracket "deque").right "" "" = "" :=
  ⟨rfl, (getBracket_absent_key ((defaultRegistry gccPlatform).clearBrackets) "deque" rfl).2⟩

/-- Counterexample to C7 as stated: after `clearBrackets()` the key "deque" has no entry,
and the bracket `getBracket` returns for it has the inner string " ", not the empty
string. -/
theorem getBracket_absent_key_inner_not_empty :
    tableFind ((defaultRegistry gccPlatform).clearBrackets).type2brackets_ "deque" = none ∧
    ¬ ((((defaultRegistry gccPlatform).clearBrackets).getBracket "deque").left "" "" = "" ∧
      (((defaultRegistry gccPlatform).clearBrackets).getBracket "deque").inner "" "" = "" ∧
      (((defaultRegistry gccPlatform).clearBrackets).getBracket "deque").right "" "" = "") := by
  decide

end util

namespace util

theorem insertDefaults_fields (l : List (String × LeftInnerRight)) :
    ∀ d : decorator,
      (decorator.insertDefaults d l).intType2format_ = d.intType2format_ ∧
      (decorator.insertDefaults d l).floatType2format_ = d.floatType2format_ ∧
      (decorator.insertDefaults d l).alphaBool_ = d.alphaBool_ ∧
      (decorator.insertDefaults d l).type2brackets_
        = (decorator.insertDefaults ⟨d.type2brackets_, [], [], true⟩ l).type2brackets_ := by
  induction l with
  | nil => intro d; exact ⟨rfl, rfl, rfl, rfl⟩
  | cons kv rest ih =>
    intro d
    simp only [decorator.insertDefaults]
    obtain ⟨h1, h2, h3, h4⟩ := ih (d.setBracketForKey kv.1 (Brackets.fromKey kv.1))
    refine ⟨h1, h2, h3, ?_⟩
    rw [h4, (ih (decorator.setBracketForKey ⟨d.type2brackets_, [], [], true⟩ kv.1
      (Brackets.fromKey kv.1))).2.2.2]
    rfl

theorem initializeBrackets_eq (s : decorator) :
    decorator.initializeBrackets s
      = ⟨(decorator.initializeBrackets decorator.theInstance).type2brackets_, [], [],
          s.alphaBool_⟩ := by
  have h := insertDefaults_fields DEFAULT_BRACKETS (s.clearBrackets.clear)
  have h0 := insertDefaults_fields DEFAULT_BRACKETS (decorator.theInstance.clearBrackets.clear)
  obtain ⟨h1, h2, h3, h4⟩ := h
  cases hd : decorator.initializeBrackets s with
  | mk b i f a =>
    simp only [decorator.initializeBrackets] at hd
    rw [hd] at h1 h2 h3 h4
    simp only [decorator.initializeBrackets]
    rw [h0.2.2.2]
    simp only at h1 h2 h3 h4
    rw [h1, h2, h3, h4]
    rfl

theorem initializeIntFormat_eq (P : Platform) (d : decorator) :
    decorator.initializeIntFormat P d
      = { d with
          intType2format_ := (decorator.initializeIntFormat P decorator.theInstance).intType2format_ } := by
  simp only [decorator.initializeIntFormat, decorator.setIntFormat, decorator.clearIntFormat]

theorem initializeFloatFormat_eq (P : Platform) (d : decorator) :
    decorator.initializeFloatFormat P d
      = { d with
          floatType2format_ :=
            (decorator.initializeFloatFormat P decorator.theInstance).floatType2format_ } := by
  simp only [decorator.initializeFloatFormat, decorator.setFloatFormat,
    decorator.clearFloatFormat]

theorem initializeAll_eq (P : Platform) (s : decorator) :
    decorator.initializeAll P s
      = ⟨(decorator.initializeBrackets decorator.theInstance).type2brackets_,
          (decorator.initializeIntFormat P decorator.theInstance).intType2format_,
          (decorator.initializeFloatFormat P decorator.theInstance).floatType2format_,
          s.alphaBool_⟩ := by
  simp only [decorator.initializeAll]
  rw [initializeBrackets_eq, initializeIntFormat_eq, initializeFloatFormat_eq]

theorem find_setIntFormat (P : Platform) (d : decorator) (T : IntType) (fmt : intFmt)
    (q : String) :
    tableFind (d.setIntFormat P T fmt).intType2format_ q
      = if q = P.typeName (Ty.int T) then some fmt else tableFind d.intType2format_ q := by
  simp [decorator.setIntFormat, decorator.typeString, tableFind_assign]

theorem find_setFloatFormat (P : Platform) (d : decorator) (T : FloatType) (fmt : floatFmt)
    (q : String) :
    tableFind (d.setFloatFormat P T fmt).floatType2format_ q
      = if q = P.typeName (Ty.float T) then some fmt else tableFind d.floatType2format_ q := by
  simp [decorator.setFloatFormat, decorator.typeString, tableFind_assign]

theorem getIntFormat_initializeIntFormat (P : Platform) (d : decorator)
    (hInt : ∀ a b : IntType, P.typeName (Ty.int a) = P.typeName (Ty.int b) → a = b)
    (T : IntType) :
    (decorator.initializeIntFormat P d).getIntFormat P T = intFmt.ofBase (specIntBase T) := by
  have hiff : ∀ a b : IntType, P.typeName (Ty.int a) = P.typeName (Ty.int b) ↔ a = b :=
    fun a b => ⟨hInt a b, fun h => by rw [h]⟩
  simp only [decorator.getIntFormat, decorator.initializeIntFormat, decorator.typeString,
    find_setIntFormat, hiff]
  cases T <;> simp [specIntBase, decorator.clearIntFormat, tableFind]

theorem getFloatFormat_initializeFloatFormat (P : Platform) (d : decorator)
    (hFloat : ∀ a b : FloatType, P.typeName (Ty.float a) = P.typeName (Ty.float b) → a = b)
    (T : FloatType) :
    (decorator.initializeFloatFormat P d).getFloatFormat P T
      = floatFmt.ofBase FloatBase.scientific := by
  have hiff : ∀ a b : FloatType, P.typeName (Ty.float a) = P.typeName (Ty.float b) ↔ a = b :=
    fun a b => ⟨hFloat a b, fun h => by rw [h]⟩
  simp only [decorator.getFloatFormat, decorator.initializeFloatFormat, decorator.typeString,
    find_setFloatFormat, hiff]
  cases T <;> simp [decorator.clearFloatFormat, tableFind]

/-- C4: for every registry state s, `clear()` followed by `initialize()` yields the
bracket, integer-format and float-format maps of a freshly initialised registry; every
built-in key reads back its table bracket, every built-in integer and float type reads
back its default format (the type names of the eleven integer types, and of the three
floating-point types, being pairwise distinct), and no other key has an entry. The
initialiser is idempotent. -/
theorem clear_initialize_restores_defaults (P : Platform) (s : decorator)
    (hInt : ∀ a b : IntType, P.typeName (Ty.int a) = P.typeName (Ty.int b) → a = b)
    (hFloat : ∀ a b : FloatType, P.typeName (Ty.float a) = P.typeName (Ty.float b) → a = b) :
    (decorator.initializeAll P s.clear).type2brackets_ = (defaultRegistry P).type2brackets_ ∧
    (decorator.initializeAll P s.clear).intType2format_ = (defaultRegistry P).intType2format_ ∧
    (decorator.initializeAll P s.clear).floatType2format_
      = (defaultRegistry P).floatType2format_ ∧
    (∀ key ∈ builtinKeys,
      (decorator.initializeAll P s.clear).getBracket key = Brackets.fromKey key) ∧
    (∀ row ∈ specBracketTable,
      ((decorator.initializeAll P s.clear).getBracket row.1).left "" "" = row.2.1 ∧
      ((decorator.initializeAll P s.clear).getBracket row.1).inner "" "" = row.2.2.1 ∧
      ((decorator.initializeAll P s.clear).getBracket row.1).right "" "" = row.2.2.2) ∧
    (∀ key, key ∉ builtinKeys →
      tableFind (decorator.initializeAll P s.clear).type2brackets_ key = none) ∧
    (∀ T, (decorator.initializeAll P s.clear).getIntFormat P T
      = intFmt.ofBase (specIntBase T)) ∧
    (∀ T, (decorator.initializeAll P s.clear).getFloatFormat P T
      = floatFmt.ofBase FloatBase.scientific) ∧
    decorator.initializeAll P (decorator.initializeAll P s) = decorator.initializeAll P s := by
  have hs : decorator.initializeAll P s.clear
      = ⟨(decorator.initializeBrackets decorator.theInstance).type2brackets_,
          (decorator.initializeIntFormat P decorator.theInstance).intType2format_,
          (decorator.initializeFloatFormat P decorator.theInstance).floatType2format_,
          s.alphaBool_⟩ := initializeAll_eq P s.clear
  have hg : ∀ key, (decorator.initializeAll P s.clear).getBracket key
      = (decorator.initializeBrackets decorator.theInstance).getBracket key := by
    intro key
    rw [hs]
    rfl
  refine ⟨?_, ?_, ?_, ?_, ?_, ?_, ?_, ?_, ?_⟩
  · rw [hs, defaultRegistry, initializeAll_eq]
  · rw [hs, defaultRegistry, initializeAll_eq]
  · rw [hs, defaultRegistry, initializeAll_eq]
  · simp only [hg]
    have h : ∀ key ∈ builtinKeys,
        (decorator.initializeBrackets decorator.theInstance).getBracket key
          = Brackets.fromKey key := by decide
    exact h
  · simp only [hg]
    have h : ∀ row ∈ specBracketTable,
        ((decorator.initializeBrackets decorator.theInstance).getBracket row.1).left "" ""
            = row.2.1 ∧
        ((decorator.initializeBrackets decorator.theInstance).getBracket row.1).inner "" ""
            = row.2.2.1 ∧
        ((decorator.initializeBrackets decorator.theInstance).getBracket row.1).right "" ""
            = row.2.2.2 := by decide
    exact h
  · intro key hkey
    rw [hs]
    have hk : key ∉ (decorator.initializeBrackets decorator.theInstance).type2brackets_.map
        Prod.fst := by
      intro hmem
      apply hkey
      have hsub : ∀ q ∈ (decorator.initializeBrackets decorator.theInstance).type2brackets_.map
          Prod.fst, q ∈ builtinKeys := by decide
      exact hsub key hmem
    exact tableFind_none_of_not_mem _ key hk
  · intro T
    have h := getIntFormat_initializeIntFormat P decorator.theInstance hInt T
    rw [hs]
    exact h
  · intro T
    have h := getFloatFormat_initializeFloatFormat P decorator.theInstance hFloat T
    rw [hs]
    exact h
  · rw [initializeAll_eq P (decorator.initializeAll P s), initializeAll_eq P s]

/-- Witness of C4: the g++ type names are pairwise distinct on the integer and on the
floating-point types, and a registry with a custom VECTOR bracket and alpha-bool off
reads back the defaults once cleared and initialised. -/
theorem clear_initialize_restores_defaults_witness :
    (∀ a b : IntType,
      gccPlatform.typeName (Ty.int a) = gccPlatform.typeName (Ty.int b) → a = b) ∧
    (∀ a b : FloatType,
      gccPlatform.typeName (Ty.float a) = gccPlatform.typeName (Ty.float b) → a = b) ∧
    (decorator.initializeAll gccPlatform
        (((defaultRegistry gccPlatform).setBracketForKeyStrings BracketKey.VECTOR
          "|| " " | " " ||").setNoBoolAlpha).clear).type2brackets_
      = (defaultRegistry gccPlatform).type2brackets_ :=
  ⟨by intro a b; cases a <;> cases b <;> decide,
    by intro a b; cases a <;> cases b <;> decide,
    (clear_initialize_restores_defaults gccPlatform
      (((defaultRegistry gccPlatform).setBracketForKeyStrings BracketKey.VECTOR
        "|| " " | " " ||").setNoBoolAlpha)
      (by intro a b; cases a <;> cases b <;> decide)
      (by intro a b; cases a <;> cases b <;> decide)).1⟩

end util
namespace util

open OStream

/-! ## Streams only grow -/

theorem Extends.refl (a : OStream) : a.Extends a := ⟨"", by simp⟩

theorem Extends.trans {a b c : OStream} (h1 : a.Extends b) (h2 : b.Extends c) : a.Extends c := by
  obtain ⟨t1, h1⟩ := h1
  obtain ⟨t2, h2⟩ := h2
  exact ⟨t1 ++ t2, by rw [h2, h1, String.append_assoc]⟩

theorem Extends.insertString {a b : OStream} (s : String) (h : a.Extends b) :
    a.Extends (b.insertString s) :=
  Extends.trans h ⟨_, rfl⟩

theorem Extends.insertNum {a b : OStream} (t : NumText) (h : a.Extends b) :
    a.Extends (b.insertNum t) :=
  Extends.trans h ⟨_, rfl⟩

theorem Extends.of_out {a b c : OStream} (hc : c.out = b.out) (h : a.Extends b) :
    a.Extends c := by
  obtain ⟨t, h⟩ := h
  exact ⟨t, by rw [hc, h]⟩

theorem Extends.setFlags {a b : OStream} (f : FmtFlags) (h : a.Extends b) :
    a.Extends (b.setFlags f) := Extends.of_out rfl h
theorem Extends.setFill {a b : OStream} (c : Char) (h : a.Extends b) :
    a.Extends (b.setFill c) := Extends.of_out rfl h
theorem Extends.setWidth {a b : OStream} (n : Nat) (h : a.Extends b) :
    a.Extends (b.setWidth n) := Extends.of_out rfl h
theorem Extends.setPrecision {a b : OStream} (n : Nat) (h : a.Extends b) :
    a.Extends (b.setPrecision n) := Extends.of_out rfl h
theorem Extends.boolalpha {a b : OStream} (h : a.Extends b) : a.Extends b.boolalpha :=
  Extends.of_out rfl h
theorem Extends.noboolalpha {a b : OStream} (h : a.Extends b) : a.Extends b.noboolalpha :=
  Extends.of_out rfl h
theorem Extends.dec {a b : OStream} (h : a.Extends b) : a.Extends b.dec := Extends.of_out rfl h
theorem Extends.hex {a b : OStream} (h : a.Extends b) : a.Extends b.hex := Extends.of_out rfl h
theorem Extends.oct {a b : OStream} (h : a.Extends b) : a.Extends b.oct := Extends.of_out rfl h
theorem Extends.uppercase {a b : OStream} (h : a.Extends b) : a.Extends b.uppercase :=
  Extends.of_out rfl h
theorem Extends.nouppercase {a b : OStream} (h : a.Extends b) : a.Extends b.nouppercase :=
  Extends.of_out rfl h
theorem Extends.defaultfloat {a b : OStream} (h : a.Extends b) : a.Extends b.defaultfloat :=
  Extends.of_out rfl h
theorem Extends.scientific {a b : OStream} (h : a.Extends b) : a.Extends b.scientific :=
  Extends.of_out rfl h
theorem Extends.fixed {a b : OStream} (h : a.Extends b) : a.Extends b.fixed :=
  Extends.of_out rfl h
theorem Extends.hexfloat {a b : OStream} (h : a.Extends b) : a.Extends b.hexfloat :=
  Extends.of_out rfl h

theorem Extends.insertInt {a b : OStream} (T : IntType) (v : Int) (h : a.Extends b) :
    a.Extends (insertInt b T v) := by
  cases T <;> first | exact Extends.insertString _ h | exact Extends.insertNum _ h

theorem Extends.insertBool {a b : OStream} (v : Bool) (h : a.Extends b) :
    a.Extends (insertBool b v) := by
  unfold util.insertBool
  split
  · exact Extends.insertString _ h
  · exact Extends.insertNum _ h

theorem Extends.insertFloat {a b : OStream} (P : Platform) (T : FloatType) (x : FloatVal)
    (h : a.Extends b) : a.Extends (insertFloat P b T x) :=
  Extends.insertNum _ h

theorem decorateBool_extends (P : Platform) (d : decorator) (os : OStream) (b : Bool) :
    os.Extends (decorateBool P d os b) := by
  unfold decorateBool
  apply Extends.setFlags
  apply Extends.insertString
  apply Extends.insertBool
  apply Extends.insertString
  split
  · exact Extends.boolalpha (Extends.refl _)
  · exact Extends.noboolalpha (Extends.refl _)

theorem Extends.intBaseSwitch {a b : OStream} (fmt : intFmt) (h : a.Extends b) :
    a.Extends (intBaseSwitch fmt b) := by
  unfold util.intBaseSwitch
  split
  · exact Extends.dec h
  · apply Extends.hex
    split
    · exact Extends.insertString _ h
    · exact h
  · apply Extends.oct
    split
    · exact Extends.insertString _ h
    · exact h
  · exact h

theorem Extends.insertIntWidened {a b : OStream} (fmt : intFmt) (T : IntType) (v : Int)
    (h : a.Extends b) : a.Extends (insertIntWidened fmt T b v) := by
  unfold util.insertIntWidened
  split_ifs <;> exact Extends.insertInt _ _ h

theorem Extends.insertIntFormatted {a b : OStream} (fmt : intFmt) (T : IntType) (v : Int)
    (h : a.Extends b) : a.Extends (insertIntFormatted fmt T b v) := by
  unfold util.insertIntFormatted
  split
  · apply Extends.insertIntWidened
    split
    · exact Extends.uppercase (Extends.setWidth _ (Extends.setFill _ (Extends.intBaseSwitch _ h)))
    · exact Extends.setWidth _ (Extends.setFill _ (Extends.intBaseSwitch _ h))
  · exact Extends.insertInt _ _ h

theorem decorateInt_extends (P : Platform) (d : decorator) (os : OStream) (key : String)
    (T : IntType) (v : Int) : os.Extends (decorateInt P d os key T v) := by
  unfold decorateInt
  apply Extends.setFlags
  apply Extends.insertString
  split
  · exact Extends.nouppercase
      (Extends.insertIntFormatted _ _ _ (Extends.insertString _ (Extends.refl _)))
  · exact Extends.insertIntFormatted _ _ _ (Extends.insertString _ (Extends.refl _))

theorem Extends.floatBaseSwitch {a b : OStream} (fmt : floatFmt) (h : a.Extends b) :
    a.Extends (floatBaseSwitch fmt b) := by
  unfold util.floatBaseSwitch
  split
  · exact Extends.defaultfloat h
  · exact Extends.scientific h
  · exact Extends.hexfloat h
  · exact Extends.setWidth _ (Extends.setFill _ (Extends.setPrecision _ (Extends.fixed h)))

theorem decorateFloat_extends (P : Platform) (d : decorator) (os : OStream) (key : String)
    (T : FloatType) (x : FloatVal) : os.Extends (decorateFloat P d os key T x) := by
  unfold decorateFloat
  exact Extends.setFlags _ (Extends.insertString _ (Extends.insertFloat _ _ _
    (Extends.floatBaseSwitch _ (Extends.insertString _ (Extends.refl _)))))

theorem decorateString_extends (P : Platform) (d : decorator) (os : OStream) (T : Ty)
    (v : String) : os.Extends (decorateString P d os T v) := by
  unfold decorateString
  exact Extends.insertString _ (Extends.insertString _ (Extends.insertString _ (Extends.refl _)))

mutual
theorem decorate_extends (P : Platform) (d : decorator) :
    ∀ (v : Value) (os : OStream), os.Extends (decorate P d os v)
  | Value.bool b, os => by rw [decorate]; exact decorateBool_extends P d os b
  | Value.int T v, os => by rw [decorate]; exact decorateInt_extends P d os _ T v
  | Value.float T x, os => by rw [decorate]; exact decorateFloat_extends P d os _ T x
  | Value.string s, os => by rw [decorate]; exact decorateString_extends P d os _ s
  | Value.cstr s, os => by rw [decorate]; exact decorateString_extends P d os _ s
  | Value.string_view s, os => by rw [decorate]; exact decorateString_extends P d os _ s
  | Value.pair T a b, os => by
    rw [decorate]
    apply Extends.insertString
    refine Extends.trans ?_ (decorate_extends P d b _)
    apply Extends.insertString
    refine Extends.trans ?_ (decorate_extends P d a _)
    exact Extends.insertString _ (Extends.refl _)
  | Value.tuple T xs, os => by
    rw [decorate]
    apply Extends.insertString
    refine Extends.trans ?_ (iterateTuple_extends P d xs _ _)
    exact Extends.insertString _ (Extends.refl _)
  | Value.container k T [], os => by
    rw [decorate]
    exact Extends.insertString _ (Extends.insertString _ (Extends.refl _))
  | Value.container k T (x :: rest), os => by
    rw [decorate]
    apply Extends.insertString
    refine Extends.trans ?_ (containerLoop_extends P d (x :: rest) _ _)
    exact Extends.insertString _ (Extends.refl _)
  | Value.other T text, os => by rw [decorate]; exact Extends.insertString _ (Extends.refl _)
theorem iterateTuple_extends (P : Platform) (d : decorator) :
    ∀ (xs : List Value) (os : OStream) (br : Brackets), os.Extends (iterateTuple P d os br xs)
  | [], os, br => by rw [iterateTuple]; exact Extends.refl _
  | [x], os, br => by
    rw [iterateTuple]
    exact Extends.trans (decorate_extends P d x os) (iterateTuple_extends P d [] _ _)
  | x :: y :: r, os, br => by
    rw [iterateTuple]
    refine Extends.trans ?_ (iterateTuple_extends P d (y :: r) _ _)
    exact Extends.insertString _ (decorate_extends P d x os)
theorem containerLoop_extends (P : Platform) (d : decorator) :
    ∀ (xs : List Value) (os : OStream) (br : Brackets), os.Extends (containerLoop P d os br xs)
  | [], os, br => by rw [containerLoop]; exact Extends.refl _
  | [x], os, br => by
    rw [containerLoop]
    exact Extends.trans (decorate_extends P d x os) (containerLoop_extends P d [] _ _)
  | x :: y :: r, os, br => by
    rw [containerLoop]
    refine Extends.trans ?_ (containerLoop_extends P d (y :: r) _ _)
    exact Extends.insertString _ (decorate_extends P d x os)
end


/-! ### Field width and exact text -/

theorem insertString_width (os : OStream) (s : String) : (os.insertString s).width = 0 := rfl

theorem setFlags_width (os : OStream) (f : FmtFlags) : (os.setFlags f).width = os.width := rfl

theorem fillChars_zero (c : Char) : OStream.fillChars 0 c = "" := rfl

theorem insertString_out (os : OStream) (s : String) (h : os.width = 0) :
    (os.insertString s).out = os.out ++ s := by
  simp [OStream.insertString, h, fillChars_zero]

theorem Brackets.left_empty (b : Brackets) : b.left "" "" = b.left_ := by
  simp [Brackets.left]

theorem Brackets.inner_empty (b : Brackets) : b.inner "" "" = b.inner_ := by
  simp [Brackets.inner]

theorem Brackets.right_empty (b : Brackets) : b.right "" "" = b.right_ := by
  simp [Brackets.right]

theorem decorate_width (P : Platform) (d : decorator) (v : Value) (os : OStream) :
    (decorate P d os v).width = 0 := by
  cases v with
  | bool b => rw [decorate]; rfl
  | int T v => rw [decorate]; rfl
  | float T x => rw [decorate]; rfl
  | string s => rw [decorate]; rfl
  | cstr s => rw [decorate]; rfl
  | string_view s => rw [decorate]; rfl
  | pair T a b => rw [decorate]; rfl
  | tuple T xs => rw [decorate]; rfl
  | container k T xs => cases xs <;> (rw [decorate]; rfl)
  | other T text => rw [decorate]; rfl

theorem written_of_out (a b : OStream) (t : String) (h : b.out = a.out ++ t) :
    written a b = t := by
  simp [written, h]

theorem out_eq_append_written {a b : OStream} (h : a.Extends b) :
    b.out = a.out ++ written a b := by
  obtain ⟨t, ht⟩ := h
  rw [written_of_out a b t ht, ht]

theorem decorate_out (P : Platform) (d : decorator) (os : OStream) (v : Value) :
    (decorate P d os v).out = os.out ++ render P d os v :=
  out_eq_append_written (decorate_extends P d v os)

theorem intercalate_go_acc (sep : String) : ∀ (l : List String) (acc : String),
    String.intercalate.go acc sep l = acc ++ String.intercalate.go "" sep l
  | [], acc => by simp [String.intercalate.go]
  | x :: rest, acc => by
    rw [String.intercalate.go, String.intercalate.go, intercalate_go_acc sep rest (acc ++ sep ++ x),
      intercalate_go_acc sep rest ("" ++ sep ++ x)]
    simp [String.append_assoc]

theorem intercalate_cons_cons (sep a b : String) (l : List String) :
    String.intercalate sep (a :: b :: l) = a ++ sep ++ String.intercalate sep (b :: l) := by
  rw [String.intercalate, String.intercalate, String.intercalate.go, intercalate_go_acc,
    intercalate_go_acc sep l b]
  simp [String.append_assoc]

theorem containerLoop_out (P : Platform) (d : decorator) (br : Brackets) :
    ∀ (xs : List Value) (os : OStream),
      (containerLoop P d os br xs).out
        = os.out ++ String.intercalate br.inner_ (renderEach P d br.inner_ os xs)
  | [], os => by simp [containerLoop, renderEach, String.intercalate]
  | [x], os => by
    rw [containerLoop, containerLoop]
    simp [renderEach, String.intercalate, String.intercalate.go, decorate_out]
  | x :: y :: r, os => by
    rw [containerLoop, containerLoop_out P d br (y :: r), Brackets.inner_empty,
      insertString_out _ _ (decorate_width P d x os), decorate_out]
    simp only [renderEach]
    rw [intercalate_cons_cons]
    simp only [String.append_assoc]

theorem containerLoop_width (P : Platform) (d : decorator) (br : Brackets) :
    ∀ (xs : List Value) (os : OStream), os.width = 0 →
      (containerLoop P d os br xs).width = 0
  | [], os, h => by rw [containerLoop]; exact h
  | [x], os, _ => by
    rw [containerLoop]
    exact containerLoop_width P d br [] _ (decorate_width P d x os)
  | x :: y :: r, os, _ => by
    rw [containerLoop]
    exact containerLoop_width P d br (y :: r) _ rfl


theorem decorate_container_out (P : Platform) (d : decorator) (os : OStream)
    (kind : ContainerKind) (T : Ty) (elems : List Value) (h : os.width = 0) :
    (decorate P d os (Value.container kind T elems)).out
      = os.out ++ (d.getBracketOf P T (streamKey kind)).left_
        ++ String.intercalate (d.getBracketOf P T (streamKey kind)).inner_
            (renderEach P d (d.getBracketOf P T (streamKey kind)).inner_
              (os.insertString (d.getBracketOf P T (streamKey kind)).left_) elems)
        ++ (d.getBracketOf P T (streamKey kind)).right_ := by
  cases elems with
  | nil =>
    rw [decorate]
    simp [renderEach, String.intercalate, Brackets.left_empty, Brackets.right_empty,
      insertString_out, insertString_width, h]
  | cons x rest =>
    rw [decorate]
    simp only [Brackets.left_empty, Brackets.right_empty]
    rw [insertString_out _ _ (containerLoop_width P d _ _ _ (insertString_width _ _)),
      containerLoop_out, insertString_out _ _ h]


theorem renderEach_length (P : Platform) (d : decorator) (inner : String) :
    ∀ (xs : List Value) (os : OStream), (renderEach P d inner os xs).length = xs.length
  | [], _ => rfl
  | x :: rest, os => by
    rw [renderEach, List.length_cons, List.length_cons, renderEach_length P d inner rest]

theorem intercalate_length (sep : String) : ∀ (l : List String),
    (String.intercalate sep l).length
      = (l.map String.length).sum + (l.length - 1) * sep.length
  | [] => by simp [String.intercalate]
  | [a] => by simp [String.intercalate, String.intercalate.go]
  | a :: b :: l => by
    rw [intercalate_cons_cons, String.length_append, String.length_append,
      intercalate_length sep (b :: l)]
    simp only [List.map_cons, List.sum_cons, List.length_cons, Nat.add_sub_cancel]
    ring

theorem toString_container (P : Platform) (d : decorator) (kind : ContainerKind) (T : Ty)
    (elems : List Value) :
    toString P d (Value.container kind T elems)
      = (d.getBracketOf P T (streamKey kind)).left_
        ++ String.intercalate (d.getBracketOf P T (streamKey kind)).inner_
            (renderEach P d (d.getBracketOf P T (streamKey kind)).inner_
              (OStream.fresh.insertString (d.getBracketOf P T (streamKey kind)).left_) elems)
        ++ (d.getBracketOf P T (streamKey kind)).right_ := by
  unfold toString
  rw [decorate_container_out P d OStream.fresh kind T elems rfl]
  simp only [OStream.fresh, String.empty_append]

/-- C1: for every registry state and every container c whose elements in iteration order
are e1..eN, `decorate` writes exactly
left + render(e1) + inner + render(e2) + ... + inner + render(eN) + right, where
(left, inner, right) is the bracket the two-level lookup returns for c and render(ei) is
what `decorate` writes for ei when its turn comes. This is what `toString` returns, and
what is added to every sink that has no field width pending. There are N renderings, and
the text between the brackets is as long as the renderings together plus N-1 separators;
an empty container gives left + right and a one-element container
left + render(e1) + right. -/
theorem decorate_container_writes_joined (P : Platform) (d : decorator)
    (kind : ContainerKind) (T : Ty) (elems : List Value) :
    toString P d (Value.container kind T elems)
      = (d.getBracketOf P T (streamKey kind)).left_
        ++ String.intercalate (d.getBracketOf P T (streamKey kind)).inner_
            (renderEach P d (d.getBracketOf P T (streamKey kind)).inner_
              (OStream.fresh.insertString (d.getBracketOf P T (streamKey kind)).left_) elems)
        ++ (d.getBracketOf P T (streamKey kind)).right_ ∧
    (∀ os : OStream, os.width = 0 →
      (decorate P d os (Value.container kind T elems)).out
        = os.out ++ (d.getBracketOf P T (streamKey kind)).left_
          ++ String.intercalate (d.getBracketOf P T (streamKey kind)).inner_
              (renderEach P d (d.getBracketOf P T (streamKey kind)).inner_
                (os.insertString (d.getBracketOf P T (streamKey kind)).left_) elems)
          ++ (d.getBracketOf P T (streamKey kind)).right_) ∧
    (∀ os : OStream,
      (renderEach P d (d.getBracketOf P T (streamKey kind)).inner_ os elems).length
        = elems.length ∧
      (String.intercalate (d.getBracketOf P T (streamKey kind)).inner_
          (renderEach P d (d.getBracketOf P T (streamKey kind)).inner_ os elems)).length
        = ((renderEach P d (d.getBracketOf P T (streamKey kind)).inner_ os elems).map
            String.length).sum
          + (elems.length - 1) * (d.getBracketOf P T (streamKey kind)).inner_.length) ∧
    toString P d (Value.container kind T [])
      = (d.getBracketOf P T (streamKey kind)).left_
        ++ (d.getBracketOf P T (streamKey kind)).right_ ∧
    (∀ e, toString P d (Value.container kind T [e])
      = (d.getBracketOf P T (streamKey kind)).left_
        ++ render P d
            (OStream.fresh.insertString (d.getBracketOf P T (streamKey kind)).left_) e
        ++ (d.getBracketOf P T (streamKey kind)).right_) := by
  have hfresh : ∀ xs, toString P d (Value.container kind T xs)
      = (d.getBracketOf P T (streamKey kind)).left_
        ++ String.intercalate (d.getBracketOf P T (streamKey kind)).inner_
            (renderEach P d (d.getBracketOf P T (streamKey kind)).inner_
              (OStream.fresh.insertString (d.getBracketOf P T (streamKey kind)).left_) xs)
        ++ (d.getBracketOf P T (streamKey kind)).right_ :=
    fun xs => toString_container P d kind T xs
  refine ⟨hfresh elems, fun os h => decorate_container_out P d os kind T elems h, ?_, ?_, ?_⟩
  · intro os
    refine ⟨renderEach_length P d _ elems os, ?_⟩
    rw [intercalate_length, renderEach_length]
  · rw [hfresh []]
    simp [renderEach, String.intercalate]
  · intro e
    rw [hfresh [e]]
    simp [renderEach, String.intercalate, String.intercalate.go]

/-- Witness of C1: a `vector<int>` with the elements 1701 and 1702 and the built-in
defaults, on a new string stream; the text written is <1701,1702>. -/
theorem decorate_container_writes_joined_witness :
    OStream.fresh.width = 0 ∧
    (decorate gccPlatform (defaultRegistry gccPlatform) OStream.fresh
        (Value.container ContainerKind.vector (Ty.other "std::vector<int>")
          [Value.int IntType.int32_t 1701, Value.int IntType.int32_t 1702])).out
      = OStream.fresh.out ++ "<"
        ++ String.intercalate ","
            (renderEach gccPlatform (defaultRegistry gccPlatform) ","
              (OStream.fresh.insertString "<")
              [Value.int IntType.int32_t 1701, Value.int IntType.int32_t 1702])
        ++ ">" ∧
    toString gccPlatform (defaultRegistry gccPlatform)
        (Value.container ContainerKind.vector (Ty.other "std::vector<int>")
          [Value.int IntType.int32_t 1701, Value.int IntType.int32_t 1702])
      = "<1701,1702>" ∧
    toString gccPlatform (defaultRegistry gccPlatform)
        (Value.container ContainerKind.vector (Ty.other "std::vector<int>") [])
      = "<>" ∧
    toString gccPlatform (defaultRegistry gccPlatform)
        (Value.container ContainerKind.vector (Ty.other "std::vector<int>")
          [Value.int IntType.int32_t 1701])
      = "<1701>" :=
  ⟨rfl,
    (decorate_container_writes_joined gccPlatform (defaultRegistry gccPlatform)
      ContainerKind.vector (Ty.other "std::vector<int>")
      [Value.int IntType.int32_t 1701, Value.int IntType.int32_t 1702]).2.1 OStream.fresh rfl,
    by decide, by decide, by decide⟩

/-- C3, as amended: after `setBracketForObject(sample of type T, l, i, r)` the bracket
looked up for a value of type T is (l, i, r) under every default key, so every container
of type T is rendered between l and r with i as the separator, while for every
type U whose type name differs from T's and every default key other than T's type name the
bracket returned by `getBracket(u, key)` is the same as before the call. With the VECTOR
bracket set to ("|| ", " | ", " ||") and then `vector<char>` overridden with
("++ ", " * ", " ++"), a `vector<char>` renders as ++ 'a' * 'b' * 'c' ++ and a
`vector<int>` still renders with the bracket stored under VECTOR. -/
theorem setBracketForObject_frame (P : Platform) (d : decorator) (T : Ty) (l i r : String) :
    (∀ key, (d.setBracketForObject P T l i r).getBracketOf P T key
      = Brackets.fromStrings (decorator.typeString P T) l i r) ∧
    (∀ kind elems,
      toString P (d.setBracketForObject P T l i r) (Value.container kind T elems)
        = l ++ String.intercalate i
              (renderEach P (d.setBracketForObject P T l i r) i
                (OStream.fresh.insertString l) elems)
          ++ r) ∧
    (∀ U key, decorator.typeString P U ≠ decorator.typeString P T →
      key ≠ decorator.typeString P T →
      (d.setBracketForObject P T l i r).getBracketOf P U key = d.getBracketOf P U key) ∧
    (toString gccPlatform
        (((defaultRegistry gccPlatform).setBracketForKeyStrings BracketKey.VECTOR
          "|| " " | " " ||").setBracketForObject gccPlatform (Ty.other "std::vector<char>")
          "++ " " * " " ++")
        (Value.container ContainerKind.vector (Ty.other "std::vector<char>")
          [Value.int IntType.char 97, Value.int IntType.char 98, Value.int IntType.char 99])
      = "++ 'a' * 'b' * 'c' ++" ∧
     toString gccPlatform
        (((defaultRegistry gccPlatform).setBracketForKeyStrings BracketKey.VECTOR
          "|| " " | " " ||").setBracketForObject gccPlatform (Ty.other "std::vector<char>")
          "++ " " * " " ++")
        (Value.container ContainerKind.vector (Ty.other "std::vector<int>")
          [Value.int IntType.int32_t 1701, Value.int IntType.int32_t 1702])
      = "|| 1701 | 1702 ||") := by
  have hT : ∀ key, (d.setBracketForObject P T l i r).getBracketOf P T key
      = Brackets.fromStrings (decorator.typeString P T) l i r := by
    intro key
    apply getBracketOf_of_type_entry
    simp only [decorator.setBracketForObject]
    rw [find_setBracketForKey]
    simp
  refine ⟨hT, ?_, ?_, by decide⟩
  · intro kind elems
    rw [toString_container, hT]
    rfl
  · intro U key hU hkey
    simp only [decorator.setBracketForObject, decorator.getBracketOf]
    rw [find_setBracketForKey, find_setBracketForKey]
    simp [hU, hkey]

/-- Witness of C3 as amended: with the g++ type names, overriding `vector<char>` leaves
the VECTOR lookup of a `vector<int>` as it was. -/
theorem setBracketForObject_frame_witness :
    decorator.typeString gccPlatform (Ty.other "std::vector<int>")
      ≠ decorator.typeString gccPlatform (Ty.other "std::vector<char>") ∧
    BracketKey.VECTOR ≠ decorator.typeString gccPlatform (Ty.other "std::vector<char>") ∧
    ((defaultRegistry gccPlatform).setBracketForObject gccPlatform
        (Ty.other "std::vector<char>") "++ " " * " " ++").getBracketOf gccPlatform
        (Ty.other "std::vector<int>") BracketKey.VECTOR
      = (defaultRegistry gccPlatform).getBracketOf gccPlatform (Ty.other "std::vector<int>")
          BracketKey.VECTOR :=
  ⟨by decide, by decide,
    (setBracketForObject_frame gccPlatform (defaultRegistry gccPlatform)
      (Ty.other "std::vector<char>") "++ " " * " " ++").2.2.1
      (Ty.other "std::vector<int>") BracketKey.VECTOR (by decide) (by decide)⟩

/-- Counterexample to C3 as stated: `vector<int>` and `vector<char>` have different type
names, yet overriding `vector<char>` changes what `getBracket(vectorOfInt, key)` returns
for the key that is the type name of `vector<char>`. -/
theorem setBracketForObject_changes_lookup_by_type_name :
    decorator.typeString gccPlatform (Ty.other "std::vector<int>")
      ≠ decorator.typeString gccPlatform (Ty.other "std::vector<char>") ∧
    ((defaultRegistry gccPlatform).setBracketForObject gccPlatform
        (Ty.other "std::vector<char>") "++ " " * " " ++").getBracketOf gccPlatform
        (Ty.other "std::vector<int>") "St6vectorIcSaIcEE"
      ≠ (defaultRegistry gccPlatform).getBracketOf gccPlatform (Ty.other "std::vector<int>")
          "St6vectorIcSaIcEE" := by
  decide

end util

namespace util

open OStream

/-! ## Rendering with a cleared registry -/

theorem getBracketOf_clear (P : Platform) (d : decorator) (T : Ty) (key : String) :
    d.clear.getBracketOf P T key = ⟨"", "", " ", ""⟩ := rfl

theorem getBracket_clear (d : decorator) (key : String) :
    d.clear.getBracket key = ⟨"", "", " ", ""⟩ := rfl

theorem getIntFormat_clear (P : Platform) (d : decorator) (T : IntType) :
    d.clear.getIntFormat P T = intFmt.ofBase IntBase.default_format := rfl

theorem getFloatFormat_clear (P : Platform) (d : decorator) (T : FloatType) :
    d.clear.getFloatFormat P T = floatFmt.ofBase FloatBase.default_format := rfl

theorem insertString_freshWith (s t : String) :
    (freshWith s).insertString t = freshWith (s ++ t) := by
  simp [freshWith, OStream.insertString, OStream.fresh, OStream.fillChars]

theorem freshWith_flags (s : String) : (freshWith s).flags = FmtFlags.init := rfl

theorem fresh_eq : OStream.fresh = freshWith "" := rfl

theorem insertNum_freshWith (s : String) (t : NumText) :
    (freshWith s).insertNum t = freshWith (s ++ (t.lead ++ t.body)) := by
  simp [freshWith, OStream.insertNum, OStream.fresh, OStream.fillChars, FmtFlags.init,
    FmtFlags.adjustLeft, FmtFlags.adjustInternal, String.append_assoc]

theorem insertInt_freshWith (s : String) (T : IntType) (v : Int) :
    insertInt (freshWith s) T v = freshWith (s ++ (insertInt OStream.fresh T v).out) := by
  rw [fresh_eq]
  cases T <;>
    simp only [insertInt, insertString_freshWith, insertNum_freshWith, freshWith_flags,
      String.empty_append] <;> rfl

theorem decorateInt_clear (P : Platform) (d : decorator) (s key : String) (T : IntType)
    (v : Int) :
    decorateInt P d.clear (freshWith s) key T v
      = freshWith (s ++ (insertInt OStream.fresh T v).out) := by
  unfold decorateInt
  simp only [getBracketOf_clear, getIntFormat_clear]
  have hv : (intFmt.ofBase IntBase.default_format).isValid_ = false := rfl
  simp only [insertIntFormatted, hv, Brackets.left, Brackets.right, insertString_freshWith,
    insertInt_freshWith, String.append_empty, String.empty_append, Bool.false_eq_true,
    if_false]
  rfl


theorem insertFloat_freshWith (P : Platform) (s : String) (T : FloatType) (x : FloatVal) :
    insertFloat P (freshWith s) T x = freshWith (s ++ (insertFloat P OStream.fresh T x).out) := by
  rw [fresh_eq]
  simp only [insertFloat, insertNum_freshWith, String.empty_append]
  rfl

theorem decorateFloat_clear (P : Platform) (d : decorator) (s key : String) (T : FloatType)
    (x : FloatVal) :
    decorateFloat P d.clear (freshWith s) key T x
      = freshWith (s ++ (insertFloat P OStream.fresh T x).out) := by
  unfold decorateFloat
  simp only [getBracketOf_clear, getFloatFormat_clear]
  have hd : ∀ t, floatBaseSwitch (floatFmt.ofBase FloatBase.default_format) (freshWith t)
      = freshWith t := fun _ => rfl
  simp only [Brackets.left, Brackets.right, insertString_freshWith, hd, insertFloat_freshWith,
    String.append_empty, String.empty_append]
  rfl

theorem decorateString_clear (P : Platform) (d : decorator) (s : String) (T : Ty)
    (v : String) :
    decorateString P d.clear (freshWith s) T v = freshWith (s ++ v) := by
  unfold decorateString
  simp only [getBracketOf_clear, Brackets.left, Brackets.right, insertString_freshWith,
    String.append_empty, String.empty_append]

theorem decorateBool_clear (P : Platform) (d : decorator) (s : String) (b : Bool) :
    decorateBool P d.clear (freshWith s) b
      = freshWith (s ++ (insertBool
          (if d.alphaBool_ then OStream.fresh.boolalpha else OStream.fresh.noboolalpha) b).out) := by
  unfold decorateBool
  simp only [getBracketOf_clear, Brackets.left, Brackets.right]
  have ha : d.clear.getBoolAlpha = d.alphaBool_ := rfl
  rw [ha]
  cases d.alphaBool_ <;> cases b <;>
    simp [freshWith, OStream.fresh, OStream.insertString, OStream.fillChars, insertBool,
      OStream.boolalpha, OStream.noboolalpha, OStream.setFlags, FmtFlags.init, OStream.insertNum,
      FmtFlags.adjustLeft, FmtFlags.adjustInternal, String.append_assoc]


mutual
theorem decorate_clear (P : Platform) (d : decorator) :
    ∀ (v : Value) (s : String),
      decorate P d.clear (freshWith s) v = freshWith (s ++ plain P d.alphaBool_ v)
  | Value.bool b, s => by rw [decorate, plain]; exact decorateBool_clear P d s b
  | Value.int T v, s => by rw [decorate, plain]; exact decorateInt_clear P d s _ T v
  | Value.float T x, s => by rw [decorate, plain]; exact decorateFloat_clear P d s _ T x
  | Value.string v, s => by rw [decorate, plain]; exact decorateString_clear P d s _ v
  | Value.cstr v, s => by rw [decorate, plain]; exact decorateString_clear P d s _ v
  | Value.string_view v, s => by rw [decorate, plain]; exact decorateString_clear P d s _ v
  | Value.pair T a b, s => by
    rw [decorate, plain]
    simp only [getBracketOf_clear, Brackets.left, Brackets.right, Brackets.inner,
      insertString_freshWith, decorate_clear P d a, decorate_clear P d b, String.append_empty,
      String.empty_append, String.append_assoc]
  | Value.tuple T xs, s => by
    rw [decorate, plain]
    simp only [getBracketOf_clear, Brackets.left, Brackets.right,
      insertString_freshWith, iterateTuple_clear P d xs, String.append_empty,
      String.empty_append]
  | Value.container k T [], s => by
    rw [decorate, plain]
    simp only [getBracketOf_clear, Brackets.left, Brackets.right,
      insertString_freshWith, String.append_empty, String.empty_append, plainEach,
      String.intercalate]
  | Value.container k T (x :: rest), s => by
    rw [decorate, plain]
    simp only [getBracketOf_clear, Brackets.left, Brackets.right,
      insertString_freshWith, containerLoop_clear P d (x :: rest), String.append_empty,
      String.empty_append]
  | Value.other T text, s => by rw [decorate, plain, insertString_freshWith]
theorem iterateTuple_clear (P : Platform) (d : decorator) :
    ∀ (xs : List Value) (s : String),
      iterateTuple P d.clear (freshWith s) ⟨"", "", " ", ""⟩ xs
        = freshWith (s ++ String.intercalate " " (plainEach P d.alphaBool_ xs))
  | [], s => by simp only [iterateTuple, plainEach, String.intercalate, String.append_empty]
  | [x], s => by
    rw [iterateTuple, decorate_clear P d x, iterateTuple]
    simp only [plainEach, String.intercalate, String.intercalate.go]
  | x :: y :: r, s => by
    rw [iterateTuple, decorate_clear P d x]
    simp only [Brackets.inner, insertString_freshWith, String.append_empty,
      String.empty_append]
    rw [iterateTuple_clear P d (y :: r)]
    simp only [plainEach, intercalate_cons_cons, String.append_assoc]
theorem containerLoop_clear (P : Platform) (d : decorator) :
    ∀ (xs : List Value) (s : String),
      containerLoop P d.clear (freshWith s) ⟨"", "", " ", ""⟩ xs
        = freshWith (s ++ String.intercalate " " (plainEach P d.alphaBool_ xs))
  | [], s => by simp only [containerLoop, plainEach, String.intercalate, String.append_empty]
  | [x], s => by
    rw [containerLoop, decorate_clear P d x, containerLoop]
    simp only [plainEach, String.intercalate, String.intercalate.go]
  | x :: y :: r, s => by
    rw [containerLoop, decorate_clear P d x]
    simp only [Brackets.inner, insertString_freshWith, String.append_empty,
      String.empty_append]
    rw [containerLoop_clear P d (y :: r)]
    simp only [plainEach, intercalate_cons_cons, String.append_assoc]
end

theorem toString_clear (P : Platform) (d : decorator) (v : Value) :
    toString P d.clear v = plain P d.alphaBool_ v := by
  have h := decorate_clear P d v ""
  simp only [String.empty_append] at h
  unfold toString
  rw [fresh_eq, h]
  rfl


/-- C6: after `clear()`, every bracket lookup (by key, and by type with a default key)
yields left "", inner " " and right "", every integer format lookup yields the sentinel
format (not valid, base `default_format`) and every float format lookup the
`default_format` sentinel; `clear()` leaves the alpha-bool flag as it was. So `toString`
renders every value as its leaves joined by single spaces with no brackets, each leaf in
its native stream form except a boolean, which is still written as the word or the digit
the alpha-bool flag selects: with the flag off every value is rendered in its native
form, with the flag on (the initial state) a boolean leaf is `true` or `false`. The map
1:5, 2:3, 5:10 renders as 1 5 2 3 5 10 and the deque 1, 3, 4, 5 as 1 3 4 5 whatever the
flag; the deque of true and false renders as `true false` after `clear()` on the
built-in defaults, and as `1 0` once `setNoBoolAlpha()` was called. -/
theorem clear_renders_plain (P : Platform) (d : decorator) :
    (∀ key, (d.clear.getBracket key).left "" "" = "" ∧
      (d.clear.getBracket key).inner "" "" = " " ∧
      (d.clear.getBracket key).right "" "" = "") ∧
    (∀ T key, (d.clear.getBracketOf P T key).left "" "" = "" ∧
      (d.clear.getBracketOf P T key).inner "" "" = " " ∧
      (d.clear.getBracketOf P T key).right "" "" = "") ∧
    (∀ T, d.clear.getIntFormat P T = intFmt.ofBase IntBase.default_format ∧
      (d.clear.getIntFormat P T).isValid_ = false ∧
      (d.clear.getIntFormat P T).base_ = IntBase.default_format) ∧
    (∀ T, d.clear.getFloatFormat P T = floatFmt.ofBase FloatBase.default_format ∧
      (d.clear.getFloatFormat P T).base_ = FloatBase.default_format) ∧
    d.clear.getBoolAlpha = d.getBoolAlpha ∧
    (∀ v, toString P d.clear v = plain P d.getBoolAlpha v) ∧
    (∀ v, toString P d.setNoBoolAlpha.clear v = native P v) ∧
    (∀ b, plain P true (Value.bool b) = (if b then "true" else "false") ∧
      native P (Value.bool b) = (if b then "1" else "0") ∧
      native P (Value.bool b) = (insertBool OStream.fresh b).out) ∧
    (∀ alpha T x, plain P alpha (Value.int T x) = native P (Value.int T x)) ∧
    (∀ alpha T x, plain P alpha (Value.float T x) = native P (Value.float T x)) ∧
    (∀ alpha s, plain P alpha (Value.string s) = native P (Value.string s)) ∧
    toString P d.clear
        (Value.container ContainerKind.map (Ty.other "std::map<int, int>")
          [Value.pair (Ty.other "std::pair<const int, int>")
              (Value.int IntType.int32_t 1) (Value.int IntType.int32_t 5),
            Value.pair (Ty.other "std::pair<const int, int>")
              (Value.int IntType.int32_t 2) (Value.int IntType.int32_t 3),
            Value.pair (Ty.other "std::pair<const int, int>")
              (Value.int IntType.int32_t 5) (Value.int IntType.int32_t 10)])
      = "1 5 2 3 5 10" ∧
    toString P d.clear
        (Value.container ContainerKind.deque (Ty.other "std::deque<int>")
          [Value.int IntType.int32_t 1, Value.int IntType.int32_t 3,
            Value.int IntType.int32_t 4, Value.int IntType.int32_t 5])
      = "1 3 4 5" ∧
    toString gccPlatform (defaultRegistry gccPlatform).clear
        (Value.container ContainerKind.deque (Ty.other "std::deque<bool>")
          [Value.bool true, Value.bool false])
      = "true false" ∧
    toString gccPlatform (defaultRegistry gccPlatform).setNoBoolAlpha.clear
        (Value.container ContainerKind.deque (Ty.other "std::deque<bool>")
          [Value.bool true, Value.bool false])
      = "1 0" := by
  refine ⟨?_, ?_, ?_, ?_, rfl, toString_clear P d, ?_, ?_, ?_, ?_, ?_, ?_, ?_, by decide,
    by decide⟩
  · intro key
    rw [getBracket_clear]
    exact ⟨by decide, by decide, by decide⟩
  · intro T key
    rw [getBracketOf_clear]
    exact ⟨by decide, by decide, by decide⟩
  · intro T
    rw [getIntFormat_clear]
    exact ⟨rfl, rfl, rfl⟩
  · intro T
    rw [getFloatFormat_clear]
    exact ⟨rfl, rfl⟩
  · intro v
    rw [toString_clear]
    rfl
  · intro b
    have h1 : ∀ b : Bool, (insertBool OStream.fresh.boolalpha b).out
        = (if b then "true" else "false") := by decide
    have h2 : ∀ b : Bool, (insertBool OStream.fresh.noboolalpha b).out
        = (if b then "1" else "0") := by decide
    have h3 : ∀ b : Bool, (insertBool OStream.fresh.noboolalpha b).out
        = (insertBool OStream.fresh b).out := by decide
    simp only [native, plain, if_true, Bool.false_eq_true, if_false]
    exact ⟨h1 b, h2 b, h3 b⟩
  · intro alpha T x
    simp only [native, plain]
  · intro alpha T x
    simp only [native, plain]
  · intro alpha s
    simp only [native, plain]
  · rw [toString_clear]
    rfl
  · rw [toString_clear]
    rfl

/-- Counterexample to C6 as stated: after `clear()` on the built-in defaults the alpha-bool
flag is still set, and the deque of true and false is rendered as `true false`, whereas
the native stream form of its leaves joined by single spaces is `1 0`. -/
theorem clear_keeps_bool_words :
    (defaultRegistry gccPlatform).clear.getBoolAlpha = true ∧
    toString gccPlatform (defaultRegistry gccPlatform).clear
        (Value.container ContainerKind.deque (Ty.other "std::deque<bool>")
          [Value.bool true, Value.bool false])
      = "true false" ∧
    native gccPlatform
        (Value.container ContainerKind.deque (Ty.other "std::deque<bool>")
          [Value.bool true, Value.bool false])
      = "1 0" ∧
    (insertBool OStream.fresh true).out = "1" ∧ (insertBool OStream.fresh false).out = "0" ∧
    toString gccPlatform (defaultRegistry gccPlatform).clear (Value.bool true) = "true" := by
  refine ⟨by decide, by decide, by decide, by decide, by decide, by decide⟩

/-- C10: the stream operator of `unordered_multimap` passes the key MULTIMAP to
`decorate`, whereas the operator of each of the other nine container kinds passes the
key of its own kind; with the built-in defaults an `unordered_multimap` holding (1, 'a')
is therefore written as [#(1,'a')#], between the multimap brackets. -/
theorem unordered_multimap_streamed_as_multimap :
    streamKey ContainerKind.unordered_multimap = BracketKey.MULTIMAP ∧
    specKey ContainerKind.unordered_multimap = BracketKey.UNORDERED_MULTIMAP ∧
    (∀ kind, streamKey kind
      = if kind = ContainerKind.unordered_multimap then BracketKey.MULTIMAP
        else specKey kind) ∧
    toString gccPlatform (defaultRegistry gccPlatform)
        (Value.container ContainerKind.unordered_multimap
          (Ty.other "std::unordered_multimap<int, char>")
          [Value.pair (Ty.other "std::pair<const int, char>")
            (Value.int IntType.int32_t 1) (Value.int IntType.char 97)])
      = "[#(1,'a')#]" ∧
    toString gccPlatform (defaultRegistry gccPlatform)
        (Value.container ContainerKind.multimap (Ty.other "std::multimap<int, char>")
          [Value.pair (Ty.other "std::pair<const int, char>")
            (Value.int IntType.int32_t 1) (Value.int IntType.char 97)])
      = "[#(1,'a')#]" := by
  refine ⟨rfl, rfl, ?_, by decide, by decide⟩
  intro kind
  cases kind <;> rfl

end util

namespace util

open OStream

/-! ## Pairs and tuples -/

theorem iterateTuple_out (P : Platform) (d : decorator) (br : Brackets) :
    ∀ (xs : List Value) (os : OStream),
      (iterateTuple P d os br xs).out
        = os.out ++ String.intercalate br.inner_ (renderEach P d br.inner_ os xs)
  | [], os => by simp [iterateTuple, renderEach, String.intercalate]
  | [x], os => by
    rw [iterateTuple, iterateTuple]
    simp [renderEach, String.intercalate, String.intercalate.go, decorate_out]
  | x :: y :: r, os => by
    rw [iterateTuple, iterateTuple_out P d br (y :: r), Brackets.inner_empty,
      insertString_out _ _ (decorate_width P d x os), decorate_out]
    simp only [renderEach]
    rw [intercalate_cons_cons]
    simp only [String.append_assoc]

theorem iterateTuple_width (P : Platform) (d : decorator) (br : Brackets) :
    ∀ (xs : List Value) (os : OStream), os.width = 0 →
      (iterateTuple P d os br xs).width = 0
  | [], os, h => by rw [iterateTuple]; exact h
  | [x], os, _ => by
    rw [iterateTuple]
    exact iterateTuple_width P d br [] _ (decorate_width P d x os)
  | x :: y :: r, os, _ => by
    rw [iterateTuple]
    exact iterateTuple_width P d br (y :: r) _ rfl

theorem decorate_tuple_out (P : Platform) (d : decorator) (os : OStream) (T : Ty)
    (elems : List Value) (h : os.width = 0) :
    (decorate P d os (Value.tuple T elems)).out
      = os.out ++ (d.getBracketOf P T BracketKey.TUPLE).left_
        ++ String.intercalate (d.getBracketOf P T BracketKey.TUPLE).inner_
            (renderEach P d (d.getBracketOf P T BracketKey.TUPLE).inner_
              (os.insertString (d.getBracketOf P T BracketKey.TUPLE).left_) elems)
        ++ (d.getBracketOf P T BracketKey.TUPLE).right_ := by
  rw [decorate]
  simp only [Brackets.left_empty, Brackets.right_empty]
  rw [insertString_out _ _ (iterateTuple_width P d _ _ _ (insertString_width _ _)),
    iterateTuple_out, insertString_out _ _ h]

theorem decorate_pair_out (P : Platform) (d : decorator) (os : OStream) (T : Ty)
    (a b : Value) (h : os.width = 0) :
    (decorate P d os (Value.pair T a b)).out
      = os.out ++ (d.getBracketOf P T BracketKey.PAIR).left_
        ++ render P d (os.insertString (d.getBracketOf P T BracketKey.PAIR).left_) a
        ++ (d.getBracketOf P T BracketKey.PAIR).inner_
        ++ render P d
            ((decorate P d (os.insertString (d.getBracketOf P T BracketKey.PAIR).left_)
              a).insertString (d.getBracketOf P T BracketKey.PAIR).inner_) b
        ++ (d.getBracketOf P T BracketKey.PAIR).right_ := by
  rw [decorate]
  simp only [Brackets.left_empty, Brackets.right_empty, Brackets.inner_empty]
  rw [insertString_out _ _ (decorate_width P d b _), decorate_out,
    insertString_out _ _ (decorate_width P d a _), decorate_out, insertString_out _ _ h]

theorem render_pair (P : Platform) (d : decorator) (os : OStream) (T : Ty)
    (a b : Value) (h : os.width = 0) :
    render P d os (Value.pair T a b)
      = (d.getBracketOf P T BracketKey.PAIR).left_
        ++ render P d (os.insertString (d.getBracketOf P T BracketKey.PAIR).left_) a
        ++ (d.getBracketOf P T BracketKey.PAIR).inner_
        ++ render P d
            ((decorate P d (os.insertString (d.getBracketOf P T BracketKey.PAIR).left_)
              a).insertString (d.getBracketOf P T BracketKey.PAIR).inner_) b
        ++ (d.getBracketOf P T BracketKey.PAIR).right_ := by
  have hout := decorate_pair_out P d os T a b h
  exact written_of_out os _ _ (by rw [hout]; simp only [String.append_assoc])


theorem toString_tuple (P : Platform) (d : decorator) (T : Ty) (elems : List Value) :
    toString P d (Value.tuple T elems)
      = (d.getBracketOf P T BracketKey.TUPLE).left_
        ++ String.intercalate (d.getBracketOf P T BracketKey.TUPLE).inner_
            (renderEach P d (d.getBracketOf P T BracketKey.TUPLE).inner_
              (OStream.fresh.insertString (d.getBracketOf P T BracketKey.TUPLE).left_) elems)
        ++ (d.getBracketOf P T BracketKey.TUPLE).right_ := by
  unfold toString
  rw [decorate_tuple_out P d OStream.fresh T elems rfl]
  simp only [OStream.fresh, String.empty_append]

/-- C11: for every pair (a, b), streaming it writes
left + render(a) + inner + render(b) + right with the bracket looked up for the pair
under the key PAIR, where render(a) and render(b) are what `decorate` writes for the
members when their turn comes; this is what `toString` returns and what is added to
every sink with no field width pending. In a sequence of elements every entry that is a
pair is rendered this way, in the order of the sequence; with the defaults the map
1:5, 2:3, 5:10 renders as [(1,5),(2,3),(5,10)]. -/
theorem pair_writes_bracketed_members (P : Platform) (d : decorator) (T : Ty)
    (a b : Value) :
    toString P d (Value.pair T a b)
      = (d.getBracketOf P T BracketKey.PAIR).left_
        ++ render P d (OStream.fresh.insertString (d.getBracketOf P T BracketKey.PAIR).left_) a
        ++ (d.getBracketOf P T BracketKey.PAIR).inner_
        ++ render P d
            ((decorate P d
              (OStream.fresh.insertString (d.getBracketOf P T BracketKey.PAIR).left_)
              a).insertString (d.getBracketOf P T BracketKey.PAIR).inner_) b
        ++ (d.getBracketOf P T BracketKey.PAIR).right_ ∧
    (∀ os : OStream, os.width = 0 →
      (decorate P d os (Value.pair T a b)).out
        = os.out ++ (d.getBracketOf P T BracketKey.PAIR).left_
          ++ render P d (os.insertString (d.getBracketOf P T BracketKey.PAIR).left_) a
          ++ (d.getBracketOf P T BracketKey.PAIR).inner_
          ++ render P d
              ((decorate P d (os.insertString (d.getBracketOf P T BracketKey.PAIR).left_)
                a).insertString (d.getBracketOf P T BracketKey.PAIR).inner_) b
          ++ (d.getBracketOf P T BracketKey.PAIR).right_) ∧
    (∀ (os : OStream) (sep : String) (rest : List Value), os.width = 0 →
      renderEach P d sep os (Value.pair T a b :: rest)
        = ((d.getBracketOf P T BracketKey.PAIR).left_
            ++ render P d (os.insertString (d.getBracketOf P T BracketKey.PAIR).left_) a
            ++ (d.getBracketOf P T BracketKey.PAIR).inner_
            ++ render P d
                ((decorate P d (os.insertString (d.getBracketOf P T BracketKey.PAIR).left_)
                  a).insertString (d.getBracketOf P T BracketKey.PAIR).inner_) b
            ++ (d.getBracketOf P T BracketKey.PAIR).right_)
          :: renderEach P d sep ((decorate P d os (Value.pair T a b)).insertString sep) rest ∧
      ((decorate P d os (Value.pair T a b)).insertString sep).width = 0) ∧
    toString gccPlatform (defaultRegistry gccPlatform)
        (Value.container ContainerKind.map (Ty.other "std::map<int, int>")
          [Value.pair (Ty.other "std::pair<const int, int>")
              (Value.int IntType.int32_t 1) (Value.int IntType.int32_t 5),
            Value.pair (Ty.other "std::pair<const int, int>")
              (Value.int IntType.int32_t 2) (Value.int IntType.int32_t 3),
            Value.pair (Ty.other "std::pair<const int, int>")
              (Value.int IntType.int32_t 5) (Value.int IntType.int32_t 10)])
      = "[(1,5),(2,3),(5,10)]" := by
  refine ⟨?_, fun os h => decorate_pair_out P d os T a b h, ?_, by decide⟩
  · unfold toString
    rw [decorate_pair_out P d OStream.fresh T a b rfl]
    simp only [OStream.fresh, String.empty_append]
  · intro os sep rest h
    refine ⟨?_, rfl⟩
    rw [renderEach, render_pair P d os T a b h]

/-- Witness of C11: the pair (1, 5) of a `map<int, int>` with the built-in defaults, on a
new string stream; the text written is (1,5). -/
theorem pair_writes_bracketed_members_witness :
    OStream.fresh.width = 0 ∧
    (decorate gccPlatform (defaultRegistry gccPlatform) OStream.fresh
        (Value.pair (Ty.other "std::pair<const int, int>")
          (Value.int IntType.int32_t 1) (Value.int IntType.int32_t 5))).out
      = OStream.fresh.out ++ "("
        ++ render gccPlatform (defaultRegistry gccPlatform) (OStream.fresh.insertString "(")
            (Value.int IntType.int32_t 1)
        ++ ","
        ++ render gccPlatform (defaultRegistry gccPlatform)
            ((decorate gccPlatform (defaultRegistry gccPlatform)
              (OStream.fresh.insertString "(") (Value.int IntType.int32_t 1)).insertString ",")
            (Value.int IntType.int32_t 5)
        ++ ")" ∧
    toString gccPlatform (defaultRegistry gccPlatform)
        (Value.pair (Ty.other "std::pair<const int, int>")
          (Value.int IntType.int32_t 1) (Value.int IntType.int32_t 5))
      = "(1,5)" :=
  ⟨rfl,
    (pair_writes_bracketed_members gccPlatform (defaultRegistry gccPlatform)
      (Ty.other "std::pair<const int, int>") (Value.int IntType.int32_t 1)
      (Value.int IntType.int32_t 5)).2.1 OStream.fresh rfl,
    by decide⟩

set_option maxRecDepth 8000 in
/-- C12: for every tuple with the elements t0..t(N-1), `decorate` writes
left + render(t0) + inner + ... + inner + render(t(N-1)) + right with the bracket looked
up for the tuple under the key TUPLE, render(ti) being what `decorate` writes for ti when
its turn comes; this is what `toString` returns and what is added to every sink with no
field width pending. The elements appear in index order, there are N renderings and the
text between the brackets is as long as the renderings together plus N-1 separators; the
empty tuple gives left + right and a one-element tuple left + render(t0) + right. With
the defaults the tuple (123, "abc", 666.0) renders as (123,"abc",6.660000e+02). -/
theorem decorate_tuple_writes_joined (P : Platform) (d : decorator) (T : Ty)
    (elems : List Value) :
    toString P d (Value.tuple T elems)
      = (d.getBracketOf P T BracketKey.TUPLE).left_
        ++ String.intercalate (d.getBracketOf P T BracketKey.TUPLE).inner_
            (renderEach P d (d.getBracketOf P T BracketKey.TUPLE).inner_
              (OStream.fresh.insertString (d.getBracketOf P T BracketKey.TUPLE).left_) elems)
        ++ (d.getBracketOf P T BracketKey.TUPLE).right_ ∧
    (∀ os : OStream, os.width = 0 →
      (decorate P d os (Value.tuple T elems)).out
        = os.out ++ (d.getBracketOf P T BracketKey.TUPLE).left_
          ++ String.intercalate (d.getBracketOf P T BracketKey.TUPLE).inner_
              (renderEach P d (d.getBracketOf P T BracketKey.TUPLE).inner_
                (os.insertString (d.getBracketOf P T BracketKey.TUPLE).left_) elems)
          ++ (d.getBracketOf P T BracketKey.TUPLE).right_) ∧
    (∀ os : OStream,
      (renderEach P d (d.getBracketOf P T BracketKey.TUPLE).inner_ os elems).length
        = elems.length ∧
      (String.intercalate (d.getBracketOf P T BracketKey.TUPLE).inner_
          (renderEach P d (d.getBracketOf P T BracketKey.TUPLE).inner_ os elems)).length
        = ((renderEach P d (d.getBracketOf P T BracketKey.TUPLE).inner_ os elems).map
            String.length).sum
          + (elems.length - 1) * (d.getBracketOf P T BracketKey.TUPLE).inner_.length) ∧
    toString P d (Value.tuple T [])
      = (d.getBracketOf P T BracketKey.TUPLE).left_
        ++ (d.getBracketOf P T BracketKey.TUPLE).right_ ∧
    (∀ e, toString P d (Value.tuple T [e])
      = (d.getBracketOf P T BracketKey.TUPLE).left_
        ++ render P d
            (OStream.fresh.insertString (d.getBracketOf P T BracketKey.TUPLE).left_) e
        ++ (d.getBracketOf P T BracketKey.TUPLE).right_) ∧
    toString gccPlatform (defaultRegistry gccPlatform)
        (Value.tuple (Ty.other "std::tuple<long, std::string, double>")
          [Value.int IntType.int64_t 123, Value.string "abc",
            Value.float FloatType.double ⟨333, 1⟩])
      = "(123,\"abc\",6.660000e+02)" := by
  refine ⟨toString_tuple P d T elems, fun os h => decorate_tuple_out P d os T elems h, ?_, ?_,
    ?_, by decide⟩
  · intro os
    refine ⟨renderEach_length P d _ elems os, ?_⟩
    rw [intercalate_length, renderEach_length]
  · rw [toString_tuple]
    simp [renderEach, String.intercalate]
  · intro e
    rw [toString_tuple]
    simp [renderEach, String.intercalate, String.intercalate.go]

/-- Witness of C12: the tuple (123, "abc") with the built-in defaults on a new string
stream. -/
theorem decorate_tuple_writes_joined_witness :
    OStream.fresh.width = 0 ∧
    (decorate gccPlatform (defaultRegistry gccPlatform) OStream.fresh
        (Value.tuple (Ty.other "std::tuple<long, std::string>")
          [Value.int IntType.int64_t 123, Value.string "abc"])).out
      = OStream.fresh.out ++ "("
        ++ String.intercalate ","
            (renderEach gccPlatform (defaultRegistry gccPlatform) ","
              (OStream.fresh.insertString "(")
              [Value.int IntType.int64_t 123, Value.string "abc"])
        ++ ")" ∧
    toString gccPlatform (defaultRegistry gccPlatform)
        (Value.tuple (Ty.other "std::tuple<long, std::string>")
          [Value.int IntType.int64_t 123, Value.string "abc"])
      = "(123,\"abc\")" :=
  ⟨rfl,
    (decorate_tuple_writes_joined gccPlatform (defaultRegistry gccPlatform)
      (Ty.other "std::tuple<long, std::string>")
      [Value.int IntType.int64_t 123, Value.string "abc"]).2.1 OStream.fresh rfl,
    by decide⟩

/-! ## Booleans -/

theorem insertNum_out_of_width_zero (os : OStream) (t : NumText) (h : os.width = 0) :
    (os.insertNum t).out = os.out ++ t.lead ++ t.body := by
  simp only [OStream.insertNum, h, Nat.zero_sub, fillChars_zero]
  split
  · simp [String.append_assoc]
  · split <;> simp [String.append_assoc]

theorem intText_bool (f : FmtFlags) (hp : f.showpos = false) (hb : f.showbase = false)
    (b : Bool) :
    (intText f true 64 (if b then 1 else 0)).lead ++ (intText f true 64 (if b then 1 else 0)).body
      = if b then "1" else "0" := by
  cases hO : f.baseOct <;> cases hH : f.baseHex <;> cases hU : f.uppercase <;> cases b <;>
    simp only [intText, hO, hH, hU, hp, hb, Bool.false_eq_true, if_false, if_true,
      Bool.false_and, Bool.true_and] <;> decide

theorem decorateBool_out (P : Platform) (d : decorator) (os : OStream) (b : Bool)
    (h : os.width = 0) :
    (d.alphaBool_ = true →
      (decorateBool P d os b).out
        = os.out ++ (d.getBracketOf P Ty.bool BracketKey.BOOL).left_
          ++ (if b then "true" else "false")
          ++ (d.getBracketOf P Ty.bool BracketKey.BOOL).right_) ∧
    (d.alphaBool_ = false → os.flags.showpos = false → os.flags.showbase = false →
      (decorateBool P d os b).out
        = os.out ++ (d.getBracketOf P Ty.bool BracketKey.BOOL).left_
          ++ (if b then "1" else "0")
          ++ (d.getBracketOf P Ty.bool BracketKey.BOOL).right_) := by
  constructor
  · intro ha
    unfold decorateBool
    simp only [decorator.getBoolAlpha, ha, if_true, Brackets.left_empty, Brackets.right_empty]
    have h1 : (os.boolalpha.insertString
        (d.getBracketOf P Ty.bool BracketKey.BOOL).left_).flags.boolalpha = true := rfl
    simp only [insertBool, h1, if_true]
    rw [show ∀ x : OStream, (x.setFlags os.flags).out = x.out from fun _ => rfl]
    rw [insertString_out _ _ (insertString_width _ _), insertString_out _ _ (insertString_width _ _),
      insertString_out _ _ (show os.boolalpha.width = 0 from h)]
    rfl
  · intro ha hp hb
    unfold decorateBool
    simp only [decorator.getBoolAlpha, ha, Bool.false_eq_true, if_false, Brackets.left_empty,
      Brackets.right_empty]
    have h1 : (os.noboolalpha.insertString
        (d.getBracketOf P Ty.bool BracketKey.BOOL).left_).flags.boolalpha = false := rfl
    simp only [insertBool, h1, Bool.false_eq_true, if_false]
    rw [show ∀ x : OStream, (x.setFlags os.flags).out = x.out from fun _ => rfl]
    have hw : ((os.noboolalpha.insertString
        (d.getBracketOf P Ty.bool BracketKey.BOOL).left_).insertNum
        (intText (os.noboolalpha.insertString
          (d.getBracketOf P Ty.bool BracketKey.BOOL).left_).flags true 64
          (if b = true then 1 else 0))).width = 0 := rfl
    rw [insertString_out _ _ hw, insertNum_out_of_width_zero _ _ (insertString_width _ _),
      insertString_out _ _ (show os.noboolalpha.width = 0 from h)]
    have hk := intText_bool (os.noboolalpha.insertString
        (d.getBracketOf P Ty.bool BracketKey.BOOL).left_).flags hp hb b
    rw [String.append_assoc _ (intText _ _ _ _).lead, hk]
    rfl

theorem toString_bool (P : Platform) (d : decorator) (b : Bool) :
    toString P d (Value.bool b)
      = (d.getBracketOf P Ty.bool BracketKey.BOOL).left_ ++ boolWord d.getBoolAlpha b
        ++ (d.getBracketOf P Ty.bool BracketKey.BOOL).right_ := by
  unfold toString
  rw [decorate]
  have h := decorateBool_out P d OStream.fresh b rfl
  unfold boolWord decorator.getBoolAlpha
  cases ha : d.alphaBool_
  · rw [h.2 ha rfl rfl]
    simp [OStream.fresh]
  · rw [h.1 ha]
    simp [OStream.fresh]

/-! ## Integers under a numeric format -/

/-- C13: for every boolean b, `decorate` writes left + w + right with the bracket looked
up for the type `bool` and the key BOOL, where w is the word `true` or `false` when the
alpha-bool flag of the registry is on and the digit `1` or `0` when it is off: so for
`toString`, and for every sink with no field width pending (with the flag off, a sink
that does not show a plus sign or a base mark). `setBoolAlpha` and `setNoBoolAlpha` set
the flag and leave the three maps alone, and `getBoolAlpha` reads the flag back; e.g.
with the built-in defaults `true` is written as `true`, and as `1` after
`setNoBoolAlpha`. -/
theorem bool_writes_word_or_digit (P : Platform) (d : decorator) (b : Bool) :
    toString P d (Value.bool b)
      = (d.getBracketOf P Ty.bool BracketKey.BOOL).left_ ++ boolWord d.getBoolAlpha b
        ++ (d.getBracketOf P Ty.bool BracketKey.BOOL).right_ ∧
    (∀ os : OStream, os.width = 0 →
      (d.getBoolAlpha = false → os.flags.showpos = false ∧ os.flags.showbase = false) →
      (decorate P d os (Value.bool b)).out
        = os.out ++ (d.getBracketOf P Ty.bool BracketKey.BOOL).left_
          ++ boolWord d.getBoolAlpha b
          ++ (d.getBracketOf P Ty.bool BracketKey.BOOL).right_) ∧
    (boolWord true true = "true" ∧ boolWord true false = "false" ∧
      boolWord false true = "1" ∧ boolWord false false = "0") ∧
    (d.setBoolAlpha.getBoolAlpha = true ∧ d.setNoBoolAlpha.getBoolAlpha = false ∧
      d.setBoolAlpha.type2brackets_ = d.type2brackets_ ∧
      d.setNoBoolAlpha.type2brackets_ = d.type2brackets_ ∧
      d.setBoolAlpha.intType2format_ = d.intType2format_ ∧
      d.setNoBoolAlpha.intType2format_ = d.intType2format_ ∧
      d.setBoolAlpha.floatType2format_ = d.floatType2format_ ∧
      d.setNoBoolAlpha.floatType2format_ = d.floatType2format_) ∧
    toString gccPlatform (defaultRegistry gccPlatform) (Value.bool true) = "true" ∧
    toString gccPlatform (defaultRegistry gccPlatform).setNoBoolAlpha (Value.bool true)
      = "1" ∧
    toString gccPlatform (defaultRegistry gccPlatform).setNoBoolAlpha.setBoolAlpha
        (Value.bool false) = "false" := by
  refine ⟨toString_bool P d b, ?_, ⟨rfl, rfl, rfl, rfl⟩, ⟨rfl, rfl, rfl, rfl, rfl, rfl, rfl, rfl⟩,
    by decide, by decide, by decide⟩
  intro os hw hflags
  rw [decorate]
  have h := decorateBool_out P d os b hw
  unfold boolWord decorator.getBoolAlpha
  unfold decorator.getBoolAlpha at hflags
  cases ha : d.alphaBool_
  · rw [h.2 ha (hflags ha).1 (hflags ha).2]
    rfl
  · rw [h.1 ha]
    rfl

/-- Witness of C13: `false` with the alpha-bool flag switched off, on a new stream that
already holds `b=`. -/
theorem bool_writes_word_or_digit_witness :
    (freshWith "b=").width = 0 ∧
    (decorate gccPlatform (defaultRegistry gccPlatform).setNoBoolAlpha (freshWith "b=")
      (Value.bool false)).out = "b=0" :=
  ⟨rfl,
    ((bool_writes_word_or_digit gccPlatform (defaultRegistry gccPlatform).setNoBoolAlpha
      false).2.1 (freshWith "b=") rfl (fun _ => ⟨rfl, rfl⟩)).trans (by decide)⟩

theorem keys_assign {β : Type} (m : StdMap β) (k : String) (v : β)
    (h : k ∉ m.map Prod.fst) :
    ((StdMap.assign m k v).map Prod.fst).Perm (k :: m.map Prod.fst) := by
  induction m with
  | nil => simp [StdMap.assign]
  | cons e rest ih =>
    obtain ⟨k0, v0⟩ := e
    simp only [List.map_cons, List.mem_cons, not_or] at h
    by_cases h3 : charsLt k.data k0.data = true
    · simp [StdMap.assign, h.1, h3]
    · simp only [StdMap.assign, h.1, h3, if_false, List.map_cons, Bool.false_eq_true]
      exact (List.Perm.cons k0 (ih h.2)).trans (List.Perm.swap k k0 _)

theorem keys_assign_of_perm {β : Type} (m : StdMap β) (ks : List String) (k : String) (v : β)
    (hp : (m.map Prod.fst).Perm ks) (hk : k ∉ ks) :
    ((StdMap.assign m k v).map Prod.fst).Perm (k :: ks) :=
  (keys_assign m k v (fun hm => hk (hp.mem_iff.mp hm))).trans (List.Perm.cons k hp)

theorem keys_initializeIntFormat (P : Platform) (d : decorator)
    (hInt : ∀ a b : IntType, P.typeName (Ty.int a) = P.typeName (Ty.int b) → a = b) :
    ((decorator.initializeIntFormat P d).intType2format_.map Prod.fst).Perm
      ([IntType.uint64_t, IntType.uint32_t, IntType.uint16_t, IntType.uint8_t,
        IntType.int64_t, IntType.int32_t, IntType.int16_t, IntType.int8_t, IntType.char32_t,
        IntType.char16_t, IntType.char].map (fun T => P.typeName (Ty.int T))) := by
  have hiff : ∀ a b : IntType, P.typeName (Ty.int a) = P.typeName (Ty.int b) ↔ a = b :=
    fun a b => ⟨hInt a b, fun h => by rw [h]⟩
  simp only [decorator.initializeIntFormat, decorator.setIntFormat, decorator.clearIntFormat,
    decorator.typeString, List.map_cons, List.map_nil]
  repeat
    first
    | exact List.Perm.refl _
    | (refine keys_assign_of_perm _ _ _ _ ?_ (by simp [hiff]))

theorem keys_initializeFloatFormat (P : Platform) (d : decorator)
    (hFloat : ∀ a b : FloatType, P.typeName (Ty.float a) = P.typeName (Ty.float b) → a = b) :
    ((decorator.initializeFloatFormat P d).floatType2format_.map Prod.fst).Perm
      ([FloatType.long_double, FloatType.double, FloatType.float].map
        (fun T => P.typeName (Ty.float T))) := by
  have hiff : ∀ a b : FloatType, P.typeName (Ty.float a) = P.typeName (Ty.float b) ↔ a = b :=
    fun a b => ⟨hFloat a b, fun h => by rw [h]⟩
  simp only [decorator.initializeFloatFormat, decorator.setFloatFormat,
    decorator.clearFloatFormat, decorator.typeString, List.map_cons, List.map_nil]
  repeat
    first
    | exact List.Perm.refl _
    | (refine keys_assign_of_perm _ _ _ _ ?_ (by simp [hiff]))

theorem getIntFormat_setIntFormat (P : Platform) (d : decorator) (T : IntType) (fmt : intFmt) :
    (d.setIntFormat P T fmt).getIntFormat P T = fmt := by
  simp [decorator.getIntFormat, decorator.typeString, find_setIntFormat]

theorem getIntFormat_setIntFormat_of_ne (P : Platform) (d : decorator) (T U : IntType)
    (fmt : intFmt) (h : P.typeName (Ty.int U) ≠ P.typeName (Ty.int T)) :
    (d.setIntFormat P T fmt).getIntFormat P U = d.getIntFormat P U := by
  simp [decorator.getIntFormat, decorator.typeString, find_setIntFormat, h]

theorem getIntFormat_of_absent (P : Platform) (d : decorator) (T : IntType)
    (h : tableFind d.intType2format_ (P.typeName (Ty.int T)) = none) :
    d.getIntFormat P T = intFmt.ofBase IntBase.default_format := by
  simp [decorator.getIntFormat, decorator.typeString, h]

theorem decorateInt_of_invalid (P : Platform) (d : decorator) (os : OStream) (key : String)
    (T : IntType) (v : Int) (h : (d.getIntFormat P T).isValid_ = false) :
    decorateInt P d os key T v
      = ((insertInt (os.insertString (d.getBracketOf P (Ty.int T) key).left_) T
          v).insertString (d.getBracketOf P (Ty.int T) key).right_).setFlags os.flags := by
  unfold decorateInt insertIntFormatted
  simp only [h, Bool.false_eq_true, if_false, Brackets.left_empty, Brackets.right_empty]

/-- C15: the chain of type tests of `decorateInt` widens `int8_t` to `int16_t` but has
no branch for `uint8_t`, so a `uint8_t` is inserted as it is, which writes the character
whose code is the value, also under a valid numeric format: with the built-in defaults
(the stored format of `uint8_t` is valid and decimal) the `uint8_t` 77 is written as `M`
and not as `77`, under a hexadecimal format of width 4 as `000M`, whereas the `int8_t`
127 is written as `7f`. -/
theorem uint8_written_as_character :
    ((defaultRegistry gccPlatform).getIntFormat gccPlatform IntType.uint8_t).isValid_ = true ∧
    ((defaultRegistry gccPlatform).getIntFormat gccPlatform IntType.uint8_t).base_
      = IntBase.decimal ∧
    toString gccPlatform (defaultRegistry gccPlatform) (Value.int IntType.uint8_t 77) = "M" ∧
    toString gccPlatform (defaultRegistry gccPlatform) (Value.int IntType.uint8_t 77) ≠ "77" ∧
    toString gccPlatform
        ((defaultRegistry gccPlatform).setIntFormat gccPlatform IntType.uint8_t
          (intFmt.make IntBase.hexadecimal 4 false false '0' "0x" "0o"))
        (Value.int IntType.uint8_t 77) = "000M" ∧
    toString gccPlatform (defaultRegistry gccPlatform) (Value.int IntType.int8_t 127) = "7f" ∧
    toString gccPlatform (defaultRegistry gccPlatform) (Value.int IntType.uint16_t 77) = "77" ∧
    (∀ (fmt : intFmt) (os : OStream) (v : Int),
      insertIntWidened fmt IntType.uint8_t os v
        = os.insertString (String.singleton (Char.ofNat (wrapUnsigned 8 v).toNat))) ∧
    (∀ (fmt : intFmt) (os : OStream) (v : Int),
      insertIntWidened fmt IntType.int8_t os v
        = if fmt.base_ = IntBase.as_char then
            os.insertString (String.singleton (Char.ofNat (wrapUnsigned 8 v).toNat))
          else os.insertNum (intText os.flags true 16 (wrapSigned 16 v))) := by
  refine ⟨by decide, by decide, by decide, by decide, by decide, by decide, by decide, ?_, ?_⟩
  · intro fmt os v
    simp [insertIntWidened, insertInt]
  · intro fmt os v
    by_cases h : fmt.base_ = IntBase.as_char <;> simp [insertIntWidened, insertInt, h]

/-- C16: for every integer type T, `getFormat<T>()` after `setFormat<T>(f)` returns f;
when no format is stored for T, as after `clear()` or `clearIntFormat()`, it returns the
format built from `default_format`, whose validity flag is false and whose base is
`default_format`; and under a format whose validity flag is false `decorate` writes the
left bracket, inserts the value as it is on the sink (no base string, fill or width is
set), and writes the right bracket: on a new stream left, the native form of the value,
right. E.g. after `clearIntFormat()` the `char` 77 is written as `'M'`. -/
theorem int_format_read_back_and_sentinel (P : Platform) (d : decorator) (T : IntType) :
    (∀ f : intFmt, (d.setIntFormat P T f).getIntFormat P T = f) ∧
    (tableFind d.intType2format_ (P.typeName (Ty.int T)) = none →
      d.getIntFormat P T = intFmt.ofBase IntBase.default_format) ∧
    d.clear.getIntFormat P T = intFmt.ofBase IntBase.default_format ∧
    d.clearIntFormat.getIntFormat P T = intFmt.ofBase IntBase.default_format ∧
    (intFmt.ofBase IntBase.default_format).isValid_ = false ∧
    (intFmt.ofBase IntBase.default_format).base_ = IntBase.default_format ∧
    (∀ (os : OStream) (v : Int), (d.getIntFormat P T).isValid_ = false →
      decorate P d os (Value.int T v)
        = ((insertInt (os.insertString (d.getBracketOf P (Ty.int T) (intKey T)).left_) T
            v).insertString (d.getBracketOf P (Ty.int T) (intKey T)).right_).setFlags
              os.flags) ∧
    (∀ v : Int, (d.getIntFormat P T).isValid_ = false →
      toString P d (Value.int T v)
        = (d.getBracketOf P (Ty.int T) (intKey T)).left_ ++ (insertInt OStream.fresh T v).out
          ++ (d.getBracketOf P (Ty.int T) (intKey T)).right_) ∧
    toString gccPlatform (defaultRegistry gccPlatform).clearIntFormat
        (Value.int IntType.char 77) = "'M'" ∧
    toString gccPlatform (defaultRegistry gccPlatform).clearIntFormat
        (Value.int IntType.int32_t 255) = "255" := by
  refine ⟨fun f => getIntFormat_setIntFormat P d T f, getIntFormat_of_absent P d T, rfl, rfl,
    rfl, rfl, ?_, ?_, by decide, by decide⟩
  · intro os v h
    rw [decorate, decorateInt_of_invalid P d os (intKey T) T v h]
  · intro v h
    unfold toString
    rw [decorate, decorateInt_of_invalid P d OStream.fresh (intKey T) T v h, fresh_eq,
      insertString_freshWith, insertInt_freshWith, insertString_freshWith]
    simp only [freshWith, OStream.setFlags, String.append_assoc, String.empty_append]
    rfl

/-- Witness of C16: the registry after `clear()` stores no format for `int16_t`, and
writes the `int16_t` 512 as it is. -/
theorem int_format_read_back_and_sentinel_witness :
    tableFind (decorator.clear (defaultRegistry gccPlatform)).intType2format_
        (gccPlatform.typeName (Ty.int IntType.int16_t)) = none ∧
    (decorator.clear (defaultRegistry gccPlatform)).getIntFormat gccPlatform IntType.int16_t
      = intFmt.ofBase IntBase.default_format ∧
    toString gccPlatform (decorator.clear (defaultRegistry gccPlatform))
        (Value.int IntType.int16_t 512) = "512" :=
  ⟨rfl,
    (int_format_read_back_and_sentinel gccPlatform (decorator.clear (defaultRegistry gccPlatform))
      IntType.int16_t).2.1 rfl,
    ((int_format_read_back_and_sentinel gccPlatform
      (decorator.clear (defaultRegistry gccPlatform)) IntType.int16_t).2.2.2.2.2.2.2.1 512
        rfl).trans (by decide)⟩

/-- C17: `setBase` stores the new base and clears the validity flag for `default_format`,
but never sets the flag, and `setHexBaseStr`, `setOctBaseStr` and `setHexUpper` set a base
without touching the flag, whereas the constructor of `intFmt` makes the flag true exactly
for a base other than `default_format`. So when no format is stored for T, as after
`clear()`, or when the stored base was `default_format`, each of these setters leaves for
T a format whose validity flag is false under the base it was given: after `clear()` and
`setBase<int32_t>(hexadecimal)` the format is invalid with base hexadecimal, and 255 is
written as `255`, not as `ff`. -/
theorem setBase_on_sentinel_leaves_format_invalid (P : Platform) (d : decorator)
    (T : IntType) (base : IntBase) :
    ((d.clear.setIntBase P T base).getIntFormat P T).isValid_ = false ∧
    ((d.clear.setIntBase P T base).getIntFormat P T).base_ = base ∧
    (((d.setIntBase P T IntBase.default_format).setIntBase P T base).getIntFormat P T).isValid_
      = false ∧
    (((d.setIntBase P T IntBase.default_format).setIntBase P T base).getIntFormat P T).base_
      = base ∧
    (∀ s : String, ((d.clear.setHexBaseStr P T s true true).getIntFormat P T).isValid_ = false ∧
      ((d.clear.setHexBaseStr P T s true true).getIntFormat P T).base_
        = IntBase.hexadecimal) ∧
    (∀ s : String, ((d.clear.setOctBaseStr P T s true true).getIntFormat P T).isValid_ = false ∧
      ((d.clear.setOctBaseStr P T s true true).getIntFormat P T).base_ = IntBase.octal) ∧
    (∀ u : Bool, ((d.clear.setHexUpper P T u true).getIntFormat P T).isValid_ = false ∧
      ((d.clear.setHexUpper P T u true).getIntFormat P T).base_ = IntBase.hexadecimal) ∧
    (∀ (w : Nat) (sb hu : Bool) (c : Char) (hs os : String),
      (intFmt.make base w sb hu c hs os).isValid_ = decide (base ≠ IntBase.default_format)) ∧
    ((decorator.clear (defaultRegistry gccPlatform)).setIntBase gccPlatform IntType.int32_t
      IntBase.hexadecimal).getIntFormat gccPlatform IntType.int32_t
      = ⟨false, IntBase.hexadecimal, 0, false, false, '0', "0x", "0o"⟩ ∧
    toString gccPlatform
        ((decorator.clear (defaultRegistry gccPlatform)).setIntBase gccPlatform IntType.int32_t
          IntBase.hexadecimal) (Value.int IntType.int32_t 255) = "255" ∧
    toString gccPlatform
        ((defaultRegistry gccPlatform).setIntBase gccPlatform IntType.int32_t
          IntBase.hexadecimal) (Value.int IntType.int32_t 255) = "ff" := by
  refine ⟨?_, ?_, ?_, ?_, ?_, ?_, ?_, ?_, by decide, by decide, by decide⟩
  · simp only [decorator.setIntBase, getIntFormat_setIntFormat, getIntFormat_clear]
    split <;> rfl
  · simp only [decorator.setIntBase, getIntFormat_setIntFormat, getIntFormat_clear]
    split <;> simp_all
  · simp only [decorator.setIntBase, getIntFormat_setIntFormat, if_true]
    split <;> rfl
  · simp only [decorator.setIntBase, getIntFormat_setIntFormat, if_true]
    split <;> simp_all
  · intro s
    simp only [decorator.setHexBaseStr, getIntFormat_setIntFormat, getIntFormat_clear, if_true]
    exact ⟨rfl, trivial⟩
  · intro s
    simp only [decorator.setOctBaseStr, getIntFormat_setIntFormat, getIntFormat_clear, if_true]
    exact ⟨rfl, trivial⟩
  · intro u
    simp only [decorator.setHexUpper, getIntFormat_setIntFormat, getIntFormat_clear, if_true]
    exact ⟨rfl, trivial⟩
  · intros
    rfl

/-- C18: after `initialize()`, the type names of the eleven integer types and of the
three floating-point types being pairwise distinct, the integer-format map holds exactly
11 entries, under the names of the eleven integer types, and the float-format map exactly
3, under the names of the three floating-point types: `char`, `char16_t` and `char32_t`
have the base `as_char`, `int8_t` hexadecimal, the seven other integer types decimal,
each valid with width 0, show-base off, lower case, fill `0` and the base strings `0x`
and `0o`; `float`, `double` and `long double` have the base scientific. -/
theorem initialize_stores_default_formats (P : Platform) (s : decorator)
    (hInt : ∀ a b : IntType, P.typeName (Ty.int a) = P.typeName (Ty.int b) → a = b)
    (hFloat : ∀ a b : FloatType, P.typeName (Ty.float a) = P.typeName (Ty.float b) → a = b) :
    (decorator.initializeAll P s).intType2format_.length = 11 ∧
    (decorator.initializeAll P s).floatType2format_.length = 3 ∧
    ((decorator.initializeAll P s).intType2format_.map Prod.fst).Perm
      ([IntType.uint64_t, IntType.uint32_t, IntType.uint16_t, IntType.uint8_t,
        IntType.int64_t, IntType.int32_t, IntType.int16_t, IntType.int8_t, IntType.char32_t,
        IntType.char16_t, IntType.char].map (fun T => P.typeName (Ty.int T))) ∧
    ((decorator.initializeAll P s).floatType2format_.map Prod.fst).Perm
      ([FloatType.long_double, FloatType.double, FloatType.float].map
        (fun T => P.typeName (Ty.float T))) ∧
    (∀ T : IntType, (decorator.initializeAll P s).getIntFormat P T
      = ⟨true, specIntBase T, 0, false, false, '0', "0x", "0o"⟩) ∧
    (specIntBase IntType.char = IntBase.as_char ∧ specIntBase IntType.char16_t = IntBase.as_char ∧
      specIntBase IntType.char32_t = IntBase.as_char ∧
      specIntBase IntType.int8_t = IntBase.hexadecimal ∧
      specIntBase IntType.int16_t = IntBase.decimal ∧
      specIntBase IntType.int32_t = IntBase.decimal ∧
      specIntBase IntType.int64_t = IntBase.decimal ∧
      specIntBase IntType.uint8_t = IntBase.decimal ∧
      specIntBase IntType.uint16_t = IntBase.decimal ∧
      specIntBase IntType.uint32_t = IntBase.decimal ∧
      specIntBase IntType.uint64_t = IntBase.decimal) ∧
    (∀ T : FloatType, ((decorator.initializeAll P s).getFloatFormat P T).base_
      = FloatBase.scientific) := by
  have hs := initializeAll_eq P s
  have hi := keys_initializeIntFormat P decorator.theInstance hInt
  have hf := keys_initializeFloatFormat P decorator.theInstance hFloat
  refine ⟨?_, ?_, ?_, ?_, ?_, ⟨rfl, rfl, rfl, rfl, rfl, rfl, rfl, rfl, rfl, rfl, rfl⟩, ?_⟩
  · rw [hs]
    have h := hi.length_eq
    simpa using h
  · rw [hs]
    have h := hf.length_eq
    simpa using h
  · rw [hs]
    exact hi
  · rw [hs]
    exact hf
  · intro T
    have h := getIntFormat_initializeIntFormat P decorator.theInstance hInt T
    rw [hs]
    refine Eq.trans h ?_
    cases T <;> rfl
  · intro T
    have h := getFloatFormat_initializeFloatFormat P decorator.theInstance hFloat T
    rw [hs]
    exact (congrArg floatFmt.base_ h).trans rfl

/-- Witness of C18: the g++ type names are pairwise distinct, and `initialize()` on a
registry that stores a hexadecimal format for `int32_t` leaves 11 integer formats. -/
theorem initialize_stores_default_formats_witness :
    (∀ a b : IntType,
      gccPlatform.typeName (Ty.int a) = gccPlatform.typeName (Ty.int b) → a = b) ∧
    (∀ a b : FloatType,
      gccPlatform.typeName (Ty.float a) = gccPlatform.typeName (Ty.float b) → a = b) ∧
    (decorator.initializeAll gccPlatform
      ((defaultRegistry gccPlatform).setIntFormat gccPlatform IntType.int32_t
        (intFmt.ofBase IntBase.hexadecimal))).intType2format_.length = 11 :=
  ⟨by intro a b; cases a <;> cases b <;> decide,
    by intro a b; cases a <;> cases b <;> decide,
    (initialize_stores_default_formats gccPlatform
      ((defaultRegistry gccPlatform).setIntFormat gccPlatform IntType.int32_t
        (intFmt.ofBase IntBase.hexadecimal))
      (by intro a b; cases a <;> cases b <;> decide)
      (by intro a b; cases a <;> cases b <;> decide)).1⟩

/-! ## The field setters of the integer formats -/

/-- C20: for every integer type T and registry state, `setWidth<T>(w)`, `setFill<T>(c)`
and `setShowBase<T>(b)` each leave `getFormat<T>()` equal to its previous value with only
the named field replaced; they leave the format of every other integer type (the type
names of the integer types being pairwise distinct), the float-format map, the bracket
map and the alpha-bool flag unchanged. Successive setters accumulate: after
`setFormat<char>(intFmt(hexadecimal))` the `char` 77 is written as `'4d'`, after
`setHexUpper(true)` as `'4D'`, after `setShowBase(true)` as `'0x4D'`, after `setWidth(4)`
as `'0x004D'`, and after `setFill('-')` as `'0x--4D'`. -/
theorem int_field_setters_replace_one_field (P : Platform) (d : decorator) (T : IntType)
    (hInt : ∀ a b : IntType, P.typeName (Ty.int a) = P.typeName (Ty.int b) → a = b) :
    (∀ w : Nat, (d.setIntWidth P T w).getIntFormat P T
      = { d.getIntFormat P T with width_ := w }) ∧
    (∀ c : Char, (d.setIntFill P T c).getIntFormat P T
      = { d.getIntFormat P T with fill_ := c }) ∧
    (∀ b : Bool, (d.setShowBase P T b).getIntFormat P T
      = { d.getIntFormat P T with showBase_ := b }) ∧
    (∀ (U : IntType) (w : Nat) (c : Char) (b : Bool), U ≠ T →
      (d.setIntWidth P T w).getIntFormat P U = d.getIntFormat P U ∧
      (d.setIntFill P T c).getIntFormat P U = d.getIntFormat P U ∧
      (d.setShowBase P T b).getIntFormat P U = d.getIntFormat P U) ∧
    (∀ (w : Nat) (c : Char) (b : Bool),
      (d.setIntWidth P T w).floatType2format_ = d.floatType2format_ ∧
      (d.setIntFill P T c).floatType2format_ = d.floatType2format_ ∧
      (d.setShowBase P T b).floatType2format_ = d.floatType2format_ ∧
      (d.setIntWidth P T w).type2brackets_ = d.type2brackets_ ∧
      (d.setIntFill P T c).type2brackets_ = d.type2brackets_ ∧
      (d.setShowBase P T b).type2brackets_ = d.type2brackets_ ∧
      (d.setIntWidth P T w).getBoolAlpha = d.getBoolAlpha ∧
      (d.setIntFill P T c).getBoolAlpha = d.getBoolAlpha ∧
      (d.setShowBase P T b).getBoolAlpha = d.getBoolAlpha) ∧
    toString gccPlatform
        ((defaultRegistry gccPlatform).setIntFormat gccPlatform IntType.char
          (intFmt.ofBase IntBase.hexadecimal))
        (Value.int IntType.char 77) = "'4d'" ∧
    toString gccPlatform
        (((defaultRegistry gccPlatform).setIntFormat gccPlatform IntType.char
          (intFmt.ofBase IntBase.hexadecimal)).setHexUpper gccPlatform IntType.char true true)
        (Value.int IntType.char 77) = "'4D'" ∧
    toString gccPlatform
        ((((defaultRegistry gccPlatform).setIntFormat gccPlatform IntType.char
          (intFmt.ofBase IntBase.hexadecimal)).setHexUpper gccPlatform IntType.char true
            true).setShowBase gccPlatform IntType.char true)
        (Value.int IntType.char 77) = "'0x4D'" ∧
    toString gccPlatform
        (((((defaultRegistry gccPlatform).setIntFormat gccPlatform IntType.char
          (intFmt.ofBase IntBase.hexadecimal)).setHexUpper gccPlatform IntType.char true
            true).setShowBase gccPlatform IntType.char true).setIntWidth gccPlatform
              IntType.char 4)
        (Value.int IntType.char 77) = "'0x004D'" ∧
    toString gccPlatform
        ((((((defaultRegistry gccPlatform).setIntFormat gccPlatform IntType.char
          (intFmt.ofBase IntBase.hexadecimal)).setHexUpper gccPlatform IntType.char true
            true).setShowBase gccPlatform IntType.char true).setIntWidth gccPlatform
              IntType.char 4).setIntFill gccPlatform IntType.char '-')
        (Value.int IntType.char 77) = "'0x--4D'" := by
  refine ⟨?_, ?_, ?_, ?_, ?_, by decide, by decide, by decide, by decide, by decide⟩
  · intro w
    simp only [decorator.setIntWidth, getIntFormat_setIntFormat]
  · intro c
    simp only [decorator.setIntFill, getIntFormat_setIntFormat]
  · intro b
    simp only [decorator.setShowBase, getIntFormat_setIntFormat]
  · intro U w c b hne
    have hk : P.typeName (Ty.int U) ≠ P.typeName (Ty.int T) := fun h => hne (hInt U T h)
    simp only [decorator.setIntWidth, decorator.setIntFill, decorator.setShowBase,
      getIntFormat_setIntFormat_of_ne P _ T U _ hk, and_self]
  · intro w c b
    exact ⟨rfl, rfl, rfl, rfl, rfl, rfl, rfl, rfl, rfl⟩

/-- Witness of C20: with the g++ type names, `setWidth<int32_t>(6)` on the built-in
defaults leaves the format of `int32_t` with the width 6 and the format of `int16_t` as
it was. -/
theorem int_field_setters_replace_one_field_witness :
    (∀ a b : IntType,
      gccPlatform.typeName (Ty.int a) = gccPlatform.typeName (Ty.int b) → a = b) ∧
    ((defaultRegistry gccPlatform).setIntWidth gccPlatform IntType.int32_t 6).getIntFormat
        gccPlatform IntType.int32_t
      = ⟨true, IntBase.decimal, 6, false, false, '0', "0x", "0o"⟩ ∧
    ((defaultRegistry gccPlatform).setIntWidth gccPlatform IntType.int32_t 6).getIntFormat
        gccPlatform IntType.int16_t
      = (defaultRegistry gccPlatform).getIntFormat gccPlatform IntType.int16_t :=
  ⟨by intro a b; cases a <;> cases b <;> decide,
    ((int_field_setters_replace_one_field gccPlatform (defaultRegistry gccPlatform)
      IntType.int32_t (by intro a b; cases a <;> cases b <;> decide)).1 6).trans (by decide),
    ((int_field_setters_replace_one_field gccPlatform (defaultRegistry gccPlatform)
      IntType.int32_t (by intro a b; cases a <;> cases b <;> decide)).2.2.2.1
        IntType.int16_t 6 '0' false (by decide)).1⟩

/-! ## What decorate leaves on the sink -/

theorem insertString_flags (os : OStream) (s : String) : (os.insertString s).flags = os.flags :=
  rfl

mutual
theorem decorate_flags (P : Platform) (d : decorator) :
    ∀ (v : Value) (os : OStream), (decorate P d os v).flags = os.flags
  | Value.bool b, os => by rw [decorate]; rfl
  | Value.int T v, os => by rw [decorate]; rfl
  | Value.float T x, os => by rw [decorate]; rfl
  | Value.string s, os => by rw [decorate]; rfl
  | Value.cstr s, os => by rw [decorate]; rfl
  | Value.string_view s, os => by rw [decorate]; rfl
  | Value.pair T a b, os => by
    rw [decorate]
    simp only [insertString_flags]
    rw [decorate_flags P d b, insertString_flags, decorate_flags P d a, insertString_flags]
  | Value.tuple T xs, os => by
    rw [decorate]
    simp only [insertString_flags]
    rw [iterateTuple_flags P d xs, insertString_flags]
  | Value.container k T [], os => by rw [decorate]; rfl
  | Value.container k T (x :: rest), os => by
    rw [decorate]
    simp only [insertString_flags]
    rw [containerLoop_flags P d (x :: rest), insertString_flags]
  | Value.other T text, os => by rw [decorate]; rfl
theorem iterateTuple_flags (P : Platform) (d : decorator) :
    ∀ (xs : List Value) (os : OStream) (br : Brackets),
      (iterateTuple P d os br xs).flags = os.flags
  | [], os, br => by rw [iterateTuple]
  | [x], os, br => by
    rw [iterateTuple, iterateTuple_flags P d [], decorate_flags P d x]
  | x :: y :: r, os, br => by
    rw [iterateTuple, iterateTuple_flags P d (y :: r), insertString_flags, decorate_flags P d x]
theorem containerLoop_flags (P : Platform) (d : decorator) :
    ∀ (xs : List Value) (os : OStream) (br : Brackets),
      (containerLoop P d os br xs).flags = os.flags
  | [], os, br => by rw [containerLoop]
  | [x], os, br => by
    rw [containerLoop, containerLoop_flags P d [], decorate_flags P d x]
  | x :: y :: r, os, br => by
    rw [containerLoop, containerLoop_flags P d (y :: r), insertString_flags,
      decorate_flags P d x]
end

end util

namespace util

open OStream

/-! ## stringutil.h: strip, trim, replaceChar, splitIntoVector, scanBoolString -/

theorem firstNotIn_of_all (tr : CharTraits) (chars : List Char) :
    ∀ l : List Char, (∀ c ∈ l, tr.contains chars c = true) → firstNotIn tr chars l = none
  | [], _ => rfl
  | c :: rest, h => by
    have hc := h c (List.mem_cons_self _ _)
    have hr := firstNotIn_of_all tr chars rest (fun x hx => h x (List.mem_cons_of_mem _ hx))
    simp [firstNotIn, hc, hr]

theorem firstNotIn_append (tr : CharTraits) (chars : List Char) (x : Char) (rest : List Char)
    (hx : tr.contains chars x = false) :
    ∀ pre : List Char, (∀ c ∈ pre, tr.contains chars c = true) →
      firstNotIn tr chars (pre ++ x :: rest) = some pre.length
  | [], _ => by simp [firstNotIn, hx]
  | c :: pre, h => by
    have hc := h c (List.mem_cons_self _ _)
    have hr := firstNotIn_append tr chars x rest hx pre
      (fun y hy => h y (List.mem_cons_of_mem _ hy))
    simp [firstNotIn, hc, hr]

theorem firstNotIn_lt (tr : CharTraits) (chars : List Char) :
    ∀ (l : List Char) (k : Nat), firstNotIn tr chars l = some k → k < l.length
  | [], k, h => by simp [firstNotIn] at h
  | c :: rest, k, h => by
    simp only [firstNotIn] at h
    split at h
    · cases hr : firstNotIn tr chars rest with
      | none => simp [hr] at h
      | some j =>
        have := firstNotIn_lt tr chars rest j hr
        simp [hr] at h
        simp
        omega
    · simp at h
      simp
      omega

theorem charAt_append_cons (pre : List Char) (x : Char) (rest : List Char) :
    charAt (pre ++ x :: rest) pre.length = x := by
  simp [charAt, List.getD_eq_getElem?_getD, List.getElem_append_right]

theorem stripLoop_eq (tr : CharTraits) (chars : List Char) (inside : Bool) :
    ∀ (seg pre post reval : List Char),
      stripLoop tr (pre ++ seg ++ post) chars inside seg.length pre.length reval
        = reval ++ seg.filter (fun c => !inside || !tr.contains chars c)
  | [], pre, post, reval => by simp [stripLoop]
  | x :: seg, pre, post, reval => by
    have hx : charAt (pre ++ (x :: seg) ++ post) pre.length = x := by
      rw [List.append_assoc, List.cons_append]
      exact charAt_append_cons pre x (seg ++ post)
    have hstr : pre ++ (x :: seg) ++ post = (pre ++ [x]) ++ seg ++ post := by simp
    have ih := stripLoop_eq tr chars inside seg (pre ++ [x]) post
    simp only [List.length_cons, stripLoop, hx]
    rw [hstr]
    have hl : pre.length + 1 = (pre ++ [x]).length := by simp
    rw [hl, ih]
    cases inside <;> cases hc : tr.contains chars x <;> simp [List.filter, hc]

theorem find_first_not_of_decomposed (tr : CharTraits) (chars pre : List Char) (x : Char)
    (rest : List Char) (hpre : ∀ c ∈ pre, tr.contains chars c = true)
    (hx : tr.contains chars x = false) :
    find_first_not_of tr (pre ++ x :: rest) chars = pre.length := by
  simp [find_first_not_of, firstNotIn_append tr chars x rest hx pre hpre]

theorem find_first_not_of_all (tr : CharTraits) (chars str : List Char)
    (h : ∀ c ∈ str, tr.contains chars c = true) :
    find_first_not_of tr str chars = npos := by
  simp [find_first_not_of, firstNotIn_of_all tr chars str h]

theorem find_last_not_of_decomposed (tr : CharTraits) (chars init : List Char) (y : Char)
    (suf : List Char) (hsuf : ∀ c ∈ suf, tr.contains chars c = true)
    (hy : tr.contains chars y = false) :
    find_last_not_of tr (init ++ y :: suf) chars = init.length := by
  have hrev : (init ++ y :: suf).reverse = suf.reverse ++ y :: init.reverse := by simp
  have h := firstNotIn_append tr chars y init.reverse hy suf.reverse
    (fun c hc => hsuf c (List.mem_reverse.mp hc))
  simp only [find_last_not_of, hrev, h]
  simp

theorem find_last_not_of_all (tr : CharTraits) (chars str : List Char)
    (h : ∀ c ∈ str, tr.contains chars c = true) :
    find_last_not_of tr str chars = npos := by
  have h2 := firstNotIn_of_all tr chars str.reverse (fun c hc => h c (List.mem_reverse.mp hc))
  simp [find_last_not_of, h2]

/-- The characters `strip` keeps among those it visits. -/
theorem strip_decomposed (tr : CharTraits) (chars pre mid suf : List Char) (x y : Char)
    (m m' : List Char) (mode : StripTrimMode)
    (hpre : ∀ c ∈ pre, tr.contains chars c = true)
    (hsuf : ∀ c ∈ suf, tr.contains chars c = true)
    (hmid : mid = x :: m) (hmid' : mid = m' ++ [y])
    (hx : tr.contains chars x = false) (hy : tr.contains chars y = false)
    (hlen : (pre ++ mid ++ suf).length < npos) :
    strip tr (pre ++ mid ++ suf) chars mode
      = (if doStripFront mode then [] else pre).filter
            (fun c => !doStripInside mode ||
              !tr.contains (if chars.isEmpty then ['\t', ' ', '\r', '\n'] else chars) c)
          ++ mid.filter
            (fun c => !doStripInside mode ||
              !tr.contains (if chars.isEmpty then ['\t', ' ', '\r', '\n'] else chars) c)
          ++ (if doStripBack mode then [] else suf).filter
            (fun c => !doStripInside mode ||
              !tr.contains (if chars.isEmpty then ['\t', ' ', '\r', '\n'] else chars) c) := by
  have hne : (pre ++ mid ++ suf).isEmpty = false := by simp [hmid]
  have hf : find_first_not_of tr (pre ++ mid ++ suf) chars = pre.length := by
    rw [hmid, List.append_assoc, List.cons_append]
    exact find_first_not_of_decomposed tr chars pre x (m ++ suf) hpre hx
  have hl : find_last_not_of tr (pre ++ mid ++ suf) chars = pre.length + m'.length := by
    have h := find_last_not_of_decomposed tr chars (pre ++ m') y suf hsuf hy
    rw [hmid']
    simpa using h
  have hmlen : mid.length = m'.length + 1 := by rw [hmid']; simp
  have hpl : pre.length + mid.length + suf.length < npos := by
    simp only [List.length_append] at hlen
    omega
  have hadd : sizeAdd (pre.length + m'.length) 1 = pre.length + mid.length := by
    unfold sizeAdd
    unfold npos at hpl
    rw [Nat.mod_eq_of_lt (by omega)]
    omega
  unfold strip
  simp only [hne, Bool.false_eq_true, if_false, hf, hl, hadd]
  cases hF : doStripFront mode <;> cases hB : doStripBack mode <;>
    simp only [Bool.false_eq_true, if_false, if_true]
  · have h := stripLoop_eq tr (if chars.isEmpty then ['\t', ' ', '\r', '\n'] else chars)
      (doStripInside mode) (pre ++ mid ++ suf) [] [] []
    have hn : (0 : Nat) ≠ npos := by unfold npos; omega
    simp only [List.nil_append, List.append_nil, List.length_nil] at h
    simp only [hn, if_false, Nat.sub_zero]
    rw [h]
    simp [List.filter_append]
  · have h := stripLoop_eq tr (if chars.isEmpty then ['\t', ' ', '\r', '\n'] else chars)
      (doStripInside mode) (pre ++ mid) [] suf []
    have hn : (0 : Nat) ≠ npos := by unfold npos; omega
    simp only [List.nil_append, List.length_nil, List.length_append] at h
    simp only [hn, if_false, Nat.sub_zero]
    rw [h]
    simp [List.filter_append]
  · have h := stripLoop_eq tr (if chars.isEmpty then ['\t', ' ', '\r', '\n'] else chars)
      (doStripInside mode) (mid ++ suf) pre [] []
    have hn : pre.length ≠ npos := by omega
    have hc : (pre ++ mid ++ suf).length - pre.length = (mid ++ suf).length := by
      simp [List.length_append]
    simp only [List.append_nil, List.nil_append] at h
    simp only [hn, if_false, hc]
    rw [← List.append_assoc] at h
    rw [h]
    simp [List.filter_append]
  · have h := stripLoop_eq tr (if chars.isEmpty then ['\t', ' ', '\r', '\n'] else chars)
      (doStripInside mode) mid pre suf []
    have hn : pre.length ≠ npos := by omega
    have hc : pre.length + mid.length - pre.length = mid.length := by omega
    simp only [List.nil_append] at h
    simp only [hn, if_false, hc]
    rw [h]
    simp

theorem strip_all_in (tr : CharTraits) (chars str : List Char) (mode : StripTrimMode)
    (hne : str ≠ []) (h : ∀ c ∈ str, tr.contains chars c = true) :
    strip tr str chars mode
      = if doStripFront mode || doStripBack mode then []
        else str.filter (fun c => !doStripInside mode ||
          !tr.contains (if chars.isEmpty then ['\t', ' ', '\r', '\n'] else chars) c) := by
  have he : str.isEmpty = false := by
    cases str with
    | nil => exact absurd rfl hne
    | cons a l => rfl
  unfold strip
  simp only [he, Bool.false_eq_true, if_false, find_first_not_of_all tr chars str h,
    find_last_not_of_all tr chars str h]
  cases hF : doStripFront mode <;> cases hB : doStripBack mode <;>
    simp only [Bool.false_eq_true, if_false, if_true, Bool.or_false, Bool.or_true, Bool.or_self]
  · have hl := stripLoop_eq tr (if chars.isEmpty then ['\t', ' ', '\r', '\n'] else chars)
      (doStripInside mode) str [] [] []
    have hn : (0 : Nat) ≠ npos := by unfold npos; omega
    simp only [List.nil_append, List.append_nil, List.length_nil] at hl
    simp only [hn, if_false, Nat.sub_zero]
    rw [hl]
  · have hn : (0 : Nat) ≠ npos := by unfold npos; omega
    have hz : sizeAdd npos 1 = 0 := by decide
    simp only [hn, if_false, hz, Nat.sub_zero, stripLoop]

theorem rdropWhile_append_rtakeWhile (p : Char → Bool) (l : List Char) :
    l.rdropWhile p ++ l.rtakeWhile p = l := by
  rw [List.rdropWhile, List.rtakeWhile, ← List.reverse_append,
    List.takeWhile_append_dropWhile, List.reverse_reverse]

theorem exists_decomposition (p : Char → Bool) (s : List Char) (h : ∃ c ∈ s, p c = false) :
    ∃ (x y : Char) (m m' : List Char),
      (s.dropWhile p).rdropWhile p = x :: m ∧ (s.dropWhile p).rdropWhile p = m' ++ [y] ∧
      p x = false ∧ p y = false := by
  obtain ⟨c, hc, hpc⟩ := h
  have hd : s.dropWhile p ≠ [] := by
    intro h0
    have := List.dropWhile_eq_nil_iff.mp h0 c hc
    rw [hpc] at this
    exact Bool.false_ne_true this
  have hhead := List.head_dropWhile_not p s hd
  have hmid : (s.dropWhile p).rdropWhile p ≠ [] := by
    intro h0
    have hall := List.rdropWhile_eq_nil_iff.mp h0
    have := hall _ (List.head_mem hd)
    rw [hhead] at this
    exact Bool.false_ne_true this
  have hlast := List.rdropWhile_last_not p (s.dropWhile p) hmid
  obtain ⟨t, ht⟩ := List.rdropWhile_prefix p (s.dropWhile p)
  cases hm : (s.dropWhile p).rdropWhile p with
  | nil => exact absurd hm hmid
  | cons x m =>
    have hx : p x = false := by
      have h1 : (s.dropWhile p).head hd = x := by
        have h2 : s.dropWhile p = x :: (m ++ t) := by rw [← ht, hm]; rfl
        simp [h2]
      rw [← h1]
      exact hhead
    refine ⟨x, ((s.dropWhile p).rdropWhile p).getLast hmid, m,
      ((s.dropWhile p).rdropWhile p).dropLast, rfl, ?_, hx, ?_⟩
    · rw [← hm]
      exact (List.dropLast_append_getLast hmid).symm
    · simpa using hlast

theorem flags_OUTSIDE :
    doStripFront StripTrimMode.OUTSIDE = true ∧ doStripBack StripTrimMode.OUTSIDE = true ∧
    doStripInside StripTrimMode.OUTSIDE = false := by decide

theorem flags_LEFT :
    doStripFront StripTrimMode.LEFT = true ∧ doStripBack StripTrimMode.LEFT = false ∧
    doStripInside StripTrimMode.LEFT = false := by decide

theorem flags_RIGHT :
    doStripFront StripTrimMode.RIGHT = false ∧ doStripBack StripTrimMode.RIGHT = true ∧
    doStripInside StripTrimMode.RIGHT = false := by decide

theorem flags_ALL :
    doStripFront StripTrimMode.ALL = true ∧ doStripBack StripTrimMode.ALL = true ∧
    doStripInside StripTrimMode.ALL = true := by decide

theorem flags_INSIDE :
    doStripFront StripTrimMode.INSIDE = false ∧ doStripBack StripTrimMode.INSIDE = false ∧
    doStripInside StripTrimMode.INSIDE = true := by decide

/-- What `strip` returns, by the three flags of the mode, in terms of the leading run, the
middle and the trailing run of the string. -/
theorem strip_eq (tr : CharTraits) (s chars : List Char) (mode : StripTrimMode)
    (hlen : s.length < npos) :
    strip tr s chars mode
      = (if doStripFront mode then []
          else
            (if doStripBack mode ∧ (∀ c ∈ s, tr.contains chars c = true) then []
              else s.takeWhile (tr.contains chars))).filter
            (fun c => !doStripInside mode ||
              !tr.contains (if chars.isEmpty then ['\t', ' ', '\r', '\n'] else chars) c)
        ++ ((s.dropWhile (tr.contains chars)).rdropWhile (tr.contains chars)).filter
            (fun c => !doStripInside mode ||
              !tr.contains (if chars.isEmpty then ['\t', ' ', '\r', '\n'] else chars) c)
        ++ (if doStripBack mode then []
            else (s.dropWhile (tr.contains chars)).rtakeWhile (tr.contains chars)).filter
            (fun c => !doStripInside mode ||
              !tr.contains (if chars.isEmpty then ['\t', ' ', '\r', '\n'] else chars) c) := by
  by_cases hall : ∀ c ∈ s, tr.contains chars c = true
  · have hd : s.dropWhile (tr.contains chars) = [] := List.dropWhile_eq_nil_iff.mpr hall
    have ht : s.takeWhile (tr.contains chars) = s := List.takeWhile_eq_self_iff.mpr hall
    cases s with
    | nil => simp [strip]
    | cons a l =>
      rw [strip_all_in tr chars (a :: l) mode (by simp) hall, hd, ht]
      cases hF : doStripFront mode <;> cases hB : doStripBack mode
      all_goals
        simp only [Bool.false_eq_true, if_false, if_true, true_and, false_and, Bool.or_false,
          Bool.or_true, Bool.or_self, if_pos hall, List.rtakeWhile, List.reverse_nil,
          List.takeWhile_nil, List.rdropWhile_nil, List.filter_nil, List.append_nil]
  · have hex : ∃ c ∈ s, tr.contains chars c = false := by
      by_contra hcon
      apply hall
      intro c hc
      cases hcc : tr.contains chars c
      · exact absurd ⟨c, hc, hcc⟩ hcon
      · rfl
    obtain ⟨x, y, m, m', hm, hm', hx, hy⟩ := exists_decomposition (tr.contains chars) s hex
    have hs : s = s.takeWhile (tr.contains chars)
        ++ (s.dropWhile (tr.contains chars)).rdropWhile (tr.contains chars)
        ++ (s.dropWhile (tr.contains chars)).rtakeWhile (tr.contains chars) := by
      rw [List.append_assoc, rdropWhile_append_rtakeWhile, List.takeWhile_append_dropWhile]
    have hdec := strip_decomposed tr chars (s.takeWhile (tr.contains chars))
      ((s.dropWhile (tr.contains chars)).rdropWhile (tr.contains chars))
      ((s.dropWhile (tr.contains chars)).rtakeWhile (tr.contains chars)) x y m m' mode
      (fun c hc => List.mem_takeWhile_imp hc) (fun c hc => List.mem_rtakeWhile_imp hc)
      hm hm' hx hy (by rw [← hs]; exact hlen)
    rw [← hs] at hdec
    rw [hdec]
    simp [hall]

theorem set_append_cons (pre : List Char) (x r : Char) (rest : List Char) :
    (pre ++ x :: rest).set pre.length r = pre ++ r :: rest := by
  induction pre with
  | nil => rfl
  | cons a l ih => simp [List.set, ih]

theorem replaceFront_eq (tr : CharTraits) (chars : List Char) (r : Char) (front : Bool)
    (x : Char) (tail : List Char) (hx : tr.contains chars x = false) :
    ∀ (run pre : List Char) (count : Nat), (∀ c ∈ run, tr.contains chars c = true) →
      run.length ≤ count →
      replaceFront tr chars r front count (pre ++ run ++ x :: tail) pre.length
        = (pre ++ (if front then List.replicate run.length r else run) ++ x :: tail,
            pre.length + run.length)
  | [], pre, count, _, _ => by
    cases count with
    | zero => simp [replaceFront]
    | succ k =>
      have hc : charAt (pre ++ x :: tail) pre.length = x := charAt_append_cons pre x tail
      simp [replaceFront, hc, hx]
  | c :: run, pre, count, hrun, hcount => by
    cases count with
    | zero => simp at hcount
    | succ k =>
      have hcc := hrun c (List.mem_cons_self _ _)
      have hc : charAt (pre ++ (c :: run) ++ x :: tail) pre.length = c := by
        rw [List.append_assoc, List.cons_append]
        exact charAt_append_cons pre c (run ++ x :: tail)
      have hlt : pre.length < (pre ++ (c :: run) ++ x :: tail).length := by
        simp
      have hset : (pre ++ (c :: run) ++ x :: tail).set pre.length r
          = (pre ++ [r]) ++ run ++ x :: tail := by
        rw [List.append_assoc, List.cons_append, set_append_cons]
        simp
      have hkeep : pre ++ (c :: run) ++ x :: tail = (pre ++ [c]) ++ run ++ x :: tail := by simp
      have ih1 := replaceFront_eq tr chars r front x tail hx run (pre ++ [r]) k
        (fun y hy => hrun y (List.mem_cons_of_mem _ hy)) (by simpa using hcount)
      have ih2 := replaceFront_eq tr chars r front x tail hx run (pre ++ [c]) k
        (fun y hy => hrun y (List.mem_cons_of_mem _ hy)) (by simpa using hcount)
      rw [replaceFront]
      simp only [hlt, hc, hcc, and_self, if_true]
      cases front
      · simp only [Bool.false_eq_true, if_false] at ih2 ⊢
        rw [hkeep]
        have hl : pre.length + 1 = (pre ++ [c]).length := by simp
        rw [hl, ih2]
        simp
        omega
      · simp only [if_true] at ih1 ⊢
        rw [hset]
        have hl : pre.length + 1 = (pre ++ [r]).length := by simp
        rw [hl, ih1]
        simp [List.replicate_succ]
        omega

theorem replaceBack_stop (tr : CharTraits) (chars : List Char) (r : Char) (back : Bool)
    (last : Nat) (str : List Char) (h : tr.contains chars (charAt str last) = false) :
    replaceBack tr chars r back last str = some (str, last) := by
  cases last <;> simp [replaceBack, h]

theorem replaceBack_step (tr : CharTraits) (chars : List Char) (r : Char) (back : Bool)
    (last : Nat) (str : List Char) (h : tr.contains chars (charAt str (last + 1)) = true) :
    replaceBack tr chars r back (last + 1) str
      = replaceBack tr chars r back last (if back then str.set (last + 1) r else str) := by
  simp [replaceBack, h]

theorem replaceBack_eq (tr : CharTraits) (chars : List Char) (r : Char) (back : Bool)
    (init : List Char) (y : Char) (hy : tr.contains chars y = false) (run : List Char) :
    ∀ (tail : List Char), (∀ c ∈ run, tr.contains chars c = true) →
      replaceBack tr chars r back (init.length + run.length) (init ++ y :: run ++ tail)
        = some (init ++ y :: (if back then List.replicate run.length r else run) ++ tail,
            init.length) := by
  induction run using List.reverseRecOn with
  | nil =>
    intro tail _
    have hc : charAt (init ++ y :: [] ++ tail) (init.length + ([] : List Char).length) = y := by
      simpa using charAt_append_cons init y tail
    rw [replaceBack_stop tr chars r back _ _ (by rw [hc]; exact hy)]
    simp
  | append_singleton run c ih =>
    intro tail hrun
    have hcc := hrun c (by simp)
    have hstr : init ++ y :: (run ++ [c]) ++ tail = (init ++ y :: run) ++ c :: tail := by simp
    have hlen : init.length + (run ++ [c]).length = (init ++ y :: run).length := by
      simp
    have hc : charAt (init ++ y :: (run ++ [c]) ++ tail) (init.length + (run ++ [c]).length)
        = c := by
      rw [hstr, hlen]
      exact charAt_append_cons _ c tail
    have hsucc : init.length + (run ++ [c]).length = (init.length + run.length) + 1 := by
      simp
      omega
    rw [hsucc] at hc ⊢
    rw [replaceBack_step tr chars r back _ _ (by rw [hc]; exact hcc)]
    have hset : (init ++ y :: (run ++ [c]) ++ tail).set (init.length + run.length + 1) r
        = init ++ y :: run ++ r :: tail := by
      rw [hstr]
      have hl2 : init.length + run.length + 1 = (init ++ y :: run).length := by
        simp
        omega
      rw [hl2, set_append_cons]
    cases back
    · simp only [Bool.false_eq_true, if_false] at ih ⊢
      have h := ih (c :: tail) (fun z hz => hrun z (by simp [hz]))
      rw [hstr]
      have h2 : init ++ y :: run ++ c :: tail = (init ++ y :: run) ++ c :: tail := by simp
      rw [h2] at h
      rw [h]
    · simp only [if_true] at ih ⊢
      rw [hset]
      have h := ih (r :: tail) (fun z hz => hrun z (by simp [hz]))
      rw [h]
      simp [List.replicate_succ']

theorem replaceInside_eq (tr : CharTraits) (chars : List Char) (r : Char) (inside : Bool) :
    ∀ (seg pre post : List Char),
      replaceInside tr chars r inside seg.length (pre ++ seg ++ post) pre.length
        = pre ++ (if inside then seg.map (fun c => if tr.contains chars c then r else c)
            else seg) ++ post
  | [], pre, post => by cases inside <;> simp [replaceInside]
  | x :: seg, pre, post => by
    have hc : charAt (pre ++ (x :: seg) ++ post) pre.length = x := by
      rw [List.append_assoc, List.cons_append]
      exact charAt_append_cons pre x (seg ++ post)
    have hset : (pre ++ (x :: seg) ++ post).set pre.length r = (pre ++ [r]) ++ seg ++ post := by
      rw [List.append_assoc, List.cons_append, set_append_cons]
      simp
    have hkeep : pre ++ (x :: seg) ++ post = (pre ++ [x]) ++ seg ++ post := by simp
    have ih1 := replaceInside_eq tr chars r inside seg (pre ++ [r]) post
    have ih2 := replaceInside_eq tr chars r inside seg (pre ++ [x]) post
    simp only [List.length_cons, replaceInside, hc]
    cases inside
    · simp only [Bool.false_eq_true, if_false] at ih2 ⊢
      rw [hkeep]
      have hl : pre.length + 1 = (pre ++ [x]).length := by simp
      rw [hl, ih2]
    · simp only [if_true] at ih1 ih2 ⊢
      cases hcx : tr.contains chars x
      · simp only [Bool.false_eq_true, if_false]
        rw [hkeep]
        have hl : pre.length + 1 = (pre ++ [x]).length := by simp
        rw [hl, ih2]
        simp [hcx]
      · simp only [if_true]
        rw [hset]
        have hl : pre.length + 1 = (pre ++ [r]).length := by simp
        rw [hl, ih1]
        simp [hcx]

theorem replaceChar_decomposed (tr : CharTraits) (chars pre mid suf : List Char) (r x y : Char)
    (m m' : List Char) (mode : StripTrimMode) (hchars : chars ≠ [])
    (hpre : ∀ c ∈ pre, tr.contains chars c = true)
    (hsuf : ∀ c ∈ suf, tr.contains chars c = true)
    (hmid : mid = x :: m) (hmid' : mid = m' ++ [y])
    (hx : tr.contains chars x = false) (hy : tr.contains chars y = false)
    (hlen : (pre ++ mid ++ suf).length < npos) :
    replaceChar tr (pre ++ mid ++ suf) chars r mode
      = some ((if doStripFront mode then List.replicate pre.length r else pre)
          ++ (if doStripInside mode then mid.map (fun c => if tr.contains chars c then r else c)
              else mid)
          ++ (if doStripBack mode then List.replicate suf.length r else suf)) := by
  have hne : (pre ++ mid ++ suf).isEmpty = false := by simp [hmid]
  have hce : chars.isEmpty = false := by
    cases chars with
    | nil => exact absurd rfl hchars
    | cons a l => rfl
  have hf : find_first_not_of tr (pre ++ mid ++ suf) chars = pre.length := by
    rw [hmid, List.append_assoc, List.cons_append]
    exact find_first_not_of_decomposed tr chars pre x (m ++ suf) hpre hx
  have hpn : pre.length ≠ npos := by
    simp only [List.length_append] at hlen
    omega
  have h1 := replaceFront_eq tr chars r (doStripFront mode) x (m ++ suf) hx pre []
    (pre ++ x :: (m ++ suf)).length hpre (by simp)
  simp only [List.nil_append, List.length_nil, Nat.zero_add] at h1
  have hs1 : pre ++ mid ++ suf = pre ++ x :: (m ++ suf) := by rw [hmid]; simp
  have hplen : (if doStripFront mode = true then List.replicate pre.length r else pre).length
      = pre.length := by
    split <;> simp
  have hs2 : (if doStripFront mode = true then List.replicate pre.length r else pre)
      ++ x :: (m ++ suf)
      = ((if doStripFront mode = true then List.replicate pre.length r else pre) ++ m')
        ++ y :: suf ++ [] := by
    have : x :: (m ++ suf) = mid ++ suf := by rw [hmid]; simp
    rw [this, hmid']
    simp
  have hmlen : m.length = m'.length := by
    have := congrArg List.length (hmid.symm.trans hmid')
    simpa using this
  have hlast : ((if doStripFront mode = true then List.replicate pre.length r else pre)
      ++ x :: (m ++ suf)).length - 1
      = ((if doStripFront mode = true then List.replicate pre.length r else pre) ++ m').length
        + suf.length := by
    simp only [List.length_append, List.length_cons, hplen]
    omega
  have h2 := replaceBack_eq tr chars r (doStripBack mode)
    ((if doStripFront mode = true then List.replicate pre.length r else pre) ++ m') y hy suf []
    hsuf
  have h3 := replaceInside_eq tr chars r (doStripInside mode) mid
    (if doStripFront mode = true then List.replicate pre.length r else pre)
    (if doStripBack mode = true then List.replicate suf.length r else suf)
  have hs3 : ((if doStripFront mode = true then List.replicate pre.length r else pre) ++ m')
      ++ y :: (if doStripBack mode = true then List.replicate suf.length r else suf) ++ []
      = (if doStripFront mode = true then List.replicate pre.length r else pre) ++ mid
        ++ (if doStripBack mode = true then List.replicate suf.length r else suf) := by
    rw [hmid']
    simp
  have hcount : ((if doStripFront mode = true then List.replicate pre.length r else pre)
      ++ m').length + 1 - pre.length = mid.length := by
    simp only [List.length_append, hplen, hmid, List.length_cons]
    omega
  unfold replaceChar
  simp only [hne, hce, Bool.false_eq_true, if_false, hf, hpn]
  rw [hs1, h1]
  simp only []
  rw [hlast, hs2, h2]
  simp only []
  rw [hcount, hs3]
  rw [hplen] at h3
  rw [h3]

theorem replaceChar_all_in (tr : CharTraits) (chars str : List Char) (r : Char)
    (mode : StripTrimMode) (hchars : chars ≠ [])
    (h : ∀ c ∈ str, tr.contains chars c = true) :
    replaceChar tr str chars r mode = some (List.replicate str.length r) := by
  have hce : chars.isEmpty = false := by
    cases chars with
    | nil => exact absurd rfl hchars
    | cons a l => rfl
  unfold replaceChar
  cases str with
  | nil => rfl
  | cons a l =>
    simp only [List.isEmpty_cons, hce, Bool.false_eq_true, if_false,
      find_first_not_of_all tr chars (a :: l) h, if_true]

theorem dropWhile_append_of_exists (p : Char → Bool) :
    ∀ (l1 l2 : List Char), (∃ c ∈ l1, p c = false) →
      (l1 ++ l2).dropWhile p = l1.dropWhile p ++ l2
  | [], _, h => by simp at h
  | a :: l1, l2, h => by
    cases hp : p a
    · simp [List.dropWhile, hp]
    · obtain ⟨c, hc, hpc⟩ := h
      have hc2 : c ∈ l1 := by
        rcases List.mem_cons.mp hc with h1 | h1
        · rw [h1, hp] at hpc
          exact absurd hpc (by simp)
        · exact h1
      simp [List.dropWhile, hp, dropWhile_append_of_exists p l1 l2 ⟨c, hc2, hpc⟩]

theorem takeWhile_append_of_exists (p : Char → Bool) :
    ∀ (l1 l2 : List Char), (∃ c ∈ l1, p c = false) →
      (l1 ++ l2).takeWhile p = l1.takeWhile p
  | [], _, h => by simp at h
  | a :: l1, l2, h => by
    cases hp : p a
    · simp [List.takeWhile, hp]
    · obtain ⟨c, hc, hpc⟩ := h
      have hc2 : c ∈ l1 := by
        rcases List.mem_cons.mp hc with h1 | h1
        · rw [h1, hp] at hpc
          exact absurd hpc (by simp)
        · exact h1
      simp [List.takeWhile, hp, takeWhile_append_of_exists p l1 l2 ⟨c, hc2, hpc⟩]

theorem rdropWhile_append_of_exists (p : Char → Bool) (l1 l2 : List Char)
    (h : ∃ c ∈ l2, p c = false) :
    (l1 ++ l2).rdropWhile p = l1 ++ l2.rdropWhile p := by
  obtain ⟨c, hc, hpc⟩ := h
  simp only [List.rdropWhile, List.reverse_append]
  rw [dropWhile_append_of_exists p l2.reverse l1.reverse ⟨c, List.mem_reverse.mpr hc, hpc⟩]
  simp

theorem rtakeWhile_append_of_exists (p : Char → Bool) (l1 l2 : List Char)
    (h : ∃ c ∈ l2, p c = false) :
    (l1 ++ l2).rtakeWhile p = l2.rtakeWhile p := by
  obtain ⟨c, hc, hpc⟩ := h
  simp only [List.rtakeWhile, List.reverse_append]
  rw [takeWhile_append_of_exists p l2.reverse l1.reverse ⟨c, List.mem_reverse.mpr hc, hpc⟩]

theorem exists_not_of_not_all (p : Char → Bool) (s : List Char)
    (h : ¬ ∀ c ∈ s, p c = true) : ∃ c ∈ s, p c = false := by
  by_contra hcon
  apply h
  intro c hc
  cases hcc : p c
  · exact absurd ⟨c, hc, hcc⟩ hcon
  · rfl

theorem exists_in_dropWhile (p : Char → Bool) (s : List Char) (h : ∃ c ∈ s, p c = false) :
    ∃ c ∈ s.dropWhile p, p c = false := by
  obtain ⟨c, hc, hpc⟩ := h
  have hd : s.dropWhile p ≠ [] := by
    intro h0
    have := List.dropWhile_eq_nil_iff.mp h0 c hc
    rw [hpc] at this
    exact Bool.false_ne_true this
  exact ⟨_, List.head_mem hd, List.head_dropWhile_not p s hd⟩

theorem rdropWhile_eq_take_append (p : Char → Bool) (s : List Char)
    (h : ∃ c ∈ s, p c = false) :
    s.rdropWhile p = s.takeWhile p ++ (s.dropWhile p).rdropWhile p := by
  have h2 := rdropWhile_append_of_exists p (s.takeWhile p) (s.dropWhile p)
    (exists_in_dropWhile p s h)
  rw [List.takeWhile_append_dropWhile] at h2
  exact h2

theorem rtakeWhile_dropWhile (p : Char → Bool) (s : List Char)
    (h : ∃ c ∈ s, p c = false) :
    (s.dropWhile p).rtakeWhile p = s.rtakeWhile p := by
  have h2 := rtakeWhile_append_of_exists p (s.takeWhile p) (s.dropWhile p)
    (exists_in_dropWhile p s h)
  rw [List.takeWhile_append_dropWhile] at h2
  exact h2.symm

theorem split_three (p : Char → Bool) (s : List Char) :
    s = s.takeWhile p ++ (s.dropWhile p).rdropWhile p ++ (s.dropWhile p).rtakeWhile p := by
  rw [List.append_assoc, rdropWhile_append_rtakeWhile, List.takeWhile_append_dropWhile]

/-- What `replaceChar` returns for a non-empty set of characters, by the three flags of
the mode. -/
theorem replaceChar_eq (tr : CharTraits) (s chars : List Char) (r : Char)
    (mode : StripTrimMode) (hchars : chars ≠ []) (hlen : s.length < npos) :
    replaceChar tr s chars r mode
      = if ∀ c ∈ s, tr.contains chars c = true then some (List.replicate s.length r)
        else some
          ((if doStripFront mode then
              List.replicate (s.takeWhile (tr.contains chars)).length r
            else s.takeWhile (tr.contains chars))
          ++ (if doStripInside mode then
              ((s.dropWhile (tr.contains chars)).rdropWhile (tr.contains chars)).map
                (fun c => if tr.contains chars c then r else c)
            else (s.dropWhile (tr.contains chars)).rdropWhile (tr.contains chars))
          ++ (if doStripBack mode then
              List.replicate (s.rtakeWhile (tr.contains chars)).length r
            else s.rtakeWhile (tr.contains chars))) := by
  by_cases hall : ∀ c ∈ s, tr.contains chars c = true
  · rw [if_pos hall]
    exact replaceChar_all_in tr chars s r mode hchars hall
  · rw [if_neg hall]
    have hex := exists_not_of_not_all _ s hall
    obtain ⟨x, y, m, m', hm, hm', hx, hy⟩ := exists_decomposition (tr.contains chars) s hex
    have hs := split_three (tr.contains chars) s
    have hdec := replaceChar_decomposed tr chars (s.takeWhile (tr.contains chars))
      ((s.dropWhile (tr.contains chars)).rdropWhile (tr.contains chars))
      ((s.dropWhile (tr.contains chars)).rtakeWhile (tr.contains chars)) r x y m m' mode hchars
      (fun c hc => List.mem_takeWhile_imp hc) (fun c hc => List.mem_rtakeWhile_imp hc)
      hm hm' hx hy (by rw [← hs]; exact hlen)
    rw [← hs] at hdec
    rw [hdec, rtakeWhile_dropWhile _ s hex]

theorem occursAt_length (tr : CharTraits) (sep : Separator) (rest : List Char)
    (h : occursAt tr sep rest = true) : string_or_char_size sep ≤ rest.length := by
  cases sep with
  | char c =>
    cases rest with
    | nil => simp [occursAt] at h
    | cons x r => simp [string_or_char_size]
  | string s =>
    cases s with
    | nil => simp [string_or_char_size]
    | cons c t =>
      simp only [occursAt, Bool.and_eq_true, decide_eq_true_eq] at h
      exact h.1.1

theorem firstOcc_spec (tr : CharTraits) (sep : Separator) :
    ∀ (rest : List Char) (k : Nat), firstOcc tr sep rest = some k →
      k ≤ rest.length ∧ occursAt tr sep (rest.drop k) = true
  | [], k, h => by
    simp only [firstOcc] at h
    split at h
    · cases h
      simp_all
    · cases h
  | c :: rest, k, h => by
    simp only [firstOcc] at h
    split at h
    · cases h
      simp_all
    · cases hr : firstOcc tr sep rest with
      | none => simp [hr] at h
      | some j =>
        simp [hr] at h
        have := firstOcc_spec tr sep rest j hr
        subst h
        simpa using this

theorem specSplit_of_size_zero (tr : CharTraits) (sep : Separator) (s : List Char)
    (h : string_or_char_size sep = 0) : specSplit tr sep s = [s] := by
  rw [specSplit]
  simp [h]

theorem specSplit_of_none (tr : CharTraits) (sep : Separator) (s : List Char)
    (h : firstOcc tr sep s = none) : specSplit tr sep s = [s] := by
  rw [specSplit]
  split
  · rfl
  · simp [h]

theorem specSplit_of_some (tr : CharTraits) (sep : Separator) (s : List Char) (k : Nat)
    (hlen : string_or_char_size sep ≠ 0) (h : firstOcc tr sep s = some k) :
    specSplit tr sep s = s.take k :: specSplit tr sep (s.drop (k + string_or_char_size sep)) := by
  have h1 := firstOcc_spec tr sep s k h
  have h2 := occursAt_length tr sep _ h1.2
  have hs : s ≠ [] := by
    intro h0
    subst h0
    simp at h2
    exact hlen h2
  rw [specSplit]
  simp [hlen, hs, h]

theorem sizeAdd_of_lt (a b : Nat) (h : a + b < 2 ^ 64) : sizeAdd a b = a + b := by
  unfold sizeAdd
  exact Nat.mod_eq_of_lt h

theorem sizeSub_of_le (a b : Nat) (hb : b ≤ a) (ha : a < 2 ^ 64) : sizeSub a b = a - b := by
  unfold sizeSub
  rw [Nat.mod_eq_of_lt (show b < 2 ^ 64 by omega)]
  omega

theorem substr_from_to_incl_between (str : List Char) (b j : Nat) (hj : 0 < j)
    (hq : b + j ≤ str.length) (hlen : str.length < npos) :
    substr_from_to_incl str b (sizeSub (b + j) 1) = (str.drop b).take j := by
  unfold npos at hlen
  have h1 : sizeSub (b + j) 1 = b + j - 1 := sizeSub_of_le _ _ (by omega) (by omega)
  have h2 : sizeSub (b + j - 1) b = j - 1 := by
    rw [sizeSub_of_le _ _ (by omega) (by omega)]
    omega
  have h3 : sizeAdd (j - 1) 1 = j := by
    rw [sizeAdd_of_lt _ _ (by omega)]
    omega
  unfold substr_from_to_incl substr
  rw [h1]
  have hc1 : ¬ (b > str.length ∨ b > b + j - 1) := by omega
  have hc2 : ¬ (b + j - 1 > str.length) := by omega
  simp only [hc1, hc2, if_false, h2, h3]

theorem substr_from_to_incl_rest (str : List Char) (b : Nat) (hb : b ≤ str.length)
    (hlen : str.length < npos) :
    substr_from_to_incl str b (sizeSub npos 1) = str.drop b := by
  have h1 : sizeSub npos 1 = 2 ^ 64 - 2 := by decide
  unfold substr_from_to_incl substr
  rw [h1]
  unfold npos at hlen
  have hc1 : ¬ (b > str.length ∨ b > 2 ^ 64 - 2) := by omega
  simp only [hc1, if_false]
  split
  · exact List.take_of_length_le (by simp [npos]; omega)
  · rename_i hgt
    have h2 : sizeSub (2 ^ 64 - 2) b = 2 ^ 64 - 2 - b := sizeSub_of_le _ _ (by omega) (by omega)
    have h3 : sizeAdd (2 ^ 64 - 2 - b) 1 = 2 ^ 64 - 1 - b := by
      rw [sizeAdd_of_lt _ _ (by omega)]
      omega
    rw [h2, h3]
    exact List.take_of_length_le (by simp; omega)

theorem find_of_some (tr : CharTraits) (str : List Char) (sep : Separator) (b k : Nat)
    (hb : b ≤ str.length) (h : firstOcc tr sep (str.drop b) = some k) :
    find tr str sep b = b + k := by
  unfold find
  simp [Nat.not_lt.mpr hb, h]

theorem find_of_none (tr : CharTraits) (str : List Char) (sep : Separator) (b : Nat)
    (h : firstOcc tr sep (str.drop b) = none) :
    find tr str sep b = npos := by
  unfold find
  split
  · rfl
  · simp [h]

/-- The loop of `splitIntoVector` from a state in which the separator was found at
`subStrStart + j`: it finishes within `fuel` iterations and appends the pieces of the rest
of the string. -/
theorem splitLoop_eq (tr : CharTraits) (sep : Separator) (hsep : string_or_char_size sep ≠ 0) :
    ∀ (n : Nat) (str : List Char) (b j fuel : Nat) (results : List (List Char)),
      str.length - b ≤ n → n < fuel → b ≤ str.length → str.length < npos →
      firstOcc tr sep (str.drop b) = some j →
      splitLoop tr str sep fuel b (b + j) results
        = some (results ++ specSplit tr sep (str.drop b)) := by
  intro n
  induction n with
  | zero =>
    intro str b j fuel results hn _ hb _ hocc
    have h1 := firstOcc_spec tr sep _ j hocc
    have h2 := occursAt_length tr sep _ h1.2
    simp only [List.length_drop] at h1 h2
    omega
  | succ n ih =>
    intro str b j fuel results hn hfuel hb hlen hocc
    have h1 := firstOcc_spec tr sep _ j hocc
    have h2 := occursAt_length tr sep _ h1.2
    simp only [List.length_drop] at h1 h2
    have hnp : str.length < 2 ^ 64 - 1 := hlen
    cases fuel with
    | zero => omega
    | succ fuel =>
      have hpiece : (if b + j = b then results ++ [[]]
          else results ++ [substr_from_to_incl str b (sizeSub (b + j) 1)])
          = results ++ [(str.drop b).take j] := by
        by_cases hj : j = 0
        · simp [hj]
        · have : ¬ (b + j = b) := by omega
          rw [if_neg this, substr_from_to_incl_between str b j (by omega) (by omega) hlen]
      have hadd : sizeAdd (b + j) (string_or_char_size sep)
          = b + j + string_or_char_size sep := sizeAdd_of_lt _ _ (by omega)
      have hdrop : (str.drop b).drop (j + string_or_char_size sep)
          = str.drop (b + j + string_or_char_size sep) := by
        rw [List.drop_drop]
        congr 1
        omega
      rw [splitLoop]
      simp only [hpiece, hadd]
      rw [specSplit_of_some tr sep _ j hsep hocc, hdrop]
      cases hnext : firstOcc tr sep (str.drop (b + j + string_or_char_size sep)) with
      | none =>
        rw [find_of_none tr str sep _ hnext, specSplit_of_none tr sep _ hnext]
        have hgt : npos > str.length := hlen
        simp only [hgt, if_true]
        rw [substr_from_to_incl_rest str _ (by omega) hlen]
        simp
      | some j' =>
        have h3 := firstOcc_spec tr sep _ j' hnext
        simp only [List.length_drop] at h3
        rw [find_of_some tr str sep _ j' (by omega) hnext]
        have hle : ¬ (b + j + string_or_char_size sep + j' > str.length) := by omega
        simp only [hle, if_false]
        rw [ih str (b + j + string_or_char_size sep) j' fuel _ (by omega) (by omega) (by omega)
          hlen hnext]
        simp

/-- Refinement: `splitIntoVector` finishes and returns the pieces of the specification. -/
theorem splitIntoVector_eq_specSplit (tr : CharTraits) (sep : Separator) (str : List Char)
    (hlen : str.length < npos) :
    splitIntoVector tr str sep = some (specSplit tr sep str) := by
  unfold splitIntoVector
  by_cases hsep : string_or_char_size sep = 0
  · simp [hsep, specSplit_of_size_zero tr sep str hsep]
  · cases hocc : firstOcc tr sep str with
    | none =>
      have hf : find tr str sep 0 = npos := find_of_none tr str sep 0 (by simpa using hocc)
      have hgt : npos > str.length := hlen
      simp [hf, hgt, specSplit_of_none tr sep str hocc]
    | some j =>
      have h1 := firstOcc_spec tr sep _ j hocc
      have hf : find tr str sep 0 = 0 + j := find_of_some tr str sep 0 j (by omega)
        (by simpa using hocc)
      have hle : ¬ (0 + j > str.length) := by omega
      simp only [hf, hsep, hle, or_self, if_false]
      have h := splitLoop_eq tr sep hsep str.length str 0 j (str.length + 1) [] (by omega)
        (by omega) (by omega) hlen (by simpa using hocc)
      simpa using h

theorem intercalate_singleton_list (sep a : List Char) : List.intercalate sep [a] = a := by
  simp [List.intercalate, List.intersperse]

theorem intercalate_cons_cons_list (sep a b : List Char) (l : List (List Char)) :
    List.intercalate sep (a :: b :: l) = a ++ sep ++ List.intercalate sep (b :: l) := by
  simp [List.intercalate, List.intersperse]

theorem char_toNat_eq (a b : Char) (h1 : ¬ a.toNat < b.toNat) (h2 : ¬ b.toNat < a.toNat) :
    a = b := by
  apply Char.ext
  apply UInt32.ext
  have : a.toNat = b.toNat := by omega
  simpa [Char.toNat, UInt32.toNat] using this

theorem char_traits_compare_zero :
    ∀ (n : Nat) (s1 s2 : List Char), n ≤ s1.length → n ≤ s2.length →
      (char_traits_compare s1 s2 n = 0 ↔ s1.take n = s2.take n)
  | 0, _, _, _, _ => by simp [char_traits_compare]
  | n + 1, [], _, h, _ => by simp at h
  | n + 1, _ :: _, [], _, h => by simp at h
  | n + 1, a :: s1, b :: s2, h1, h2 => by
    have ih := char_traits_compare_zero n s1 s2 (by simpa using h1) (by simpa using h2)
    simp only [char_traits_compare, deref, List.headD_cons, List.tail_cons, List.take_succ_cons,
      List.cons.injEq]
    by_cases hlt : a.toNat < b.toNat
    · simp only [hlt, if_true]
      constructor
      · intro h; simp at h
      · intro h; rw [h.1] at hlt; omega
    · by_cases hgt : b.toNat < a.toNat
      · simp only [hlt, hgt, if_false, if_true]
        constructor
        · intro h; simp at h
        · intro h; rw [h.1] at hgt; omega
      · simp only [hlt, hgt, if_false]
        rw [ih]
        have := char_toNat_eq a b hlt hgt
        simp [this]

theorem occursAt_char_traits (sep : Separator) (rest : List Char) (hsep : sep.chars ≠ []) :
    occursAt char_traits sep rest = true ↔ sep.chars <+: rest := by
  cases sep with
  | char c =>
    cases rest with
    | nil => simp [occursAt, Separator.chars]
    | cons x r =>
      simp only [occursAt, Separator.chars, char_traits, beq_iff_eq]
      constructor
      · intro h; subst h; exact ⟨r, rfl⟩
      · rintro ⟨t, ht⟩
        simp at ht
        exact ht.1.symm
  | string s =>
    cases s with
    | nil => exact absurd rfl hsep
    | cons c t =>
      simp only [occursAt, Separator.chars, Bool.and_eq_true, decide_eq_true_eq, beq_iff_eq]
      constructor
      · rintro ⟨⟨hl, _⟩, hc⟩
        have := (char_traits_compare_zero (c :: t).length rest (c :: t) hl (le_refl _)).mp hc
        rw [List.take_length] at this
        have h4 := List.take_append_drop (c :: t).length rest
        rw [this] at h4
        exact ⟨rest.drop (c :: t).length, h4⟩
      · rintro ⟨u, hu⟩
        subst hu
        refine ⟨⟨by simp, by simp [deref, char_traits]⟩, ?_⟩
        apply (char_traits_compare_zero (c :: t).length _ (c :: t) (by simp) (le_refl _)).mpr
        simp

theorem firstOcc_char_traits_split (sep : Separator) (s : List Char) (k : Nat)
    (hsep : sep.chars ≠ []) (h : firstOcc char_traits sep s = some k) :
    s = s.take k ++ sep.chars ++ s.drop (k + string_or_char_size sep) := by
  have h1 := firstOcc_spec char_traits sep s k h
  obtain ⟨t, ht⟩ := (occursAt_char_traits sep _ hsep).mp h1.2
  have hsz : string_or_char_size sep = sep.chars.length := by cases sep <;> rfl
  have hd : s.drop (k + string_or_char_size sep) = t := by
    rw [← List.drop_drop, ← ht, hsz]
    simp
  rw [hd, List.append_assoc, ht, List.take_append_drop]

theorem specSplit_ne_nil (tr : CharTraits) (sep : Separator) (s : List Char) :
    specSplit tr sep s ≠ [] := by
  rw [specSplit]
  split
  · simp
  · split <;> simp

/-- Joining the pieces of the specification with the separator gives the string back. -/
theorem intercalate_specSplit (sep : Separator) (hsep : sep.chars ≠ []) :
    ∀ (n : Nat) (s : List Char), s.length ≤ n →
      List.intercalate sep.chars (specSplit char_traits sep s) = s := by
  have hsz : string_or_char_size sep ≠ 0 := by
    cases sep with
    | char c => simp [string_or_char_size]
    | string t =>
      simp only [string_or_char_size, Separator.chars] at hsep ⊢
      intro h0
      exact hsep (List.length_eq_zero.mp h0)
  intro n
  induction n with
  | zero =>
    intro s hs
    have : s = [] := List.length_eq_zero.mp (by omega)
    subst this
    cases hocc : firstOcc char_traits sep [] with
    | none => rw [specSplit_of_none _ _ _ hocc, intercalate_singleton_list]
    | some k =>
      have h1 := firstOcc_spec char_traits sep _ k hocc
      have h2 := occursAt_length char_traits sep _ h1.2
      simp at h2
      exact absurd h2 hsz
  | succ n ih =>
    intro s hs
    cases hocc : firstOcc char_traits sep s with
    | none => rw [specSplit_of_none _ _ _ hocc, intercalate_singleton_list]
    | some k =>
      have h1 := firstOcc_spec char_traits sep _ k hocc
      have h2 := occursAt_length char_traits sep _ h1.2
      simp only [List.length_drop] at h2
      rw [specSplit_of_some _ _ _ k hsz hocc]
      have hrest := ih (s.drop (k + string_or_char_size sep)) (by simp; omega)
      cases hp : specSplit char_traits sep (s.drop (k + string_or_char_size sep)) with
      | nil => exact absurd hp (specSplit_ne_nil _ _ _)
      | cons p ps =>
        rw [intercalate_cons_cons_list, ← hp, hrest]
        exact (firstOcc_char_traits_split sep s k hsep hocc).symm

theorem occursAt_char_append (tr : CharTraits) (c : Char) (rest t : List Char)
    (h : rest ≠ []) :
    occursAt tr (Separator.char c) (rest ++ t) = occursAt tr (Separator.char c) rest := by
  cases rest with
  | nil => exact absurd rfl h
  | cons x r => rfl

theorem filter_keep_all (chars l : List Char) (tr : CharTraits) :
    l.filter (fun c => !false || !tr.contains chars c) = l := by
  simp

/-- C24: for every string s (of fewer than `npos` characters), every set of characters C
and either traits class, `trim(s, C)` is s without its longest leading run and without
its longest trailing run of characters of C, `trimLeft(s, C)` is s without the leading
run only and `trimRight(s, C)` without the trailing run only; s is the leading run, then
`trim(s, C)`, then the trailing run of what follows the leading run, so the result is a
contiguous part of s with its characters unchanged and in order, and it is empty when
every character of s is in C. -/
theorem trim_removes_outer_runs (tr : CharTraits) (s C : List Char) (hlen : s.length < npos) :
    trim tr s C = (s.dropWhile (tr.contains C)).rdropWhile (tr.contains C) ∧
    trimLeft tr s C = s.dropWhile (tr.contains C) ∧
    trimRight tr s C = s.rdropWhile (tr.contains C) ∧
    s = s.takeWhile (tr.contains C) ++ trim tr s C
          ++ (s.dropWhile (tr.contains C)).rtakeWhile (tr.contains C) ∧
    ((∀ c ∈ s, tr.contains C c = true) → trim tr s C = []) ∧
    trim tr s C <:+: s ∧ trimLeft tr s C <:+ s ∧ trimRight tr s C <+: s ∧
    trim char_traits " _ 123.456/789-0ab/_ _".data " _".data = "123.456/789-0ab/".data ∧
    trim char_traits "aABbCc".data "abc".data = "ABbC".data ∧
    trimLeft char_traits "aABbCc".data "abc".data = "ABbCc".data ∧
    trimRight char_traits "aABbCc".data "abc".data = "aABbC".data ∧
    trim ci_traits "zB<SOMETHING>adDD</SOMETHING>dAZb".data "aBZd".data
      = "<SOMETHING>adDD</SOMETHING>".data ∧
    trim char_traits " \r\t\t \n ".data " \n\t\r".data = [] := by
  have hO : trim tr s C = (s.dropWhile (tr.contains C)).rdropWhile (tr.contains C) := by
    unfold trim
    rw [strip_eq tr s C _ hlen]
    simp only [flags_OUTSIDE.1, flags_OUTSIDE.2.1, flags_OUTSIDE.2.2, if_true,
      List.filter_nil, List.nil_append, List.append_nil, filter_keep_all]
  have hL : trimLeft tr s C = s.dropWhile (tr.contains C) := by
    unfold trimLeft
    rw [strip_eq tr s C _ hlen]
    simp only [flags_LEFT.1, flags_LEFT.2.1, flags_LEFT.2.2,
      if_true, Bool.false_eq_true, if_false, List.filter_nil, List.nil_append,
      filter_keep_all, rdropWhile_append_rtakeWhile]
  have hR : trimRight tr s C = s.rdropWhile (tr.contains C) := by
    unfold trimRight
    rw [strip_eq tr s C _ hlen]
    simp only [flags_RIGHT.1, flags_RIGHT.2.1,
      flags_RIGHT.2.2, if_true, Bool.false_eq_true, if_false, true_and,
      List.filter_nil, List.append_nil, filter_keep_all]
    by_cases hall : ∀ c ∈ s, tr.contains C c = true
    · rw [if_pos hall, List.dropWhile_eq_nil_iff.mpr hall]
      simp only [List.rdropWhile_nil, List.filter_nil, List.nil_append]
      exact (List.rdropWhile_eq_nil_iff.mpr hall).symm
    · rw [if_neg hall]
      exact (rdropWhile_eq_take_append _ s (exists_not_of_not_all _ s hall)).symm
  refine ⟨hO, hL, hR, ?_, ?_, ?_, ?_, ?_, by decide, by decide, by decide, by decide,
    by decide, by decide⟩
  · rw [hO]
    exact split_three _ s
  · intro hall
    rw [hO, List.dropWhile_eq_nil_iff.mpr hall]
    rfl
  · rw [hO]
    exact ⟨s.takeWhile (tr.contains C),
      (s.dropWhile (tr.contains C)).rtakeWhile (tr.contains C), (split_three _ s).symm⟩
  · rw [hL]
    exact List.dropWhile_suffix _
  · rw [hR]
    exact List.rdropWhile_prefix _ _

/-- Witness of C24: two blanks before and one after `ab c` are trimmed, the inner blank
is kept. -/
theorem trim_removes_outer_runs_witness :
    "  ab c ".data.length < npos ∧
    trim char_traits "  ab c ".data " ".data = "ab c".data :=
  ⟨by decide, ((trim_removes_outer_runs char_traits "  ab c ".data " ".data (by decide)).1).trans
    (by decide)⟩

/-- C25: for every string s (of fewer than `npos` characters) and every non-empty set of
characters C, `strip(s, C)` with the default mode ALL is the list of the characters of s
that are not in C, in their order in s: a character is in the result iff it is in s and
not in C, and the result is a subsequence of s; e.g. ` _ 123.456/789-0ab/_ _` stripped of
`./` is ` _ 123456789-0ab_ _`. -/
theorem strip_all_is_filter (tr : CharTraits) (s C : List Char) (hC : C ≠ [])
    (hlen : s.length < npos) :
    strip tr s C StripTrimMode.ALL = s.filter (fun c => !tr.contains C c) ∧
    (∀ c, c ∈ strip tr s C StripTrimMode.ALL ↔ c ∈ s ∧ tr.contains C c = false) ∧
    (strip tr s C StripTrimMode.ALL).Sublist s ∧
    strip char_traits " _ 123.456/789-0ab/_ _".data "./".data StripTrimMode.ALL
      = " _ 123456789-0ab_ _".data ∧
    strip char_traits " _ 123.456/789-0ab/_ _".data ".".data StripTrimMode.ALL
      = " _ 123456/789-0ab/_ _".data ∧
    strip char_traits "a-A-B-b-c-C".data "abc".data StripTrimMode.ALL = "-A-B---C".data ∧
    strip ci_traits "abCaaAxxxabcxxxcBA".data "abc".data StripTrimMode.ALL = "xxxxxx".data := by
  have hce : C.isEmpty = false := by
    cases C with
    | nil => exact absurd rfl hC
    | cons a l => rfl
  have h : strip tr s C StripTrimMode.ALL = s.filter (fun c => !tr.contains C c) := by
    rw [strip_eq tr s C _ hlen]
    simp only [flags_ALL.1, flags_ALL.2.1,
      flags_ALL.2.2, if_true, List.filter_nil, List.nil_append,
      List.append_nil, hce, Bool.false_eq_true, if_false, Bool.not_true, Bool.false_or]
    conv => rhs; rw [split_three (tr.contains C) s]
    rw [List.filter_append, List.filter_append]
    have h1 : (s.takeWhile (tr.contains C)).filter (fun c => !tr.contains C c) = [] := by
      rw [List.filter_eq_nil_iff]
      intro a ha
      simp [List.mem_takeWhile_imp ha]
    have h2 : ((s.dropWhile (tr.contains C)).rtakeWhile (tr.contains C)).filter
        (fun c => !tr.contains C c) = [] := by
      rw [List.filter_eq_nil_iff]
      intro a ha
      simp [List.mem_rtakeWhile_imp ha]
    rw [h1, h2]
    simp
  refine ⟨h, ?_, ?_, by decide, by decide, by decide, by decide⟩
  · intro c
    rw [h]
    simp [List.mem_filter]
  · rw [h]
    exact List.filter_sublist _

/-- Witness of C25: `a.b/c` stripped of `./` is `abc`. -/
theorem strip_all_is_filter_witness :
    "./".data ≠ [] ∧ "a.b/c".data.length < npos ∧
    strip char_traits "a.b/c".data "./".data StripTrimMode.ALL = "abc".data :=
  ⟨by decide, by decide,
    ((strip_all_is_filter char_traits "a.b/c".data "./".data (by decide) (by decide)).1).trans
      (by decide)⟩

theorem map_replace_of_all (tr : CharTraits) (chars : List Char) (r : Char) :
    ∀ l : List Char, (∀ c ∈ l, tr.contains chars c = true) →
      l.map (fun c => if tr.contains chars c then r else c) = List.replicate l.length r
  | [], _ => rfl
  | a :: l, h => by
    have ha := h a (List.mem_cons_self _ _)
    have := map_replace_of_all tr chars r l (fun c hc => h c (List.mem_cons_of_mem _ hc))
    simp [ha, this, List.replicate_succ]

/-- C26: with the mode INSIDE `strip` starts at index 0 and ends at the size of the
string, and its loop drops every character of C it visits; so for every string s and
every non-empty C, `strip(s, C, INSIDE)` is s without every character of C, the leading
and the trailing run included, the same as with the mode ALL: `_a_b_` stripped of `_`
with INSIDE is `ab` and not `_ab_`, whereas `replaceChar` with INSIDE leaves the two runs
alone and gives `_a#b_`. -/
theorem strip_inside_removes_all (tr : CharTraits) (s C : List Char) (hC : C ≠ [])
    (hlen : s.length < npos) :
    strip tr s C StripTrimMode.INSIDE = s.filter (fun c => !tr.contains C c) ∧
    strip char_traits "_a_b_".data "_".data StripTrimMode.INSIDE = "ab".data ∧
    strip char_traits "_a_b_".data "_".data StripTrimMode.INSIDE ≠ "_ab_".data ∧
    replaceChar char_traits "_a_b_".data "_".data '#' StripTrimMode.INSIDE
      = some "_a#b_".data := by
  have hce : C.isEmpty = false := by
    cases C with
    | nil => exact absurd rfl hC
    | cons a l => rfl
  refine ⟨?_, by decide, by decide, by decide⟩
  rw [strip_eq tr s C _ hlen]
  simp only [flags_INSIDE.1,
    flags_INSIDE.2.1, flags_INSIDE.2.2,
    Bool.false_eq_true, if_false, false_and, hce, Bool.not_true, Bool.false_or]
  rw [← List.filter_append, ← List.filter_append, ← split_three]

/-- Witness of C26: `__x_y__` stripped of `_` with the mode INSIDE is `xy`. -/
theorem strip_inside_removes_all_witness :
    "_".data ≠ [] ∧ "__x_y__".data.length < npos ∧
    strip char_traits "__x_y__".data "_".data StripTrimMode.INSIDE = "xy".data :=
  ⟨by decide, by decide,
    ((strip_inside_removes_all char_traits "__x_y__".data "_".data (by decide)
      (by decide)).1).trans (by decide)⟩

set_option maxRecDepth 4000 in
/-- C27: for every string s (of fewer than `npos` characters), every non-empty set of
characters C and every replacement character r, `replaceChar(s, C, r)` with the default
mode ALL returns s with r in the place of each character that is in C: the result has the
length of s, and its i-th character is r when the i-th character of s is in C and that
character otherwise; e.g. ` _ 123.456/789-0ab/_ _` with C = `_ ` and r = `#` becomes
`###123.456/789-0ab/###`. -/
theorem replaceChar_all_is_map (tr : CharTraits) (s C : List Char) (r : Char) (hC : C ≠ [])
    (hlen : s.length < npos) :
    replaceChar tr s C r StripTrimMode.ALL
      = some (s.map (fun c => if tr.contains C c then r else c)) ∧
    (∀ t, replaceChar tr s C r StripTrimMode.ALL = some t →
      t.length = s.length ∧
      ∀ i (h1 : i < t.length) (h2 : i < s.length),
        t.get ⟨i, h1⟩ = if tr.contains C (s.get ⟨i, h2⟩) then r else s.get ⟨i, h2⟩) ∧
    replaceChar char_traits " _ 123.456/789-0ab/_ _".data "_ ".data '#' StripTrimMode.ALL
      = some "###123.456/789-0ab/###".data ∧
    replaceChar char_traits " _ 123.456/789-0ab/_ _".data "_".data '#' StripTrimMode.ALL
      = some " # 123.456/789-0ab/# #".data ∧
    replaceChar char_traits "a-A-B-b-c-C".data "abc".data '#' StripTrimMode.ALL
      = some "#-A-B-#-#-C".data ∧
    replaceChar ci_traits "abCaaAxxxabcxxxcBA".data "abc".data '#' StripTrimMode.ALL
      = some "######xxx###xxx###".data := by
  have h : replaceChar tr s C r StripTrimMode.ALL
      = some (s.map (fun c => if tr.contains C c then r else c)) := by
    rw [replaceChar_eq tr s C r _ hC hlen]
    by_cases hall : ∀ c ∈ s, tr.contains C c = true
    · rw [if_pos hall, map_replace_of_all tr C r s hall]
    · rw [if_neg hall]
      simp only [flags_ALL.1, flags_ALL.2.1,
        flags_ALL.2.2, if_true]
      conv => rhs; rw [split_three (tr.contains C) s]
      rw [List.map_append, List.map_append,
        map_replace_of_all tr C r _ (fun c hc => List.mem_takeWhile_imp hc),
        map_replace_of_all tr C r _ (fun c hc => List.mem_rtakeWhile_imp hc),
        rtakeWhile_dropWhile _ s (exists_not_of_not_all _ s hall)]
  refine ⟨h, ?_, by decide, by decide, by decide, by decide⟩
  intro t ht
  rw [h] at ht
  have ht2 : t = s.map (fun c => if tr.contains C c then r else c) := (Option.some.inj ht).symm
  subst ht2
  refine ⟨by simp, ?_⟩
  intro i h1 h2
  simp

/-- Witness of C27: `cabbage` with C = `ab` and r = `*` becomes `c****ge`. -/
theorem replaceChar_all_is_map_witness :
    "ab".data ≠ [] ∧ "cabbage".data.length < npos ∧
    replaceChar char_traits "cabbage".data "ab".data '*' StripTrimMode.ALL
      = some "c****ge".data :=
  ⟨by decide, by decide,
    ((replaceChar_all_is_map char_traits "cabbage".data "ab".data '*' (by decide)
      (by decide)).1).trans (by decide)⟩

/-- C28: for every string s (of fewer than `npos` characters), every non-empty set of
characters C and every replacement r, `replaceChar` with the mode LEFT returns s with
each character of its longest leading run of characters of C replaced by r and the rest
unchanged, and with the mode RIGHT s with each character of its longest trailing run
replaced and the rest unchanged; `replaceCharLeft` is the mode LEFT. When every character
of s is in C, the run is all of s and both modes replace every character. E.g. `aABbCc`
with C = `abc` and r = `#` gives `#ABbCc` for LEFT and `aABbC#` for RIGHT. -/
theorem replaceChar_left_right_runs (tr : CharTraits) (s C : List Char) (r : Char)
    (hC : C ≠ []) (hlen : s.length < npos) :
    replaceChar tr s C r StripTrimMode.LEFT
      = some (List.replicate (s.takeWhile (tr.contains C)).length r
          ++ s.dropWhile (tr.contains C)) ∧
    replaceChar tr s C r StripTrimMode.RIGHT
      = some (s.rdropWhile (tr.contains C)
          ++ List.replicate (s.rtakeWhile (tr.contains C)).length r) ∧
    replaceCharLeft tr s C r = replaceChar tr s C r StripTrimMode.LEFT ∧
    ((∀ c ∈ s, tr.contains C c = true) →
      replaceChar tr s C r StripTrimMode.LEFT = some (List.replicate s.length r) ∧
      replaceChar tr s C r StripTrimMode.RIGHT = some (List.replicate s.length r)) ∧
    replaceChar char_traits "aABbCc".data "abc".data '#' StripTrimMode.LEFT
      = some "#ABbCc".data ∧
    replaceChar char_traits "aABbCc".data "abc".data '#' StripTrimMode.RIGHT
      = some "aABbC#".data ∧
    replaceChar char_traits "a-A-B-b-c-C".data "abc".data '#' StripTrimMode.RIGHT
      = some "a-A-B-b-c-C".data ∧
    replaceChar char_traits " ".data "\n\t \r".data '#' StripTrimMode.LEFT = some "#".data := by
  have hL : replaceChar tr s C r StripTrimMode.LEFT
      = some (List.replicate (s.takeWhile (tr.contains C)).length r
          ++ s.dropWhile (tr.contains C)) := by
    rw [replaceChar_eq tr s C r _ hC hlen]
    by_cases hall : ∀ c ∈ s, tr.contains C c = true
    · rw [if_pos hall, List.takeWhile_eq_self_iff.mpr hall, List.dropWhile_eq_nil_iff.mpr hall,
        List.append_nil]
    · rw [if_neg hall]
      simp only [flags_LEFT.1, flags_LEFT.2.1, flags_LEFT.2.2,
        if_true, Bool.false_eq_true, if_false]
      rw [← rtakeWhile_dropWhile _ s (exists_not_of_not_all _ s hall), List.append_assoc,
        rdropWhile_append_rtakeWhile]
  have hR : replaceChar tr s C r StripTrimMode.RIGHT
      = some (s.rdropWhile (tr.contains C)
          ++ List.replicate (s.rtakeWhile (tr.contains C)).length r) := by
    rw [replaceChar_eq tr s C r _ hC hlen]
    by_cases hall : ∀ c ∈ s, tr.contains C c = true
    · rw [if_pos hall, List.rtakeWhile_eq_self_iff.mpr hall,
        List.rdropWhile_eq_nil_iff.mpr hall, List.nil_append]
    · rw [if_neg hall]
      simp only [flags_RIGHT.1, flags_RIGHT.2.1,
        flags_RIGHT.2.2, if_true, Bool.false_eq_true, if_false]
      rw [rdropWhile_eq_take_append _ s (exists_not_of_not_all _ s hall)]
  refine ⟨hL, hR, rfl, ?_, by decide, by decide, by decide, by decide⟩
  intro hall
  rw [hL, hR, List.takeWhile_eq_self_iff.mpr hall, List.dropWhile_eq_nil_iff.mpr hall,
    List.rtakeWhile_eq_self_iff.mpr hall, List.rdropWhile_eq_nil_iff.mpr hall]
  simp

/-- Witness of C28: `xxaxbxx` with C = `x`, r = `.` and the mode LEFT becomes
`..axbxx`. -/
theorem replaceChar_left_right_runs_witness :
    "x".data ≠ [] ∧ "xxaxbxx".data.length < npos ∧
    replaceChar char_traits "xxaxbxx".data "x".data '.' StripTrimMode.LEFT
      = some "..axbxx".data :=
  ⟨by decide, by decide,
    ((replaceChar_left_right_runs char_traits "xxaxbxx".data "x".data '.' (by decide)
      (by decide)).1).trans (by decide)⟩

theorem firstOcc_min (tr : CharTraits) (sep : Separator) :
    ∀ (rest : List Char) (k : Nat), firstOcc tr sep rest = some k →
      ∀ j < k, occursAt tr sep (rest.drop j) = false
  | [], k, h => by
    simp only [firstOcc] at h
    split at h
    · cases h
      intro j hj
      omega
    · cases h
  | c :: rest, k, h => by
    simp only [firstOcc] at h
    split at h
    · cases h
      intro j hj
      omega
    · rename_i hocc
      cases hr : firstOcc tr sep rest with
      | none => simp [hr] at h
      | some i =>
        simp [hr] at h
        subst h
        intro j hj
        cases j with
        | zero => simpa using hocc
        | succ j =>
          have := firstOcc_min tr sep rest i hr j (by omega)
          simpa using this

theorem firstOcc_none (tr : CharTraits) (sep : Separator) :
    ∀ (rest : List Char), firstOcc tr sep rest = none →
      ∀ j ≤ rest.length, occursAt tr sep (rest.drop j) = false
  | [], h => by
    simp only [firstOcc] at h
    split at h
    · cases h
    · rename_i hocc
      intro j hj
      simpa using hocc
  | c :: rest, h => by
    simp only [firstOcc] at h
    split at h
    · cases h
    · rename_i hocc
      cases hr : firstOcc tr sep rest with
      | some i => simp [hr] at h
      | none =>
        intro j hj
        cases j with
        | zero => simpa using hocc
        | succ j =>
          have := firstOcc_none tr sep rest hr j (by simpa using hj)
          simpa using this

theorem firstOcc_of_first (tr : CharTraits) (sep : Separator) :
    ∀ (rest : List Char) (k : Nat), k ≤ rest.length → occursAt tr sep (rest.drop k) = true →
      (∀ j < k, occursAt tr sep (rest.drop j) = false) → firstOcc tr sep rest = some k
  | [], k, hk, hocc, _ => by
    have : k = 0 := by simpa using hk
    subst this
    simp only [List.drop_nil] at hocc
    simp [firstOcc, hocc]
  | c :: rest, 0, _, hocc, _ => by
    simp only [List.drop_zero] at hocc
    simp [firstOcc, hocc]
  | c :: rest, k + 1, hk, hocc, hmin => by
    have h0 := hmin 0 (by omega)
    simp only [List.drop_zero] at h0
    have ih := firstOcc_of_first tr sep rest k (by simpa using hk) (by simpa using hocc)
      (fun j hj => by simpa using hmin (j + 1) (by omega))
    simp [firstOcc, h0, ih]

theorem firstOcc_of_nowhere (tr : CharTraits) (sep : Separator) :
    ∀ (rest : List Char), (∀ j ≤ rest.length, occursAt tr sep (rest.drop j) = false) →
      firstOcc tr sep rest = none
  | [], h => by
    have := h 0 (by simp)
    simp only [List.drop_nil] at this
    simp [firstOcc, this]
  | c :: rest, h => by
    have h0 := h 0 (by simp)
    simp only [List.drop_zero] at h0
    have ih := firstOcc_of_nowhere tr sep rest
      (fun j hj => by simpa using h (j + 1) (by simpa using hj))
    simp [firstOcc, h0, ih]

theorem size_ne_zero_of_chars (sep : Separator) (hsep : sep.chars ≠ []) :
    string_or_char_size sep ≠ 0 := by
  cases sep with
  | char c => simp [string_or_char_size]
  | string t =>
    simp only [string_or_char_size, Separator.chars] at hsep ⊢
    intro h0
    exact hsep (List.length_eq_zero.mp h0)

theorem size_eq_chars_length (sep : Separator) :
    string_or_char_size sep = sep.chars.length := by
  cases sep <;> rfl

/-- C22: for every `std::string` s (of fewer than `npos` characters) and every separator
with at least one character, a character or a string, `splitIntoVector(s, sep)` finishes
and returns the pieces of s between the occurrences of sep found from left to right, each
search starting behind the occurrence found before: the one piece s when sep occurs
nowhere in s, and, when the first occurrence of sep is at the index k, the first k
characters of s followed by what `splitIntoVector` returns for the rest of s behind that
occurrence. Joining the returned pieces with sep gives s back. E.g. `123/3456/7890a`
split by `/` gives `123`, `3456`, `7890a`, and by `34` gives `123/`, `56/7890a`. -/
theorem splitIntoVector_pieces_join (sep : Separator) (s : List Char) (hsep : sep.chars ≠ [])
    (hlen : s.length < npos) :
    splitIntoVector char_traits s sep = some (specSplit char_traits sep s) ∧
    List.intercalate sep.chars (specSplit char_traits sep s) = s ∧
    ((∀ j ≤ s.length, ¬ sep.chars <+: s.drop j) →
      splitIntoVector char_traits s sep = some [s]) ∧
    (∀ k ≤ s.length, sep.chars <+: s.drop k → (∀ j < k, ¬ sep.chars <+: s.drop j) →
      ∃ rest, splitIntoVector char_traits (s.drop (k + sep.chars.length)) sep = some rest ∧
        splitIntoVector char_traits s sep = some (s.take k :: rest) ∧
        s = s.take k ++ sep.chars ++ s.drop (k + sep.chars.length)) ∧
    splitIntoVector char_traits "123/3456/7890a".data (Separator.char '/')
      = some ["123".data, "3456".data, "7890a".data] ∧
    splitIntoVector char_traits "123/3456/7890a".data (Separator.string "34".data)
      = some ["123/".data, "56/7890a".data] ∧
    splitIntoVector char_traits "123/3456/7890a".data (Separator.char '7')
      = some ["123/3456/".data, "890a".data] ∧
    splitIntoVector char_traits "1/4/7/1/7".data (Separator.string "/".data)
      = some ["1".data, "4".data, "7".data, "1".data, "7".data] ∧
    splitIntoVector char_traits "aaa".data (Separator.string "aa".data)
      = some ["".data, "a".data] := by
  have hsz := size_ne_zero_of_chars sep hsep
  have href := splitIntoVector_eq_specSplit char_traits sep s hlen
  refine ⟨href, intercalate_specSplit sep hsep s.length s (le_refl _), ?_, ?_, by decide,
    by decide, by decide, by decide, by decide⟩
  · intro hno
    rw [href, specSplit_of_none]
    apply firstOcc_of_nowhere
    intro j hj
    cases ho : occursAt char_traits sep (s.drop j)
    · rfl
    · exact absurd ((occursAt_char_traits sep _ hsep).mp ho) (hno j hj)
  · intro k hk hocc hmin
    have hfirst : firstOcc char_traits sep s = some k := by
      apply firstOcc_of_first _ _ _ _ hk ((occursAt_char_traits sep _ hsep).mpr hocc)
      intro j hj
      cases ho : occursAt char_traits sep (s.drop j)
      · rfl
      · exact absurd ((occursAt_char_traits sep _ hsep).mp ho) (hmin j hj)
    refine ⟨specSplit char_traits sep (s.drop (k + sep.chars.length)), ?_, ?_, ?_⟩
    · exact splitIntoVector_eq_specSplit char_traits sep _ (by simp; omega)
    · rw [href, specSplit_of_some _ _ _ k hsz hfirst, size_eq_chars_length]
    · have := firstOcc_char_traits_split sep s k hsep hfirst
      rw [size_eq_chars_length] at this
      exact this

/-- Witness of C22: `a::b::` split by `::` gives `a`, `b` and the empty string, and the
pieces joined by `::` give `a::b::`. -/
theorem splitIntoVector_pieces_join_witness :
    (Separator.string "::".data).chars ≠ [] ∧ "a::b::".data.length < npos ∧
    some (specSplit char_traits (Separator.string "::".data) "a::b::".data)
      = some ["a".data, "b".data, "".data] ∧
    List.intercalate (Separator.string "::".data).chars
        (specSplit char_traits (Separator.string "::".data) "a::b::".data)
      = "a::b::".data :=
  ⟨by decide, by decide,
    ((splitIntoVector_pieces_join (Separator.string "::".data) "a::b::".data (by decide)
      (by decide)).1).symm.trans (by decide),
    (splitIntoVector_pieces_join (Separator.string "::".data) "a::b::".data (by decide)
      (by decide)).2.1⟩

theorem decorateString_out (P : Platform) (d : decorator) (os : OStream) (T : Ty) (s : String)
    (h : os.width = 0) :
    (decorateString P d os T s).out
      = os.out ++ (d.getBracketOf P T BracketKey.STRING).left_ ++ s
        ++ (d.getBracketOf P T BracketKey.STRING).right_ := by
  unfold decorateString
  rw [insertString_out _ _ (insertString_width _ _), insertString_out _ _ (insertString_width _ _),
    insertString_out _ _ h, Brackets.left_empty, Brackets.right_empty]

/-- C21: for every string s, `decorate` writes left + s + right with the bracket looked
up for the string under the key STRING, the characters of s as they are: so `toString`
of a `std::string`, of a `char const*` and of a string view (decorated as the
`std::string` made from it), and so on every sink with no field width pending. With the
built-in defaults `abc` is written as `"abc"`, a string holding a double quote, a
backslash and a tab is written unchanged between the two quotes, and the multiset of the
test as `{#"abc","def","def","ghi"#}`. -/
theorem string_written_verbatim (P : Platform) (d : decorator) (s : String) :
    toString P d (Value.string s)
      = (d.getBracketOf P Ty.string BracketKey.STRING).left_ ++ s
        ++ (d.getBracketOf P Ty.string BracketKey.STRING).right_ ∧
    toString P d (Value.cstr s)
      = (d.getBracketOf P Ty.cstr BracketKey.STRING).left_ ++ s
        ++ (d.getBracketOf P Ty.cstr BracketKey.STRING).right_ ∧
    toString P d (Value.string_view s) = toString P d (Value.string s) ∧
    (∀ os : OStream, os.width = 0 →
      (decorate P d os (Value.string s)).out
        = os.out ++ (d.getBracketOf P Ty.string BracketKey.STRING).left_ ++ s
          ++ (d.getBracketOf P Ty.string BracketKey.STRING).right_) ∧
    toString gccPlatform (defaultRegistry gccPlatform) (Value.string "abc") = "\"abc\"" ∧
    toString gccPlatform (defaultRegistry gccPlatform) (Value.cstr "abc") = "\"abc\"" ∧
    toString gccPlatform (defaultRegistry gccPlatform) (Value.string "a\"B\\n\tc")
      = "\"a\"B\\n\tc\"" ∧
    toString gccPlatform (defaultRegistry gccPlatform)
        (Value.container ContainerKind.multiset (Ty.other "std::multiset<std::string>")
          [Value.string "abc", Value.string "def", Value.string "def", Value.string "ghi"])
      = "\x7b#\"abc\",\"def\",\"def\",\"ghi\"#\x7d" := by
  refine ⟨?_, ?_, ?_, ?_, by decide, by decide, by decide, by decide⟩
  · unfold toString
    rw [decorate, decorateString_out P d OStream.fresh Ty.string s rfl]
    simp [OStream.fresh]
  · unfold toString
    rw [decorate, decorateString_out P d OStream.fresh Ty.cstr s rfl]
    simp [OStream.fresh]
  · unfold toString
    rw [decorate, decorate]
  · intro os h
    rw [decorate, decorateString_out P d os Ty.string s h]

/-- Witness of C21: the string `x y` with the built-in defaults on a new stream that
already holds `s=`. -/
theorem string_written_verbatim_witness :
    (freshWith "s=").width = 0 ∧
    (decorate gccPlatform (defaultRegistry gccPlatform) (freshWith "s=")
      (Value.string "x y")).out = "s=\"x y\"" :=
  ⟨rfl, ((string_written_verbatim gccPlatform (defaultRegistry gccPlatform) "x y").2.2.2.1
    (freshWith "s=") rfl).trans (by decide)⟩

/-- C29: for every string s, `scanBoolString(s, result)` returns true iff `toLower(s)`
is one of the twelve words true, t, yes, y, 1, on, false, f, no, n, 0, off, the keys of
`VALID_BOOL`; when it returns true, `result` is true iff the word is one of the first six
and false iff it is one of the last six; when it returns false, `result` is false.
Nothing is trimmed: ` on` and `on ` are not accepted. -/
theorem scanBoolString_accepts_twelve_words (s : List Char) :
    ((scanBoolString s).1 = true ↔
      toLower s ∈ (trueWords ++ falseWords).map String.data) ∧
    ((scanBoolString s).1 = true →
      ((scanBoolString s).2 = true ↔ toLower s ∈ trueWords.map String.data) ∧
      ((scanBoolString s).2 = false ↔ toLower s ∈ falseWords.map String.data)) ∧
    ((scanBoolString s).1 = false → (scanBoolString s).2 = false) ∧
    (VALID_BOOL.map Prod.fst = trueWords ++ falseWords) ∧
    scanBoolString "Yes".data = (true, true) ∧ scanBoolString "OFF".data = (true, false) ∧
    scanBoolString "tRuE".data = (true, true) ∧ scanBoolString "0".data = (true, false) ∧
    scanBoolString " on".data = (false, false) ∧ scanBoolString "on ".data = (false, false) ∧
    scanBoolString "".data = (false, false) ∧ scanBoolString "2".data = (false, false) := by
  have hkeys : ∀ kv ∈ VALID_BOOL,
      (kv.2 = true ↔ kv.1.data ∈ trueWords.map String.data) ∧
      (kv.2 = false ↔ kv.1.data ∈ falseWords.map String.data) ∧
      kv.1.data ∈ (trueWords ++ falseWords).map String.data := by decide
  have hall : ∀ w ∈ (trueWords ++ falseWords).map String.data,
      ∃ kv ∈ VALID_BOOL, kv.1.data = w := by decide
  refine ⟨?_, ?_, ?_, by decide, by decide, by decide, by decide, by decide, by decide,
    by decide, by decide, by decide⟩
  · unfold scanBoolString
    simp only []
    constructor
    · intro h
      obtain ⟨kv, hkv⟩ := Option.isSome_iff_exists.mp h
      have hm := List.mem_of_find?_eq_some hkv
      have hp := List.find?_some hkv
      have he : kv.1.data = toLower s := by simpa using hp
      rw [← he]
      exact (hkeys kv hm).2.2
    · intro h
      obtain ⟨kv, hm, hk⟩ := hall _ h
      rw [List.find?_isSome]
      exact ⟨kv, hm, by simp [hk]⟩
  · unfold scanBoolString
    simp only []
    intro h
    obtain ⟨kv, hkv⟩ := Option.isSome_iff_exists.mp h
    have hm := List.mem_of_find?_eq_some hkv
    have hp := List.find?_some hkv
    have he : kv.1.data = toLower s := by simpa using hp
    rw [hkv]
    simp only []
    rw [← he]
    exact ⟨(hkeys kv hm).1, (hkeys kv hm).2.1⟩
  · unfold scanBoolString
    simp only []
    intro h
    cases hf : VALID_BOOL.find? (fun kv => kv.1.data == toLower s) with
    | none => rfl
    | some kv => simp [hf] at h

/-- Witness of C29: `No` is accepted and leaves false in `result`. -/
theorem scanBoolString_accepts_twelve_words_witness :
    (scanBoolString "No".data).1 = true ∧ (scanBoolString "No".data).2 = false :=
  ⟨by decide,
    ((scanBoolString_accepts_twelve_words "No".data).2.1 (by decide)).2.mpr (by decide)⟩

/-- C30: `classifyNumberString` tests only which characters the string holds and how
long it is. With the length limits 19 and 20 of the built-in defaults, `1E5` is
classified INT (the test for a floating-point number looks for `.` and `e` only, while
`E` is among the characters let through), whereas `1e5` is FLOAT; `+-`, `1-2+3` and `L`
are classified INT, `e` and `1.2.3` FLOAT; the smallest `int64_t`,
-9223372036854775808, is FLOAT, 1000000000000000000 is UINT, and the 20-digit
99999999999999999999 is UINT. -/
theorem classifyNumberString_by_characters :
    maxIntLen gccPlatform (defaultRegistry gccPlatform) = 19 ∧
    maxUintLen gccPlatform (defaultRegistry gccPlatform) = 20 ∧
    classifyNumberString char_traits 19 20 "1E5".data = NumberClass.INT ∧
    classifyNumberString char_traits 19 20 "1e5".data = NumberClass.FLOAT ∧
    classifyNumberString char_traits 19 20 "+-".data = NumberClass.INT ∧
    classifyNumberString char_traits 19 20 "1-2+3".data = NumberClass.INT ∧
    classifyNumberString char_traits 19 20 "L".data = NumberClass.INT ∧
    classifyNumberString char_traits 19 20 "e".data = NumberClass.FLOAT ∧
    classifyNumberString char_traits 19 20 "1.2.3".data = NumberClass.FLOAT ∧
    classifyNumberString char_traits 19 20 "-9223372036854775808".data = NumberClass.FLOAT ∧
    classifyNumberString char_traits 19 20 "1000000000000000000".data = NumberClass.UINT ∧
    classifyNumberString char_traits 19 20 "99999999999999999999".data = NumberClass.UINT ∧
    classifyNumberString char_traits 19 20 "123".data = NumberClass.INT ∧
    classifyNumberString char_traits 19 20 "12a".data = NumberClass.NONE ∧
    classifyNumberString char_traits 19 20 "".data = NumberClass.NONE := by
  refine ⟨by decide, by decide, by decide, by decide, by decide, by decide, by decide,
    by decide, by decide, by decide, by decide, by decide, by decide, by decide, by decide⟩

/-! ## decorator.h: initializeBrackets -/

/-- C35: `initializeBrackets()` calls `clearBrackets()` and then `clear()`, which empties
the two format maps as well: for every registry state, after the call `getFormat` returns
the sentinel format for every integer type and for every floating-point type, whatever it
returned before; only the flag for booleans is unchanged, and the bracket map is the
built-in one. After `initialize()`, `getFormat<int32_t>()` is the valid decimal format and
`int8_t{65}` is written as 41; after a further `initializeBrackets()` the format of
`int32_t` is invalid, that of `double` has no base and the `int8_t` is written as A. -/
theorem initializeBrackets_clears_formats (P : Platform) (d : decorator) :
    (∀ T : IntType, (d.initializeBrackets).getIntFormat P T
      = intFmt.ofBase IntBase.default_format) ∧
    (∀ T : FloatType, (d.initializeBrackets).getFloatFormat P T
      = floatFmt.ofBase FloatBase.default_format) ∧
    (d.initializeBrackets).intType2format_ = [] ∧
    (d.initializeBrackets).floatType2format_ = [] ∧
    (d.initializeBrackets).getBoolAlpha = d.getBoolAlpha ∧
    (d.initializeBrackets).type2brackets_ = (defaultRegistry P).type2brackets_ ∧
    (defaultRegistry gccPlatform).getIntFormat gccPlatform IntType.int32_t
      = intFmt.ofBase IntBase.decimal ∧
    ((defaultRegistry gccPlatform).initializeBrackets).getIntFormat gccPlatform IntType.int32_t
      ≠ (defaultRegistry gccPlatform).getIntFormat gccPlatform IntType.int32_t ∧
    ((defaultRegistry gccPlatform).initializeBrackets).getFloatFormat gccPlatform
        FloatType.double
      ≠ (defaultRegistry gccPlatform).getFloatFormat gccPlatform FloatType.double ∧
    toString gccPlatform (defaultRegistry gccPlatform) (Value.int IntType.int8_t 65) = "41" ∧
    toString gccPlatform ((defaultRegistry gccPlatform).initializeBrackets)
      (Value.int IntType.int8_t 65) = "A" := by
  have h := initializeBrackets_eq d
  refine ⟨?_, ?_, ?_, ?_, ?_, ?_, by decide, by decide, by decide, by decide, by decide⟩
  · intro T
    rw [h]
    rfl
  · intro T
    rw [h]
    rfl
  · rw [h]
  · rw [h]
  · rw [h]
    rfl
  · rw [h, defaultRegistry, initializeAll_eq]

/-! ## container_convert.h -/

theorem getOpt_append_cons_length {α : Type} (pre : List α) (x : α) (rest : List α) :
    (pre ++ x :: rest).get? pre.length = some x := by
  rw [List.get?_eq_getElem?, List.getElem?_append_right (le_refl _)]
  simp

theorem eraseIdx_append_cons_length {α : Type} (pre : List α) (x : α) (rest : List α) :
    (pre ++ x :: rest).eraseIdx pre.length = pre ++ rest := by
  rw [List.eraseIdx_append_of_length_le (le_refl _)]
  simp

theorem moveLoop_eq {α : Type} (pred : α → Bool) :
    ∀ (rest pre destination : List α) (fuel : Nat), rest.length < fuel →
      moveLoop pred fuel (pre ++ rest) destination pre.length
        = some (pre ++ rest.filter (fun x => !pred x), destination ++ rest.filter pred)
  | [], pre, destination, fuel, h => by
    cases fuel with
    | zero => simp at h
    | succ fuel => simp [moveLoop]
  | x :: rest, pre, destination, fuel, h => by
    cases fuel with
    | zero => simp at h
    | succ fuel =>
      have hf : rest.length < fuel := by simpa using h
      rw [moveLoop, getOpt_append_cons_length]
      by_cases hp : pred x = true
      · simp only [hp, if_true, eraseIdx_append_cons_length]
        rw [moveLoop_eq pred rest pre (destination ++ [x]) fuel hf]
        simp [List.filter_cons, hp]
      · have hp2 : pred x = false := by simpa using hp
        simp only [hp2, Bool.false_eq_true, if_false]
        have := moveLoop_eq pred rest (pre ++ [x]) destination fuel hf
        simp only [List.length_append, List.length_singleton, List.append_assoc,
          List.singleton_append] at this
        rw [this]
        simp [List.filter_cons, hp2]

theorem eraseByKeyLoop_eq {κ ν : Type} (pred : κ → Bool) :
    ∀ (rest pre : List (κ × ν)) (fuel : Nat), rest.length < fuel →
      eraseByKeyLoop pred fuel (pre ++ rest) pre.length
        = some (pre ++ rest.filter (fun kv => !pred kv.1))
  | [], pre, fuel, h => by
    cases fuel with
    | zero => simp at h
    | succ fuel => simp [eraseByKeyLoop]
  | x :: rest, pre, fuel, h => by
    cases fuel with
    | zero => simp at h
    | succ fuel =>
      have hf : rest.length < fuel := by simpa using h
      rw [eraseByKeyLoop, getOpt_append_cons_length]
      by_cases hp : pred x.1 = true
      · simp only [hp, if_true, eraseIdx_append_cons_length]
        rw [eraseByKeyLoop_eq pred rest pre fuel hf]
        simp [List.filter_cons, hp]
      · have hp2 : pred x.1 = false := by simpa using hp
        simp only [hp2, Bool.false_eq_true, if_false]
        have := eraseByKeyLoop_eq pred rest (pre ++ [x]) fuel hf
        simp only [List.length_append, List.length_singleton, List.append_assoc,
          List.singleton_append] at this
        rw [this]
        simp [List.filter_cons, hp2]

theorem eraseByValueLoop_eq {κ ν : Type} (pred : ν → Bool) :
    ∀ (rest pre : List (κ × ν)) (fuel : Nat), rest.length < fuel →
      eraseByValueLoop pred fuel (pre ++ rest) pre.length
        = some (pre ++ rest.filter (fun kv => !pred kv.2))
  | [], pre, fuel, h => by
    cases fuel with
    | zero => simp at h
    | succ fuel => simp [eraseByValueLoop]
  | x :: rest, pre, fuel, h => by
    cases fuel with
    | zero => simp at h
    | succ fuel =>
      have hf : rest.length < fuel := by simpa using h
      rw [eraseByValueLoop, getOpt_append_cons_length]
      by_cases hp : pred x.2 = true
      · simp only [hp, if_true, eraseIdx_append_cons_length]
        rw [eraseByValueLoop_eq pred rest pre fuel hf]
        simp [List.filter_cons, hp]
      · have hp2 : pred x.2 = false := by simpa using hp
        simp only [hp2, Bool.false_eq_true, if_false]
        have := eraseByValueLoop_eq pred rest (pre ++ [x]) fuel hf
        simp only [List.length_append, List.length_singleton, List.append_assoc,
          List.singleton_append] at this
        rw [this]
        simp [List.filter_cons, hp2]

theorem filter_append_filter_not_perm {α : Type} (p : α → Bool) (l : List α) :
    (l.filter (fun x => !p x) ++ l.filter p).Perm l := by
  exact (List.perm_append_comm).trans (List.filter_append_perm p l)

/-- C32: for every source vector S, destination vector D (another vector than S) and
predicate p, the loop of `moveElementsTo(S, D, p)` finishes and leaves in S the elements
of the old S that do not satisfy p and in D the old D followed by the elements of the old S
that satisfy p, both in the order they had in S; the new S followed by what was appended
to D is a permutation of the old S, so that no element is lost or duplicated; with the
default predicate `true_pred` S becomes empty and D the old D followed by the old S. -/
theorem moveElementsTo_partitions {α : Type} (S D : List α) (p : α → Bool) :
    moveElementsTo S D p = some (S.filter (fun x => !p x), D ++ S.filter p) ∧
    (S.filter (fun x => !p x) ++ S.filter p).Perm S ∧
    (S.filter (fun x => !p x)).Sublist S ∧ (S.filter p).Sublist S ∧
    (S.filter (fun x => !p x)).length + (D ++ S.filter p).length = S.length + D.length ∧
    moveElementsTo S D true_pred = some ([], D ++ S) ∧
    moveElementsTo [1, 2, 4, 8, 16, 32, 64, 128, 256] [-1, 333] (fun i : Int => decide (i > 20))
      = some ([1, 2, 4, 8, 16], [-1, 333, 32, 64, 128, 256]) ∧
    moveElementsTo [1, 2, 4, 8, 16] [-1, 333, 32, 64, 128, 256] (true_pred : Int → Bool)
      = some ([], [-1, 333, 32, 64, 128, 256, 1, 2, 4, 8, 16]) := by
  have h : ∀ q : α → Bool,
      moveElementsTo S D q = some (S.filter (fun x => !q x), D ++ S.filter q) := by
    intro q
    have := moveLoop_eq q S [] D (S.length + 1) (Nat.lt_succ_self _)
    simpa [moveElementsTo] using this
  refine ⟨h p, filter_append_filter_not_perm p S, List.filter_sublist _, List.filter_sublist _,
    ?_, ?_, by decide, by decide⟩
  · have := (filter_append_filter_not_perm p S).length_eq
    simp only [List.length_append] at this ⊢
    omega
  · rw [h]
    simp [true_pred]

/-- C34: for every map m (the list of its entries in the order of iteration) and every
predicate p, the loop of `eraseByKey(m, p)` finishes and leaves the entries of m whose key
does not satisfy p, and that of `eraseByValue(m, p)` the entries whose value does not
satisfy p, in the order of m: an entry is in the result iff it is in m and fails the
predicate, each with the key and the value it had, and what holds between any two
entries of m, such as the ascending order of their keys, holds in the result. With the
map of the test, erasing the keys that contain an `o` leaves five and three, and
erasing the values below 3 leaves five, four and three. -/
theorem erase_keeps_failing_entries {κ ν : Type} (m : List (κ × ν)) (pk : κ → Bool)
    (pv : ν → Bool) :
    eraseByKey m pk = some (m.filter (fun kv => !pk kv.1)) ∧
    eraseByValue m pv = some (m.filter (fun kv => !pv kv.2)) ∧
    (∀ kv, kv ∈ m.filter (fun kv => !pk kv.1) ↔ kv ∈ m ∧ pk kv.1 = false) ∧
    (∀ kv, kv ∈ m.filter (fun kv => !pv kv.2) ↔ kv ∈ m ∧ pv kv.2 = false) ∧
    (m.filter (fun kv => !pk kv.1)).Sublist m ∧ (m.filter (fun kv => !pv kv.2)).Sublist m ∧
    (∀ r : κ × ν → κ × ν → Prop, m.Pairwise r →
      (m.filter (fun kv => !pk kv.1)).Pairwise r ∧ (m.filter (fun kv => !pv kv.2)).Pairwise r) ∧
    eraseByKey [("five", 5), ("four", 4), ("one", 1), ("three", 3), ("two", 2)]
        (fun key : String => key.data.contains 'o')
      = some [("five", 5), ("three", 3)] ∧
    eraseByValue [("five", 5), ("four", 4), ("one", 1), ("three", 3), ("two", 2)]
        (fun value : Int => decide (value < 3))
      = some [("five", 5), ("four", 4), ("three", 3)] := by
  refine ⟨?_, ?_, ?_, ?_, List.filter_sublist _, List.filter_sublist _, ?_, by decide,
    by decide⟩
  · have := eraseByKeyLoop_eq pk m [] (m.length + 1) (Nat.lt_succ_self _)
    simpa [eraseByKey] using this
  · have := eraseByValueLoop_eq pv m [] (m.length + 1) (Nat.lt_succ_self _)
    simpa [eraseByValue] using this
  · intro kv
    simp [List.mem_filter]
  · intro kv
    simp [List.mem_filter]
  · intro r hr
    exact ⟨hr.sublist (List.filter_sublist _), hr.sublist (List.filter_sublist _)⟩

/-! ### Ordered sets -/

theorem mem_setInsert_imp {α : Type} (lt : α → α → Bool) (x z : α) :
    ∀ l : List α, z ∈ setInsert lt x l → z = x ∨ z ∈ l
  | [], h => by
    simp only [setInsert, List.mem_singleton] at h
    exact Or.inl h
  | y :: rest, h => by
    simp only [setInsert] at h
    split at h
    · simp only [List.mem_cons] at h ⊢
      exact h
    · split at h
      · simp only [List.mem_cons] at h ⊢
        rcases h with h | h
        · exact Or.inr (Or.inl h)
        · rcases mem_setInsert_imp lt x z rest h with h | h
          · exact Or.inl h
          · exact Or.inr (Or.inr h)
      · exact Or.inr h

theorem mem_setInsert_of_mem {α : Type} (lt : α → α → Bool) (x z : α) :
    ∀ l : List α, z ∈ l → z ∈ setInsert lt x l
  | [], h => by simp at h
  | y :: rest, h => by
    simp only [setInsert]
    split
    · exact List.mem_cons_of_mem _ h
    · split
      · simp only [List.mem_cons] at h ⊢
        rcases h with h | h
        · exact Or.inl h
        · exact Or.inr (mem_setInsert_of_mem lt x z rest h)
      · exact h

theorem self_mem_setInsert {α : Type} (lt : α → α → Bool)
    (htot : ∀ a b, lt a b = false → lt b a = false → a = b) (x : α) :
    ∀ l : List α, x ∈ setInsert lt x l
  | [] => by simp [setInsert]
  | y :: rest => by
    simp only [setInsert]
    by_cases h1 : lt x y = true
    · simp [h1]
    · by_cases h2 : lt y x = true
      · simp only [h1, h2, if_true, Bool.false_eq_true, if_false]
        exact List.mem_cons_of_mem _ (self_mem_setInsert lt htot x rest)
      · have := htot x y (by simpa using h1) (by simpa using h2)
        simp only [h1, h2, Bool.false_eq_true, if_false]
        rw [this]
        exact List.mem_cons_self _ _

theorem setInsert_pairwise {α : Type} (lt : α → α → Bool)
    (htr : ∀ a b c, lt a b = true → lt b c = true → lt a c = true) (x : α) :
    ∀ l : List α, l.Pairwise (fun a b => lt a b = true) →
      (setInsert lt x l).Pairwise (fun a b => lt a b = true)
  | [], _ => by simp [setInsert]
  | y :: rest, h => by
    have hy := List.pairwise_cons.mp h
    simp only [setInsert]
    by_cases h1 : lt x y = true
    · simp only [h1, if_true]
      refine List.pairwise_cons.mpr ⟨?_, h⟩
      intro z hz
      rcases List.mem_cons.mp hz with hz | hz
      · rw [hz]; exact h1
      · exact htr x y z h1 (hy.1 z hz)
    · by_cases h2 : lt y x = true
      · simp only [h1, h2, if_true, Bool.false_eq_true, if_false]
        refine List.pairwise_cons.mpr ⟨?_, setInsert_pairwise lt htr x rest hy.2⟩
        intro z hz
        rcases mem_setInsert_imp lt x z rest hz with hz | hz
        · rw [hz]; exact h2
        · exact hy.1 z hz
      · simp only [h1, h2, Bool.false_eq_true, if_false]
        exact h

theorem setInsert_length_le {α : Type} (lt : α → α → Bool) (x : α) :
    ∀ l : List α, (setInsert lt x l).length ≤ l.length + 1
  | [] => by simp [setInsert]
  | y :: rest => by
    have := setInsert_length_le lt x rest
    simp only [setInsert]
    split
    · simp
    · split
      · simp only [List.length_cons]
        omega
      · simp

theorem setInsert_of_all_lt {α : Type} (lt : α → α → Bool) (hirr : ∀ a, lt a a = false)
    (htr : ∀ a b c, lt a b = true → lt b c = true → lt a c = true) (x : α) :
    ∀ l : List α, (∀ y ∈ l, lt y x = true) → setInsert lt x l = l ++ [x]
  | [], _ => rfl
  | y :: rest, h => by
    have hy := h y (List.mem_cons_self _ _)
    have hxy : lt x y = false := by
      cases hc : lt x y with
      | false => rfl
      | true =>
        have := htr x y x hc hy
        rw [hirr x] at this
        cases this
    simp only [setInsert, hxy, hy, Bool.false_eq_true, if_false, if_true, List.cons_append]
    rw [setInsert_of_all_lt lt hirr htr x rest (fun z hz => h z (List.mem_cons_of_mem _ hz))]

theorem foldl_setInsert_mem_imp {α : Type} (lt : α → α → Bool) (z : α) :
    ∀ (v acc : List α), z ∈ v.foldl (fun reval x => setInsert lt x reval) acc → z ∈ acc ∨ z ∈ v
  | [], acc, h => Or.inl h
  | x :: v, acc, h => by
    simp only [List.foldl_cons] at h
    rcases foldl_setInsert_mem_imp lt z v _ h with h | h
    · rcases mem_setInsert_imp lt x z acc h with h | h
      · exact Or.inr (by simp [h])
      · exact Or.inl h
    · exact Or.inr (List.mem_cons_of_mem _ h)

theorem foldl_setInsert_mem_of_acc {α : Type} (lt : α → α → Bool) (z : α) :
    ∀ (v acc : List α), z ∈ acc → z ∈ v.foldl (fun reval x => setInsert lt x reval) acc
  | [], _, h => h
  | x :: v, acc, h => by
    simp only [List.foldl_cons]
    exact foldl_setInsert_mem_of_acc lt z v _ (mem_setInsert_of_mem lt x z acc h)

theorem foldl_setInsert_mem_of_mem {α : Type} (lt : α → α → Bool)
    (htot : ∀ a b, lt a b = false → lt b a = false → a = b) (z : α) :
    ∀ (v acc : List α), z ∈ v → z ∈ v.foldl (fun reval x => setInsert lt x reval) acc
  | [], _, h => by simp at h
  | x :: v, acc, h => by
    simp only [List.foldl_cons]
    rcases List.mem_cons.mp h with h | h
    · rw [h]
      exact foldl_setInsert_mem_of_acc lt x v _ (self_mem_setInsert lt htot x acc)
    · exact foldl_setInsert_mem_of_mem lt htot z v _ h

theorem foldl_setInsert_pairwise {α : Type} (lt : α → α → Bool)
    (htr : ∀ a b c, lt a b = true → lt b c = true → lt a c = true) :
    ∀ (v acc : List α), acc.Pairwise (fun a b => lt a b = true) →
      (v.foldl (fun reval x => setInsert lt x reval) acc).Pairwise (fun a b => lt a b = true)
  | [], _, h => h
  | x :: v, acc, h => by
    simp only [List.foldl_cons]
    exact foldl_setInsert_pairwise lt htr v _ (setInsert_pairwise lt htr x acc h)

theorem foldl_setInsert_length_le {α : Type} (lt : α → α → Bool) :
    ∀ (v acc : List α),
      (v.foldl (fun reval x => setInsert lt x reval) acc).length ≤ acc.length + v.length
  | [], _ => by simp
  | x :: v, acc => by
    simp only [List.foldl_cons, List.length_cons]
    have h1 := foldl_setInsert_length_le lt v (setInsert lt x acc)
    have h2 := setInsert_length_le lt x acc
    omega

theorem foldl_setInsert_of_pairwise {α : Type} (lt : α → α → Bool) (hirr : ∀ a, lt a a = false)
    (htr : ∀ a b c, lt a b = true → lt b c = true → lt a c = true) :
    ∀ (v acc : List α), (acc ++ v).Pairwise (fun a b => lt a b = true) →
      v.foldl (fun reval x => setInsert lt x reval) acc = acc ++ v
  | [], acc, _ => by simp
  | x :: v, acc, h => by
    simp only [List.foldl_cons]
    have hall : ∀ y ∈ acc, lt y x = true := by
      intro y hy
      exact (List.pairwise_append.mp h).2.2 y hy x (List.mem_cons_self _ _)
    rw [setInsert_of_all_lt lt hirr htr x acc hall]
    have h2 : (acc ++ [x] ++ v).Pairwise (fun a b => lt a b = true) := by
      simpa using h
    rw [foldl_setInsert_of_pairwise lt hirr htr v (acc ++ [x]) h2]
    simp

theorem toSet_eq_foldl {α : Type} (lt : α → α → Bool) (v : List α) :
    toSet lt v = v.foldl (fun reval x => setInsert lt x reval) [] := by
  cases v <;> simp [toSet]

theorem foldl_push_back {α : Type} :
    ∀ (l acc : List α), l.foldl (fun reval x => reval ++ [x]) acc = acc ++ l
  | [], acc => by simp
  | x :: l, acc => by
    simp only [List.foldl_cons]
    rw [foldl_push_back l (acc ++ [x])]
    simp

theorem toVector_eq {α : Type} (S : List α) : toVector S = S := by
  cases S with
  | nil => rfl
  | cons a l =>
    simp only [toVector, List.isEmpty_cons, Bool.not_false, if_true]
    rw [foldl_push_back]
    rfl

theorem pairwise_nodup {α : Type} (lt : α → α → Bool) (hirr : ∀ a, lt a a = false)
    (l : List α) (h : l.Pairwise (fun a b => lt a b = true)) : l.Nodup := by
  refine List.Pairwise.imp ?_ h
  intro a b hab heq
  rw [heq, hirr b] at hab
  cases hab

theorem toSet_mem {α : Type} (lt : α → α → Bool)
    (htot : ∀ a b, lt a b = false → lt b a = false → a = b) (v : List α) (x : α) :
    x ∈ toSet lt v ↔ x ∈ v := by
  rw [toSet_eq_foldl]
  constructor
  · intro h
    rcases foldl_setInsert_mem_imp lt x v [] h with h | h
    · simp at h
    · exact h
  · exact foldl_setInsert_mem_of_mem lt htot x v []

theorem toSet_pairwise {α : Type} (lt : α → α → Bool)
    (htr : ∀ a b c, lt a b = true → lt b c = true → lt a c = true) (v : List α) :
    (toSet lt v).Pairwise (fun a b => lt a b = true) := by
  rw [toSet_eq_foldl]
  exact foldl_setInsert_pairwise lt htr v [] List.Pairwise.nil

/-- C33: for an element type whose `<` is a strict total order and every ordered set S
(its elements in the order of iteration, each less than every later one), `toVector(S)`
lists the elements of S in that ascending order, without duplicates, and
`toSet(toVector(S))` is S, with the same size and the same members; for every vector v,
`toSet(v)` holds exactly the elements of v, each once and in ascending order, so that
every element of v is found in it and it has at most as many elements as v. -/
theorem toSet_toVector_round_trip {α : Type} (lt : α → α → Bool)
    (hirr : ∀ a, lt a a = false)
    (htr : ∀ a b c, lt a b = true → lt b c = true → lt a c = true)
    (htot : ∀ a b, lt a b = false → lt b a = false → a = b)
    (S : List α) (hS : S.Pairwise (fun a b => lt a b = true)) :
    toVector S = S ∧
    (toVector S).Pairwise (fun a b => lt a b = true) ∧ (toVector S).Nodup ∧
    toSet lt (toVector S) = S ∧
    (toSet lt (toVector S)).length = S.length ∧
    (∀ x, x ∈ toSet lt (toVector S) ↔ x ∈ S) ∧
    (∀ v : List α,
      (∀ x, x ∈ toSet lt v ↔ x ∈ v) ∧
      (toSet lt v).Pairwise (fun a b => lt a b = true) ∧ (toSet lt v).Nodup ∧
      (toSet lt v).length ≤ v.length) ∧
    toSet (basic_string_lt char_traits) (toVector ["1stString".data, "2ndString".data])
      = ["1stString".data, "2ndString".data] ∧
    toSet (basic_string_lt char_traits)
        ["abc".data, "efg".data, "hij".data, "OnlyOnce".data, "abc".data, "efg".data,
          "hij".data, "efg".data, "hij".data]
      = ["OnlyOnce".data, "abc".data, "efg".data, "hij".data] ∧
    toVector ([] : List Nat) = [] ∧ toSet (fun a b : Nat => decide (a < b)) [] = [] := by
  have hrt : toSet lt (toVector S) = S := by
    rw [toVector_eq, toSet_eq_foldl]
    have := foldl_setInsert_of_pairwise lt hirr htr S [] (by simpa using hS)
    simpa using this
  refine ⟨toVector_eq S, ?_, ?_, hrt, ?_, ?_, ?_, by decide, by decide, by decide, by decide⟩
  · rw [toVector_eq]
    exact hS
  · rw [toVector_eq]
    exact pairwise_nodup lt hirr S hS
  · rw [hrt]
  · intro x
    rw [hrt]
  · intro v
    refine ⟨toSet_mem lt htot v, toSet_pairwise lt htr v,
      pairwise_nodup lt hirr _ (toSet_pairwise lt htr v), ?_⟩
    rw [toSet_eq_foldl]
    have := foldl_setInsert_length_le lt v []
    simpa using this

/-- Witness of C33: the set of the integers 1, 2 and 5, and the vector 5, 1, 5, 2, 1
whose set it is. -/
theorem toSet_toVector_round_trip_witness :
    toSet (fun a b : Nat => decide (a < b)) (toVector [1, 2, 5]) = [1, 2, 5] ∧
    (∀ x, x ∈ toSet (fun a b : Nat => decide (a < b)) [5, 1, 5, 2, 1] ↔ x ∈ [5, 1, 5, 2, 1]) ∧
    toSet (fun a b : Nat => decide (a < b)) [5, 1, 5, 2, 1] = [1, 2, 5] :=
  have h := toSet_toVector_round_trip (fun a b : Nat => decide (a < b))
    (by intro a; simp)
    (by intro a b c h1 h2; simp only [decide_eq_true_eq] at *; omega)
    (by intro a b h1 h2; simp only [decide_eq_false_iff_not] at *; omega)
    [1, 2, 5] (by decide)
  ⟨h.2.2.2.1, (h.2.2.2.2.2.2.1 [5, 1, 5, 2, 1]).1, by decide⟩

/-! ## ci_string.h: compare -/

theorem toLong_of_lt (n : Nat) (h : n < 2 ^ 63) : toLong n = (n : Int) := by
  have h1 : n % 2 ^ 64 = n := Nat.mod_eq_of_lt (by omega)
  simp only [toLong, h1, h, if_true]

theorem longToInt_of_range (x : Int) (h1 : -(2 ^ 31) ≤ x) (h2 : x < 2 ^ 31) :
    longToInt x = x := by
  unfold longToInt
  omega

theorem ci_lt_of_eq (a b : Char) (h : ci_char_traits.eq a b = true) :
    ci_char_traits.lt a b = false := by
  simp only [ci_char_traits.eq, beq_iff_eq] at h
  simp [ci_char_traits.lt, h]

theorem deref_eq_charAt (s : List Char) : deref s = charAt s 0 := by
  cases s <;> rfl

theorem charAt_cons_succ (c : Char) (s : List Char) (i : Nat) :
    charAt (c :: s) (i + 1) = charAt s i := by
  simp [charAt]

theorem charAt_tail (s : List Char) (i : Nat) : charAt s.tail i = charAt s (i + 1) := by
  cases s with
  | nil => simp [charAt]
  | cons c s => simp [charAt]

/-- When the two arrays agree ignoring case at every index from `j` on that lies below `n`
and within both, the loop entered at `i = j` returns 0. -/
theorem compareLongLoop_agree (n : Int) :
    ∀ (s1 s2 : List Char) (j : Nat), (j : Int) ≤ n →
      (∀ i : Nat, ((j + i : Nat) : Int) < n → i ≤ s1.length → i ≤ s2.length →
        ci_char_traits.eq (charAt s1 i) (charAt s2 i) = true) →
      ci_char_traits.compareLongLoop s1 s2 n j = 0
  | [], s2, j, hj, h => by
    simp only [ci_char_traits.compareLongLoop, ci_char_traits.compareResult]
    by_cases hjn : (j : Int) = n
    · simp [hjn, longToInt]
    · have h0 := h 0 (by simp only [Nat.add_zero]; omega) (by simp) (by simp)
      rw [← deref_eq_charAt, ← deref_eq_charAt] at h0
      simp only [hjn, if_false, ci_lt_of_eq _ _ h0, Bool.false_eq_true, h0, if_true]
      simp [longToInt]
  | c1 :: r1, s2, j, hj, h => by
    simp only [ci_char_traits.compareLongLoop]
    split
    · rename_i hc
      have hjn : ((j + 1 : Nat) : Int) ≤ n := by
        have := hc.1
        push_cast
        omega
      have ih := compareLongLoop_agree n r1 s2.tail (j + 1) hjn (by
        intro i hi h1 h2
        have := h (i + 1) (by
            have : j + (i + 1) = j + 1 + i := by omega
            rw [this]; exact hi)
          (by simpa using h1)
          (by
            cases s2 with
            | nil => exact absurd rfl hc.2.2.1
            | cons c2 r2 => simpa using h2)
        rw [charAt_cons_succ, ← charAt_tail] at this
        exact this)
      have hcast : ((j : Int) + 1) = ((j + 1 : Nat) : Int) := by push_cast; rfl
      rw [hcast]
      exact ih
    · simp only [ci_char_traits.compareResult]
      by_cases hjn : (j : Int) = n
      · simp [hjn, longToInt]
      · have h0 := h 0 (by simp only [Nat.add_zero]; omega) (by simp) (by simp)
        rw [← deref_eq_charAt, ← deref_eq_charAt] at h0
        simp only [hjn, if_false, ci_lt_of_eq _ _ h0, Bool.false_eq_true, h0, if_true]
        simp [longToInt]

/-- When the two arrays agree ignoring case on the `k` characters from the start, neither
ends there, and they differ at the index `k`, the loop entered at `i = j` stops at
`i = j + k`. -/
theorem compareLongLoop_differ (n : Int) :
    ∀ (k : Nat) (s1 s2 : List Char) (j : Nat), Char.ofNat 0 ∉ s1 → Char.ofNat 0 ∉ s2 →
      k ≤ s1.length → k ≤ s2.length → ((j + k : Nat) : Int) < n →
      (∀ i < k, ci_char_traits.eq (charAt s1 i) (charAt s2 i) = true) →
      ci_char_traits.eq (charAt s1 k) (charAt s2 k) = false →
      ci_char_traits.compareLongLoop s1 s2 n j
        = longToInt (if ci_char_traits.lt (charAt s1 k) (charAt s2 k)
            then -((j + k : Nat) : Int) - 1 else ((j + k : Nat) : Int) + 1)
  | 0, s1, s2, j, _, _, _, _, hjn, _, hne => by
    rw [← deref_eq_charAt, ← deref_eq_charAt] at hne ⊢
    simp only [Nat.add_zero] at hjn ⊢
    have hjn2 : ¬ (j : Int) = n := by omega
    cases s1 with
    | nil =>
      simp only [ci_char_traits.compareLongLoop, ci_char_traits.compareResult, hjn2, if_false,
        hne, Bool.false_eq_true]
    | cons c1 r1 =>
      have hd : deref (c1 :: r1) = c1 := rfl
      rw [hd] at hne
      simp only [ci_char_traits.compareLongLoop, ci_char_traits.compareResult, hjn2, if_false,
        hne, Bool.false_eq_true, and_false, hd]
  | k + 1, [], _, _, _, _, h1, _, _, _, _ => by simp at h1
  | k + 1, _ :: _, [], _, _, _, _, h2, _, _, _ => by simp at h2
  | k + 1, c1 :: r1, c2 :: r2, j, hn1, hn2, h1, h2, hjn, hag, hne => by
    have hc1 : c1 ≠ Char.ofNat 0 := fun h => hn1 (by rw [← h]; exact List.mem_cons_self _ _)
    have hc2 : c2 ≠ Char.ofNat 0 := fun h => hn2 (by rw [← h]; exact List.mem_cons_self _ _)
    have h0 : ci_char_traits.eq c1 c2 = true := by
      have := hag 0 (by omega)
      simpa [charAt] using this
    have hj : (j : Int) < n := by
      have : ((j + (k + 1) : Nat) : Int) = (j : Int) + k + 1 := by push_cast; ring
      omega
    have hd : deref (c2 :: r2) = c2 := rfl
    simp only [ci_char_traits.compareLongLoop, hj, hc1, hd, hc2, h0, ne_eq, not_false_eq_true,
      and_self, if_true, List.tail_cons]
    have hcast : ((j : Int) + 1) = ((j + 1 : Nat) : Int) := by push_cast; rfl
    rw [hcast]
    have ih := compareLongLoop_differ n k r1 r2 (j + 1)
      (fun h => hn1 (List.mem_cons_of_mem _ h)) (fun h => hn2 (List.mem_cons_of_mem _ h))
      (by simpa using h1) (by simpa using h2)
      (by
        have : j + 1 + k = j + (k + 1) := by omega
        rw [this]; exact hjn)
      (by
        intro i hi
        have := hag (i + 1) (by omega)
        simpa [charAt_cons_succ] using this)
      (by simpa [charAt_cons_succ] using hne)
    rw [ih]
    simp only [charAt_cons_succ]
    have : j + 1 + k = j + (k + 1) := by omega
    rw [this]

theorem compareLoop_eq_long :
    ∀ (s1 s2 : List Char) (remaining j : Nat), j + s1.length + 1 < 2 ^ 31 →
      ci_char_traits.compareLongLoop s1 s2 ((j + remaining : Nat) : Int) (j : Int)
        = ci_char_traits.compareLoop s1 s2 remaining (j : Int)
  | [], s2, 0, j, _ => by
    simp [ci_char_traits.compareLongLoop, ci_char_traits.compareResult,
      ci_char_traits.compareLoop, longToInt]
  | c1 :: r1, s2, 0, j, _ => by
    simp [ci_char_traits.compareLongLoop, ci_char_traits.compareResult,
      ci_char_traits.compareLoop, longToInt]
  | [], s2, remaining + 1, j, hj => by
    have hne : ¬ ((j : Int) = ((j + (remaining + 1) : Nat) : Int)) := by
      push_cast
      omega
    have hd : deref ([] : List Char) = Char.ofNat 0 := rfl
    simp only [ci_char_traits.compareLongLoop, ci_char_traits.compareResult,
      ci_char_traits.compareLoop, hne, if_false, hd, ne_eq, not_true_eq_false, false_and]
    simp only [List.length_nil] at hj
    split
    · exact longToInt_of_range _ (by omega) (by omega)
    · split
      · simp [longToInt]
      · exact longToInt_of_range _ (by omega) (by omega)
  | c1 :: r1, s2, remaining + 1, j, hj => by
    have hne : ¬ ((j : Int) = ((j + (remaining + 1) : Nat) : Int)) := by
      push_cast
      omega
    have hlt : (j : Int) < ((j + (remaining + 1) : Nat) : Int) := by
      push_cast
      omega
    have hd : deref (c1 :: r1) = c1 := rfl
    simp only [List.length_cons] at hj
    simp only [ci_char_traits.compareLongLoop, ci_char_traits.compareLoop, hlt, true_and, hd]
    split
    · have ih := compareLoop_eq_long r1 s2.tail remaining (j + 1) (by omega)
      have h1 : j + 1 + remaining = j + (remaining + 1) := by omega
      have h2 : ((j + 1 : Nat) : Int) = (j : Int) + 1 := by push_cast; rfl
      rw [h1, h2] at ih
      exact ih
    · simp only [ci_char_traits.compareResult, hne, if_false, hd]
      split
      · exact longToInt_of_range _ (by omega) (by omega)
      · split
        · simp [longToInt]
        · exact longToInt_of_range _ (by omega) (by omega)

/-- For a count below 2^63 and arrays of fewer than 2^31 - 1 characters, the member on
pointers returns what `ci_char_traits.compare` returns. -/
theorem comparePointers_eq_compare (s1 s2 : List Char) (n : Nat) (hn : n < 2 ^ 63)
    (hs : s1.length + 1 < 2 ^ 31) :
    ci_char_traits.comparePointers (some s1) (some s2) n
      = some (ci_char_traits.compare s1 s2 n) := by
  unfold ci_char_traits.comparePointers ci_char_traits.compare
  by_cases h0 : n = 0
  · simp [h0]
  · simp only [h0, if_false, toLong_of_lt n hn]
    have := compareLoop_eq_long s1 s2 n 0 (by omega)
    simp only [Nat.zero_add, Nat.cast_zero] at this
    rw [this]

theorem toLong_of_ge (n : Nat) (h1 : 2 ^ 63 ≤ n) (h2 : n < 2 ^ 64) :
    toLong n = (n : Int) - 2 ^ 64 := by
  have hm : n % 2 ^ 64 = n := Nat.mod_eq_of_lt h2
  have hn : ¬ n < 2 ^ 63 := by omega
  simp only [toLong, hm, hn, if_false]

/-- With a negative count the loop of `compare` is not entered: the first characters
decide. -/
theorem compareLongLoop_of_neg (s1 s2 : List Char) (n : Int) (hn : n < 0) :
    ci_char_traits.compareLongLoop s1 s2 n 0
      = if ci_char_traits.lt (deref s1) (deref s2) then -1
        else if ci_char_traits.eq (deref s1) (deref s2) then 0 else 1 := by
  have h0 : ¬ (0 : Int) = n := by omega
  have h1 : ¬ (0 : Int) < n := by omega
  cases s1 with
  | nil =>
    simp only [ci_char_traits.compareLongLoop, ci_char_traits.compareResult, h0, if_false]
    split
    · decide
    · split <;> decide
  | cons c1 r1 =>
    simp only [ci_char_traits.compareLongLoop, ci_char_traits.compareResult, h0, h1, if_false,
      false_and]
    split
    · decide
    · split <;> decide

/-- C31: `ci_char_traits::compare(s1, s2, n)` compares its count as `(long)n`. For two
NUL-terminated strings s1 and s2 (neither holds a NUL before its end) and a count n below
2^63 it returns 0 when n is 0 and when s1 and s2 agree ignoring case at every index below
n up to the end of the shorter one, the terminating NUL included; otherwise there is a
first index k where they differ ignoring case, and for k + 1 below 2^31 the result is
-(k+1) if s1[k] is less than s2[k] ignoring case, as signed characters, and k+1 otherwise.
For a count from 2^63 on, `(long)n` is negative, the loop is not entered and the result
is -1, 0 or 1 by the first characters alone: for `aa` and `ab`, which first differ at the
index 1, the result is -2 for n = 2 but 0 for n = 2^63 and for n = `npos`. With s1 null
the result is 0 if n is 0 or s2 is null and -1 otherwise. -/
theorem ci_compare_first_difference (s1 s2 : List Char) (n : Nat)
    (h1 : Char.ofNat 0 ∉ s1) (h2 : Char.ofNat 0 ∉ s2) :
    (n = 0 → ci_char_traits.comparePointers (some s1) (some s2) n = some 0) ∧
    (n < 2 ^ 63 →
      (∀ i, i < n → i ≤ s1.length → i ≤ s2.length →
        ci_char_traits.eq (charAt s1 i) (charAt s2 i) = true) →
      ci_char_traits.comparePointers (some s1) (some s2) n = some 0) ∧
    (n < 2 ^ 63 → ∀ k, k < n → k ≤ s1.length → k ≤ s2.length → k + 1 < 2 ^ 31 →
      (∀ i < k, ci_char_traits.eq (charAt s1 i) (charAt s2 i) = true) →
      ci_char_traits.eq (charAt s1 k) (charAt s2 k) = false →
      ci_char_traits.comparePointers (some s1) (some s2) n
        = some (if ci_char_traits.lt (charAt s1 k) (charAt s2 k) then -((k : Int) + 1)
            else (k : Int) + 1)) ∧
    ((∀ i, i < n → i ≤ s1.length → i ≤ s2.length →
        ci_char_traits.eq (charAt s1 i) (charAt s2 i) = true) ∨
      ∃ k, k < n ∧ k ≤ s1.length ∧ k ≤ s2.length ∧
        (∀ i < k, ci_char_traits.eq (charAt s1 i) (charAt s2 i) = true) ∧
        ci_char_traits.eq (charAt s1 k) (charAt s2 k) = false) ∧
    (2 ^ 63 ≤ n → n < 2 ^ 64 →
      ci_char_traits.comparePointers (some s1) (some s2) n
        = some (if ci_char_traits.lt (charAt s1 0) (charAt s2 0) then -1
            else if ci_char_traits.eq (charAt s1 0) (charAt s2 0) then 0 else 1)) ∧
    ci_char_traits.comparePointers none none n = some 0 ∧
    ci_char_traits.comparePointers none (some s2) n = some (if n = 0 then 0 else -1) ∧
    ci_char_traits.comparePointers (some "aa".data) (some "ab".data) (2 ^ 63) = some 0 ∧
    ci_char_traits.comparePointers (some "aa".data) (some "ab".data) npos = some 0 ∧
    ci_char_traits.comparePointers (some "aa".data) (some "ab".data) 2 = some (-2) ∧
    toLong (2 ^ 63) = -(2 ^ 63) ∧ toLong npos = -1 ∧
    ci_char_traits.comparePointers (some "aaaBa".data) (some "AAAaA".data) 5 = some 4 ∧
    ci_char_traits.comparePointers (some "aaaaa".data) (some "AAABA".data) 5 = some (-4) ∧
    ci_char_traits.comparePointers (some "aaaBa".data) (some "AAAaA".data) 10 = some 4 ∧
    ci_char_traits.comparePointers (some "aaaBa".data) (some "AAAaA".data) 1 = some 0 ∧
    ci_char_traits.comparePointers (some "Aa".data) (some "aA".data) 10 = some 0 ∧
    ci_char_traits.comparePointers (some "Aa".data) (some "bA".data) 2 = some (-1) ∧
    ci_char_traits.comparePointers (some "Ba".data) (some "aA".data) 2 = some 1 ∧
    ci_char_traits.comparePointers (some "abc".data) (some "ABCd".data) 10 = some (-4) ∧
    ci_char_traits.comparePointers none (some "a".data) 2 = some (-1) ∧
    ci_char_traits.comparePointers none (some "a".data) 0 = some 0 ∧
    wideOfChar (Char.ofNat 0xE9) = -23 ∧
    ci_char_traits.lt (Char.ofNat 0xE9) 'a' = true ∧
    ci_char_traits.comparePointers (some [Char.ofNat 0xE9]) (some "a".data) 1 = some (-1) ∧
    ci_char_traits.comparePointers (some "a".data) (some [Char.ofNat 0xE9]) 1 = some 1 := by
  have hcast : ci_char_traits.comparePointers (some "aa".data) (some "ab".data) (2 ^ 63)
        = some 0 ∧
      ci_char_traits.comparePointers (some "aa".data) (some "ab".data) npos = some 0 ∧
      ci_char_traits.comparePointers (some "aa".data) (some "ab".data) 2 = some (-2) ∧
      toLong (2 ^ 63) = -(2 ^ 63) ∧ toLong npos = -1 := by
    exact ⟨by decide, by decide, by decide, by decide, by decide⟩
  have hsigned : wideOfChar (Char.ofNat 0xE9) = -23 ∧
      ci_char_traits.lt (Char.ofNat 0xE9) 'a' = true ∧
      ci_char_traits.comparePointers (some [Char.ofNat 0xE9]) (some "a".data) 1 = some (-1) ∧
      ci_char_traits.comparePointers (some "a".data) (some [Char.ofNat 0xE9]) 1 = some 1 := by
    exact ⟨by decide, by decide, by decide, by decide⟩
  refine ⟨?_, ?_, ?_, ?_, ?_, ?_, ?_, hcast.1, hcast.2.1, hcast.2.2.1, hcast.2.2.2.1,
    hcast.2.2.2.2, by decide, by decide, by decide, by decide, by decide, by decide,
    by decide, by decide, by decide, by decide, hsigned⟩
  · intro h0
    simp [ci_char_traits.comparePointers, h0]
  · intro hn hag
    by_cases h0 : n = 0
    · simp [ci_char_traits.comparePointers, h0]
    · simp only [ci_char_traits.comparePointers, h0, if_false, toLong_of_lt n hn]
      have := compareLongLoop_agree (n : Int) s1 s2 0 (by simp) (by
        intro i hi hi1 hi2
        exact hag i (by simpa using hi) hi1 hi2)
      simp only [Nat.cast_zero] at this
      rw [this]
  · intro hn k hk hk1 hk2 hk31 hag hne
    have h0 : n ≠ 0 := by omega
    simp only [ci_char_traits.comparePointers, h0, if_false, toLong_of_lt n hn]
    have := compareLongLoop_differ (n : Int) k s1 s2 0 h1 h2 hk1 hk2 (by simpa using hk) hag hne
    simp only [Nat.cast_zero, Nat.zero_add] at this
    rw [this]
    congr 1
    split
    · rw [longToInt_of_range _ (by omega) (by omega)]
      omega
    · exact longToInt_of_range _ (by omega) (by omega)
  · by_cases hall : ∀ i, i < n → i ≤ s1.length → i ≤ s2.length →
        ci_char_traits.eq (charAt s1 i) (charAt s2 i) = true
    · exact Or.inl hall
    · right
      have hex : ∃ i, i < n ∧ i ≤ s1.length ∧ i ≤ s2.length ∧
          ci_char_traits.eq (charAt s1 i) (charAt s2 i) = false := by
        by_contra hcon
        apply hall
        intro i hi hi1 hi2
        by_contra hne
        exact hcon ⟨i, hi, hi1, hi2, by simpa using hne⟩
      refine ⟨Nat.find hex, (Nat.find_spec hex).1, (Nat.find_spec hex).2.1,
        (Nat.find_spec hex).2.2.1, ?_, (Nat.find_spec hex).2.2.2⟩
      intro i hi
      have hmin := Nat.find_min hex hi
      have hb := Nat.find_spec hex
      by_contra hne
      exact hmin ⟨by omega, by omega, by omega, by simpa using hne⟩
  · intro hge hlt
    have h0 : n ≠ 0 := by
      have : 0 < 2 ^ 63 := by decide
      omega
    simp only [ci_char_traits.comparePointers, h0, if_false, toLong_of_ge n hge hlt]
    rw [compareLongLoop_of_neg s1 s2 _ (by omega), deref_eq_charAt, deref_eq_charAt]
  · simp [ci_char_traits.comparePointers]
  · by_cases h0 : n = 0 <;> simp [ci_char_traits.comparePointers, h0]

/-- Witness of C31: `aa` and `ab` hold no NUL, agree at the index 0 and differ at the
index 1; with the count 2^63 the result is 0, decided by the first characters. -/
theorem ci_compare_first_difference_witness :
    Char.ofNat 0 ∉ "aa".data ∧ Char.ofNat 0 ∉ "ab".data ∧
    ci_char_traits.comparePointers (some "aa".data) (some "ab".data) (2 ^ 63) = some 0 :=
  ⟨by decide, by decide,
    ((ci_compare_first_difference "aa".data "ab".data (2 ^ 63) (by decide)
      (by decide)).2.2.2.2.1 (by decide) (by decide)).trans (by decide)⟩

/-! ## stringutil.h: the pieces of splitIntoVector, splitIntoSet -/

theorem specCount_of_none (tr : CharTraits) (sep : Separator) (s : List Char)
    (h : firstOcc tr sep s = none) : specCount tr sep s = 0 := by
  rw [specCount]
  split
  · rfl
  · simp [h]

theorem specCount_of_some (tr : CharTraits) (sep : Separator) (s : List Char) (k : Nat)
    (hlen : string_or_char_size sep ≠ 0) (h : firstOcc tr sep s = some k) :
    specCount tr sep s = specCount tr sep (s.drop (k + string_or_char_size sep)) + 1 := by
  have h1 := firstOcc_spec tr sep s k h
  have h2 := occursAt_length tr sep _ h1.2
  have hs : s ≠ [] := by
    intro h0
    subst h0
    simp at h2
    exact hlen h2
  rw [specCount]
  simp [hlen, hs, h]

/-- A string in which the separator occurs at no position does not contain it. -/
theorem not_infix_of_nowhere (sep : Separator) (hsep : sep.chars ≠ []) (p : List Char)
    (h : ∀ j ≤ p.length, occursAt char_traits sep (p.drop j) = false) :
    ¬ sep.chars <:+: p := by
  rintro ⟨a, b, hab⟩
  have hj := h a.length (by rw [← hab]; simp)
  have : occursAt char_traits sep (p.drop a.length) = true := by
    rw [occursAt_char_traits sep _ hsep, ← hab]
    simp only [List.append_assoc, List.drop_left]
    exact List.prefix_append _ _
  rw [this] at hj
  cases hj

theorem occursAt_take_of_fits (sep : Separator) (hsep : sep.chars ≠ []) (s : List Char)
    (k j : Nat) (h : occursAt char_traits sep ((s.take k).drop j) = true) :
    occursAt char_traits sep (s.drop j) = true := by
  rw [occursAt_char_traits sep _ hsep] at h ⊢
  obtain ⟨t, ht⟩ := h
  have h1 : s.drop j = (s.take k).drop j ++ (s.drop k).drop (j - (s.take k).length) := by
    conv => lhs; rw [← List.take_append_drop k s]
    rw [List.drop_append_eq_append_drop]
  rw [h1, ← ht, List.append_assoc]
  exact List.prefix_append _ _

theorem specSplit_pieces (sep : Separator) (hsep : sep.chars ≠ []) :
    ∀ (n : Nat) (s : List Char), s.length ≤ n →
      (∀ p ∈ specSplit char_traits sep s, ¬ sep.chars <:+: p) ∧
      (specSplit char_traits sep s).length = specCount char_traits sep s + 1 ∧
      ((specSplit char_traits sep s).map List.length).sum
        + specCount char_traits sep s * sep.chars.length = s.length := by
  have hsz : string_or_char_size sep ≠ 0 := size_ne_zero_of_chars sep hsep
  have hnone : ∀ s : List Char, firstOcc char_traits sep s = none →
      (∀ p ∈ specSplit char_traits sep s, ¬ sep.chars <:+: p) ∧
      (specSplit char_traits sep s).length = specCount char_traits sep s + 1 ∧
      ((specSplit char_traits sep s).map List.length).sum
        + specCount char_traits sep s * sep.chars.length = s.length := by
    intro s hocc
    rw [specSplit_of_none _ _ _ hocc, specCount_of_none _ _ _ hocc]
    refine ⟨?_, rfl, by simp⟩
    intro p hp
    rw [List.mem_singleton] at hp
    subst hp
    exact not_infix_of_nowhere sep hsep p (firstOcc_none char_traits sep p hocc)
  intro n
  induction n with
  | zero =>
    intro s hs
    have : s = [] := List.length_eq_zero.mp (by omega)
    subst this
    cases hocc : firstOcc char_traits sep [] with
    | none => exact hnone [] hocc
    | some k =>
      have h1 := firstOcc_spec char_traits sep _ k hocc
      have h2 := occursAt_length char_traits sep _ h1.2
      simp at h2
      exact absurd h2 hsz
  | succ n ih =>
    intro s hs
    cases hocc : firstOcc char_traits sep s with
    | none => exact hnone s hocc
    | some k =>
      have h1 := firstOcc_spec char_traits sep _ k hocc
      have h2 := occursAt_length char_traits sep _ h1.2
      simp only [List.length_drop] at h2
      have hrest := ih (s.drop (k + string_or_char_size sep)) (by simp; omega)
      rw [specSplit_of_some _ _ _ k hsz hocc, specCount_of_some _ _ _ k hsz hocc]
      refine ⟨?_, ?_, ?_⟩
      · intro p hp
        rcases List.mem_cons.mp hp with hp | hp
        · subst hp
          apply not_infix_of_nowhere sep hsep
          intro j hj
          by_contra hc
          have hc2 : occursAt char_traits sep ((s.take k).drop j) = true := by simpa using hc
          have hfit := occursAt_length char_traits sep _ hc2
          simp only [List.length_drop, List.length_take] at hfit hj
          have hjk : j < k := by omega
          have := firstOcc_min char_traits sep s k hocc j hjk
          rw [occursAt_take_of_fits sep hsep s k j hc2] at this
          cases this
        · exact hrest.1 p hp
      · simp only [List.length_cons]
        rw [hrest.2.1]
      · simp only [List.map_cons, List.sum_cons, List.length_take]
        have h3 := hrest.2.2
        simp only [List.length_drop] at h3
        have hsz2 := size_eq_chars_length sep
        have hk := h1.1
        have hmin : min k s.length = k := by omega
        rw [hmin, Nat.add_mul, one_mul]
        omega

theorem specCount_eq_of_split (sep : Separator) (hsep : sep.chars ≠ []) (s : List Char)
    (hlen : s.length < npos) (pieces : List (List Char))
    (h : splitIntoVector char_traits s sep = some pieces) :
    specCount char_traits sep s = pieces.length - 1 := by
  rw [splitIntoVector_eq_specSplit char_traits sep s hlen] at h
  cases h
  rw [(specSplit_pieces sep hsep s.length s (le_refl _)).2.1]
  rfl

/-- C36: for every `std::string` s (of fewer than `npos` characters) and every separator
with at least one character, the loop of `splitIntoVector(s, sep)` finishes within one
iteration for every character of s and one more; no returned piece contains sep as a
substring; the number of pieces is one more than the number of occurrences of sep found
scanning s from left to right, each search starting behind the occurrence found before;
and the lengths of the pieces and of the occurrences between them add up to the length
of s. -/
theorem splitIntoVector_terminates_and_counts (s : List Char) (sep : Separator)
    (hsep : sep.chars ≠ []) (hlen : s.length < npos) :
    (∃ pieces, splitIntoVector char_traits s sep = some pieces ∧
      (string_or_char_size sep = 0 ∨ find char_traits s sep 0 > s.length ∨
        splitLoop char_traits s sep (s.length + 1) 0 (find char_traits s sep 0) []
          = some pieces) ∧
      (∀ p ∈ pieces, ¬ sep.chars <:+: p) ∧
      pieces.length = specCount char_traits sep s + 1 ∧
      (pieces.map List.length).sum + specCount char_traits sep s * sep.chars.length
        = s.length) ∧
    specCount char_traits (Separator.char '/') "123/3456/7890a".data = 2 ∧
    specCount char_traits (Separator.string "aa".data) "aaaaa".data = 2 ∧
    splitIntoVector char_traits "aaaaa".data (Separator.string "aa".data)
      = some [[], [], ['a']] ∧
    specCount char_traits (Separator.string "ab".data) "".data = 0 := by
  refine ⟨⟨specSplit char_traits sep s, splitIntoVector_eq_specSplit char_traits sep s hlen, ?_,
    specSplit_pieces sep hsep s.length s (le_refl _)⟩,
    specCount_eq_of_split _ (by decide) _ (by decide)
      ["123".data, "3456".data, "7890a".data] (by decide),
    specCount_eq_of_split _ (by decide) _ (by decide) [[], [], ['a']] (by decide), by decide,
    specCount_eq_of_split _ (by decide) _ (by decide) [[]] (by decide)⟩
  have h := splitIntoVector_eq_specSplit char_traits sep s hlen
  unfold splitIntoVector at h
  by_cases h0 : string_or_char_size sep = 0
  · exact Or.inl h0
  · by_cases h1 : find char_traits s sep 0 > s.length
    · exact Or.inr (Or.inl h1)
    · right; right
      simpa [h0, h1] using h

/-- Witness of C36: `a,b,,c` split by `,` gives four pieces for three occurrences. -/
theorem splitIntoVector_terminates_and_counts_witness :
    ∃ pieces, splitIntoVector char_traits "a,b,,c".data (Separator.char ',') = some pieces ∧
      pieces.length = specCount char_traits (Separator.char ',') "a,b,,c".data + 1 :=
  have h := (splitIntoVector_terminates_and_counts "a,b,,c".data (Separator.char ',')
    (by decide) (by decide)).1
  ⟨h.choose, h.choose_spec.1, h.choose_spec.2.2.2.1⟩

/-! ### The order of `std::string` -/

theorem towlower_towupper (c : Char) : towlower (towupper c) = towlower c := by
  unfold towlower towupper
  by_cases h : 97 ≤ c.toNat ∧ c.toNat ≤ 122
  · have hc : c = Char.ofNat c.toNat := (Char.ofNat_toNat c).symm
    generalize c.toNat = n at h hc
    obtain ⟨h1, h2⟩ := h
    subst hc
    interval_cases n <;> decide
  · have : c.toUpper = c := by
      simp only [Char.toUpper]
      rw [if_neg]
      simpa using h
    rw [this]

theorem towlower_eq_of_ci_eq (a b : Char) (h : ci_char_traits.eq a b = true) :
    towlower a = towlower b := by
  simp only [ci_char_traits.eq, beq_iff_eq] at h
  rw [← towlower_towupper a, ← towlower_towupper b, h]

theorem toLower_eq_of_pairwise :
    ∀ (a b : List Char), a.length = b.length →
      (∀ i (h1 : i < a.length) (h2 : i < b.length),
        ci_char_traits.eq (a.get ⟨i, h1⟩) (b.get ⟨i, h2⟩) = true) →
      toLower a = toLower b
  | [], [], _, _ => rfl
  | [], _ :: _, h, _ => by simp at h
  | _ :: _, [], h, _ => by simp at h
  | x :: a, y :: b, hl, h => by
    have h0 := h 0 (by simp) (by simp)
    have ih := toLower_eq_of_pairwise a b (by simpa using hl) (by
      intro i h1 h2
      exact h (i + 1) (by simpa using h1) (by simpa using h2))
    simp only [toLower, List.map_cons] at ih ⊢
    rw [towlower_eq_of_ci_eq x y (by simpa using h0), ih]

theorem ci_eq_of_compareLoop_zero :
    ∀ (a b : List Char) (j : Int), 0 ≤ j → Char.ofNat 0 ∉ a → Char.ofNat 0 ∉ b →
      a.length = b.length → ci_char_traits.compareLoop a b a.length j = 0 →
      ∀ i (h1 : i < a.length) (h2 : i < b.length),
        ci_char_traits.eq (a.get ⟨i, h1⟩) (b.get ⟨i, h2⟩) = true
  | [], _, _, _, _, _, _, _ => by
    intro i h1
    simp at h1
  | _ :: _, [], _, _, _, _, hl, _ => by simp at hl
  | x :: a, y :: b, j, hj, hn1, hn2, hl, h => by
    have hx : x ≠ Char.ofNat 0 := fun h => hn1 (by rw [← h]; exact List.mem_cons_self _ _)
    have hy : y ≠ Char.ofNat 0 := fun h => hn2 (by rw [← h]; exact List.mem_cons_self _ _)
    simp only [List.length_cons, ci_char_traits.compareLoop, deref, List.headD_cons,
      List.tail_cons, ne_eq, hx, hy, not_false_eq_true, true_and] at h
    by_cases he : ci_char_traits.eq x y = true
    · simp only [he, if_true] at h
      have ih := ci_eq_of_compareLoop_zero a b (j + 1) (by omega)
        (fun h => hn1 (List.mem_cons_of_mem _ h)) (fun h => hn2 (List.mem_cons_of_mem _ h))
        (by simpa using hl) h
      intro i h1 h2
      cases i with
      | zero => simpa using he
      | succ i => simpa using ih i (by simpa using h1) (by simpa using h2)
    · simp only [he, Bool.false_eq_true, if_false] at h
      split at h <;> omega

/-- C39: for any two ci_strings a and b of equal length whose characters are pairwise
equal under `ci_char_traits::eq`, that is equal after `towupper`, `toLower(a)` and
`toLower(b)` are the same string, character for character, so `std::hash<ci_string>`,
which hashes `toLower` of its argument with the hash of `std::string`, gives a and b the
same value, whatever that hash is. So do two ci_strings without a NUL that compare equal,
having the same length and `compare` returning 0 on it. The letters are those of ASCII,
the only ones `towupper` and `towlower` change here. -/
theorem ci_hash_respects_equality (hasher : List Char → Nat) (a b : List Char)
    (hl : a.length = b.length) :
    ((∀ i (h1 : i < a.length) (h2 : i < b.length),
        ci_char_traits.eq (a.get ⟨i, h1⟩) (b.get ⟨i, h2⟩) = true) →
      toLower a = toLower b ∧ hash_ci_string hasher a = hash_ci_string hasher b) ∧
    (Char.ofNat 0 ∉ a → Char.ofNat 0 ∉ b → ci_traits.compare a b a.length = 0 →
      hash_ci_string hasher a = hash_ci_string hasher b) ∧
    toLower "HeLLo, World 1".data = toLower "hEllO, wORLD 1".data ∧
    ci_char_traits.eq 'q' 'Q' = true ∧ ci_char_traits.eq 'q' 'r' = false := by
  refine ⟨?_, ?_, by decide, by decide, by decide⟩
  · intro h
    have := toLower_eq_of_pairwise a b hl h
    exact ⟨this, by simp only [hash_ci_string, this]⟩
  · intro hn1 hn2 hc
    have hpair : ∀ i (h1 : i < a.length) (h2 : i < b.length),
        ci_char_traits.eq (a.get ⟨i, h1⟩) (b.get ⟨i, h2⟩) = true := by
      by_cases h0 : a.length = 0
      · intro i h1
        omega
      · simp only [ci_traits, ci_char_traits.compare, h0, if_false] at hc
        exact ci_eq_of_compareLoop_zero a b 0 (le_refl _) hn1 hn2 hl hc
    simp only [hash_ci_string, toLower_eq_of_pairwise a b hl hpair]

/-- Witness of C39: `MiXed` and `mIxED` are equal ignoring case and have the same hash
under the hasher that adds up the codes of the characters. -/
theorem ci_hash_respects_equality_witness :
    hash_ci_string (fun s => (s.map Char.toNat).sum) "MiXed".data
      = hash_ci_string (fun s => (s.map Char.toNat).sum) "mIxED".data :=
  ((ci_hash_respects_equality (fun s => (s.map Char.toNat).sum) "MiXed".data "mIxED".data
    (by decide)).1 (by decide)).2

/-! ## stringutil.h: classifyNumberString -/

theorem firstNotIn_none_imp (tr : CharTraits) (chars : List Char) :
    ∀ l : List Char, firstNotIn tr chars l = none → ∀ c ∈ l, tr.contains chars c = true
  | [], _ => by simp
  | x :: rest, h => by
    simp only [firstNotIn] at h
    by_cases hx : tr.contains chars x = true
    · simp only [hx, if_true, Option.map_eq_none'] at h
      intro c hc
      rcases List.mem_cons.mp hc with hc | hc
      · rw [hc]; exact hx
      · exact firstNotIn_none_imp tr chars rest h c hc
    · simp [hx] at h

theorem find_first_not_of_eq_npos_iff (tr : CharTraits) (str chars : List Char)
    (hlen : str.length < npos) :
    find_first_not_of tr str chars = npos ↔ ∀ c ∈ str, tr.contains chars c = true := by
  constructor
  · intro h
    cases hf : firstNotIn tr chars str with
    | none => exact firstNotIn_none_imp tr chars str hf
    | some k =>
      have := firstNotIn_lt tr chars str k hf
      simp only [find_first_not_of, hf, Option.getD_some] at h
      omega
  · exact find_first_not_of_all tr chars str

theorem firstIn_none_iff (tr : CharTraits) (chars : List Char) :
    ∀ l : List Char, firstIn tr chars l = none ↔ ∀ c ∈ l, tr.contains chars c = false
  | [] => by simp [firstIn]
  | x :: rest => by
    have ih := firstIn_none_iff tr chars rest
    by_cases hx : tr.contains chars x = true
    · simp [firstIn, hx]
    · simp only [Bool.not_eq_true] at hx
      simp [firstIn, hx, ih]

theorem firstIn_lt (tr : CharTraits) (chars : List Char) :
    ∀ (l : List Char) (k : Nat), firstIn tr chars l = some k → k < l.length
  | [], k, h => by simp [firstIn] at h
  | x :: rest, k, h => by
    simp only [firstIn] at h
    split at h
    · cases h
      simp
    · cases hr : firstIn tr chars rest with
      | none => simp [hr] at h
      | some j =>
        simp only [hr, Option.map_some', Option.some.injEq] at h
        have := firstIn_lt tr chars rest j hr
        simp only [List.length_cons]
        omega

theorem find_first_of_eq_npos_iff (tr : CharTraits) (str chars : List Char)
    (hlen : str.length < npos) :
    find_first_of tr str chars = npos ↔ ∀ c ∈ str, tr.contains chars c = false := by
  rw [← firstIn_none_iff]
  cases hf : firstIn tr chars str with
  | none => simp [find_first_of, hf]
  | some k =>
    have := firstIn_lt tr chars str k hf
    simp only [find_first_of, hf, Option.getD_some]
    constructor
    · intro h; omega
    · intro h; cases h

theorem char_traits_contains (chars : List Char) (c : Char) :
    char_traits.contains chars c = true ↔ c ∈ chars := by
  simp [CharTraits.contains, char_traits]

theorem maxIntLen_default : maxIntLen gccPlatform (defaultRegistry gccPlatform) = 19 := by
  decide

theorem maxUintLen_default : maxUintLen gccPlatform (defaultRegistry gccPlatform) = 20 := by
  decide

/-- C40: with the registry in its built-in default configuration when
`classifyNumberString` is first called, the two cached limits are 19 and 20, and for every
`std::string` s (of fewer than `npos` characters): the result is NONE iff s is empty or
holds a character outside `0123456789+-.eElL`; otherwise it is FLOAT if s holds a `.` or
an `e`; otherwise, with d the length of s less one for a leading `+` or `-`, it is FLOAT
if d > 20, UINT if 19 <= d <= 20 and s does not start with `-`, FLOAT if 19 <= d <= 20
and s starts with `-`, and INT if d < 19. -/
theorem classifyNumberString_decision_table (s : List Char) (hlen : s.length < npos) :
    maxIntLen gccPlatform (defaultRegistry gccPlatform) = 19 ∧
    maxUintLen gccPlatform (defaultRegistry gccPlatform) = 20 ∧
    (classifyNumberString char_traits (maxIntLen gccPlatform (defaultRegistry gccPlatform))
        (maxUintLen gccPlatform (defaultRegistry gccPlatform)) s = NumberClass.NONE
      ↔ s = [] ∨ ∃ c ∈ s, c ∉ "0123456789+-.eElL".data) ∧
    (s ≠ [] → (∀ c ∈ s, c ∈ "0123456789+-.eElL".data) →
      ((∃ c ∈ s, c = '.' ∨ c = 'e') →
        classifyNumberString char_traits (maxIntLen gccPlatform (defaultRegistry gccPlatform))
          (maxUintLen gccPlatform (defaultRegistry gccPlatform)) s = NumberClass.FLOAT) ∧
      ((∀ c ∈ s, c ≠ '.' ∧ c ≠ 'e') →
        classifyNumberString char_traits (maxIntLen gccPlatform (defaultRegistry gccPlatform))
          (maxUintLen gccPlatform (defaultRegistry gccPlatform)) s
          = (if s.length - (if s.head? = some '+' ∨ s.head? = some '-' then 1 else 0) > 20
              then NumberClass.FLOAT
            else if 19 ≤ s.length - (if s.head? = some '+' ∨ s.head? = some '-' then 1 else 0)
              then (if s.head? = some '-' then NumberClass.FLOAT else NumberClass.UINT)
            else NumberClass.INT))) ∧
    classifyNumberString char_traits 19 20 "-123".data = NumberClass.INT ∧
    classifyNumberString char_traits 19 20 "+1234567890123456789".data = NumberClass.UINT ∧
    classifyNumberString char_traits 19 20 "-1234567890123456789".data = NumberClass.FLOAT ∧
    classifyNumberString char_traits 19 20 "123456789012345678901".data = NumberClass.FLOAT ∧
    classifyNumberString char_traits 19 20 "1.5".data = NumberClass.FLOAT ∧
    classifyNumberString char_traits 19 20 "0x10".data = NumberClass.NONE := by
  refine ⟨maxIntLen_default, maxUintLen_default, ?_, ?_, by decide, by decide, by decide,
    by decide, by decide, by decide⟩
  · rw [maxIntLen_default, maxUintLen_default]
    unfold classifyNumberString
    constructor
    · intro h
      by_cases he : s = []
      · exact Or.inl he
      · right
        by_contra hcon
        have hall : ∀ c ∈ s, char_traits.contains "0123456789+-.eElL".data c = true := by
          intro c hc
          rw [char_traits_contains]
          by_contra hnot
          exact hcon ⟨c, hc, hnot⟩
        have hnp := (find_first_not_of_eq_npos_iff char_traits s _ hlen).mpr hall
        have hemp : s.isEmpty = false := by
          cases s with
          | nil => exact absurd rfl he
          | cons a l => rfl
        simp only [hemp, hnp, Bool.false_eq_true, ne_eq, not_true_eq_false, or_self,
          if_false] at h
        split_ifs at h
    · intro h
      rcases h with h | ⟨c, hc, hnot⟩
      · subst h
        rfl
      · have hne : find_first_not_of char_traits s "0123456789+-.eElL".data ≠ npos := by
          intro hnp
          have := (find_first_not_of_eq_npos_iff char_traits s _ hlen).mp hnp c hc
          rw [char_traits_contains] at this
          exact hnot this
        simp [hne]
  · intro he hall
    rw [maxIntLen_default, maxUintLen_default]
    have hall2 : ∀ c ∈ s, char_traits.contains "0123456789+-.eElL".data c = true := by
      intro c hc
      rw [char_traits_contains]
      exact hall c hc
    have hnp := (find_first_not_of_eq_npos_iff char_traits s _ hlen).mpr hall2
    have hemp : s.isEmpty = false := by
      cases s with
      | nil => exact absurd rfl he
      | cons a l => rfl
    constructor
    · rintro ⟨c, hc, hdot⟩
      have hne : find_first_of char_traits s ".e".data ≠ npos := by
        intro hf
        have := (find_first_of_eq_npos_iff char_traits s _ hlen).mp hf c hc
        have h2 : char_traits.contains ".e".data c = true := by
          rw [char_traits_contains]
          rcases hdot with h | h <;> simp [h]
        rw [h2] at this
        cases this
      unfold classifyNumberString
      simp [hemp, hnp, hne]
    · intro hno
      have hf : find_first_of char_traits s ".e".data = npos := by
        rw [find_first_of_eq_npos_iff char_traits s _ hlen]
        intro c hc
        cases hcc : char_traits.contains ".e".data c with
        | false => rfl
        | true =>
          rw [char_traits_contains] at hcc
          have := hno c hc
          simp at hcc
          rcases hcc with h | h
          · exact absurd h this.1
          · exact absurd h this.2
      unfold classifyNumberString
      simp only [hemp, hnp, hf, Bool.false_eq_true, ne_eq, not_true_eq_false, or_self, if_false]
      cases s with
      | nil => exact absurd rfl he
      | cons a l =>
        have hch : charAt (a :: l) 0 = a := by simp [charAt]
        simp only [hch, List.head?_cons, Option.some.injEq, List.length_cons, ge_iff_le,
          gt_iff_lt, beq_iff_eq, Bool.or_eq_true]
        by_cases hm : a = '-'
        · subst hm
          simp
        · by_cases hp : a = '+'
          · subst hp
            simp
          · simp [hm, hp]

/-- Witness of C40: the 19 digits of the largest `int64_t` are classified UINT. -/
theorem classifyNumberString_decision_table_witness :
    classifyNumberString char_traits (maxIntLen gccPlatform (defaultRegistry gccPlatform))
      (maxUintLen gccPlatform (defaultRegistry gccPlatform)) "9223372036854775807".data
      = NumberClass.UINT :=
  (((classifyNumberString_decision_table "9223372036854775807".data (by decide)).2.2.2.1
    (by decide) (by decide)).2 (by decide)).trans (by decide)

/-! ## stringutil.h: strip twice -/

theorem contains_nil (tr : CharTraits) (c : Char) : tr.contains [] c = false := rfl

/-- With an empty set of characters `strip` removes nothing at either end; with INSIDE it
drops the white-space characters it falls back to. -/
theorem strip_of_empty_set (tr : CharTraits) (s : List Char) (mode : StripTrimMode)
    (hlen : s.length < npos) :
    strip tr s [] mode
      = s.filter (fun c => !doStripInside mode || !tr.contains ['\t', ' ', '\r', '\n'] c) := by
  rw [strip_eq tr s [] mode hlen]
  have h1 : s.takeWhile (tr.contains []) = [] := by
    cases s with
    | nil => rfl
    | cons a l => simp [List.takeWhile, contains_nil]
  have h2 : s.dropWhile (tr.contains []) = s := by
    cases s with
    | nil => rfl
    | cons a l => simp [List.dropWhile, contains_nil]
  have h3 : s.rdropWhile (tr.contains []) = s := by
    rw [List.rdropWhile]
    cases hr : s.reverse with
    | nil =>
      have := congrArg List.reverse hr
      simpa using this.symm
    | cons a l =>
      simp only [List.dropWhile, contains_nil]
      rw [← hr, List.reverse_reverse]
  have h4 : s.rtakeWhile (tr.contains []) = [] := by
    rw [List.rtakeWhile]
    cases hr : s.reverse with
    | nil => rfl
    | cons a l => simp [List.takeWhile, contains_nil]
  simp only [h1, h2, h3, h4, List.isEmpty_nil, if_true, ite_self, List.filter_nil,
    List.nil_append, List.append_nil]

/-- With INSIDE and a set that is not empty, `strip` drops every character of the set. -/
theorem strip_of_inside (tr : CharTraits) (s C : List Char) (mode : StripTrimMode)
    (hC : C ≠ []) (hi : doStripInside mode = true) (hlen : s.length < npos) :
    strip tr s C mode = s.filter (fun c => !tr.contains C c) := by
  have hce : C.isEmpty = false := by
    cases C with
    | nil => exact absurd rfl hC
    | cons a l => rfl
  rw [strip_eq tr s C mode hlen]
  simp only [hi, hce, Bool.not_true, Bool.false_or, Bool.false_eq_true, if_false]
  have hA : ∀ A : List Char, (∀ c ∈ A, tr.contains C c = true) →
      A.filter (fun c => !tr.contains C c) = [] := by
    intro A hA
    rw [List.filter_eq_nil_iff]
    intro a ha
    simp [hA a ha]
  have h1 : (if doStripFront mode = true then []
      else if doStripBack mode = true ∧ ∀ c ∈ s, tr.contains C c = true then []
        else s.takeWhile (tr.contains C)).filter (fun c => !tr.contains C c) = [] := by
    apply hA
    intro c hc
    split at hc
    · simp at hc
    · split at hc
      · simp at hc
      · exact List.mem_takeWhile_imp hc
  have h2 : (if doStripBack mode = true then []
      else (s.dropWhile (tr.contains C)).rtakeWhile (tr.contains C)).filter
        (fun c => !tr.contains C c) = [] := by
    apply hA
    intro c hc
    split at hc
    · simp at hc
    · exact List.mem_rtakeWhile_imp hc
  rw [h1, h2, List.nil_append, List.append_nil]
  conv => rhs; rw [split_three (tr.contains C) s]
  rw [List.filter_append, List.filter_append,
    hA _ (fun c hc => List.mem_takeWhile_imp hc),
    hA _ (fun c hc => List.mem_rtakeWhile_imp hc), List.nil_append, List.append_nil]

/-- Without INSIDE `strip` removes the leading run, the trailing run, both or none. -/
theorem strip_of_not_inside (tr : CharTraits) (s C : List Char) (mode : StripTrimMode)
    (hi : doStripInside mode = false) (hlen : s.length < npos) :
    strip tr s C mode
      = if doStripFront mode then
          (if doStripBack mode then (s.dropWhile (tr.contains C)).rdropWhile (tr.contains C)
            else s.dropWhile (tr.contains C))
        else (if doStripBack mode then s.rdropWhile (tr.contains C) else s) := by
  rw [strip_eq tr s C mode hlen]
  simp only [hi, Bool.not_false, Bool.true_or, List.filter_true]
  by_cases hf : doStripFront mode = true
  · by_cases hb : doStripBack mode = true
    · simp only [hf, hb, if_true, List.nil_append, List.append_nil]
    · simp only [hf, hb, if_true, Bool.false_eq_true, if_false, List.nil_append,
        rdropWhile_append_rtakeWhile]
  · by_cases hb : doStripBack mode = true
    · simp only [hf, hb, if_true, Bool.false_eq_true, if_false, true_and, List.append_nil]
      by_cases hall : ∀ c ∈ s, tr.contains C c = true
      · rw [if_pos hall, List.dropWhile_eq_nil_iff.mpr hall]
        simp only [List.rdropWhile_nil, List.nil_append]
        exact (List.rdropWhile_eq_nil_iff.mpr hall).symm
      · rw [if_neg hall]
        exact (rdropWhile_eq_take_append _ s (exists_not_of_not_all _ s hall)).symm
    · simp only [hf, hb, Bool.false_eq_true, if_false, false_and]
      exact (split_three _ s).symm

theorem dropWhile_head_not (p : Char → Bool) :
    ∀ (s : List Char) (x : Char) (t : List Char), s.dropWhile p = x :: t → p x = false
  | [], _, _, h => by simp at h
  | a :: s, x, t, h => by
    simp only [List.dropWhile] at h
    cases hp : p a with
    | true =>
      rw [hp] at h
      exact dropWhile_head_not p s x t h
    | false =>
      rw [hp] at h
      injection h with h1 h2
      rw [← h1]
      exact hp

theorem dropWhile_rdropWhile_dropWhile (p : Char → Bool) (s : List Char) :
    ((s.dropWhile p).rdropWhile p).dropWhile p = (s.dropWhile p).rdropWhile p := by
  cases ht : s.dropWhile p with
  | nil => simp
  | cons x t =>
    have hx := dropWhile_head_not p s x t ht
    obtain ⟨u, hu⟩ := List.rdropWhile_prefix p (x :: t)
    cases hr : (x :: t).rdropWhile p with
    | nil => rfl
    | cons y r =>
      rw [hr] at hu
      have hy : y = x := by
        simp only [List.cons_append, List.cons.injEq] at hu
        exact hu.1
      rw [hy]
      simp [List.dropWhile, hx]

theorem strip_length_le (tr : CharTraits) (s C : List Char) (mode : StripTrimMode)
    (hlen : s.length < npos) : (strip tr s C mode).length ≤ s.length := by
  by_cases hi : doStripInside mode = true
  · by_cases hC : C = []
    · subst hC
      rw [strip_of_empty_set tr s mode hlen]
      exact List.length_filter_le _ _
    · rw [strip_of_inside tr s C mode hC hi hlen]
      exact List.length_filter_le _ _
  · rw [strip_of_not_inside tr s C mode (by simpa using hi) hlen]
    have h1 : (s.dropWhile (tr.contains C)).length ≤ s.length :=
      (List.dropWhile_suffix _).length_le
    have h2 : (s.rdropWhile (tr.contains C)).length ≤ s.length :=
      ( List.rdropWhile_prefix _ _).length_le
    have h3 : ((s.dropWhile (tr.contains C)).rdropWhile (tr.contains C)).length
        ≤ (s.dropWhile (tr.contains C)).length :=
      ( List.rdropWhile_prefix _ _).length_le
    split
    · split
      · omega
      · exact h1
    · split
      · exact h2
      · exact le_refl _

theorem strip_strip (tr : CharTraits) (s C : List Char) (mode : StripTrimMode)
    (hlen : s.length < npos) :
    strip tr (strip tr s C mode) C mode = strip tr s C mode := by
  have hlen2 : (strip tr s C mode).length < npos :=
    lt_of_le_of_lt (strip_length_le tr s C mode hlen) hlen
  by_cases hi : doStripInside mode = true
  · by_cases hC : C = []
    · subst hC
      rw [strip_of_empty_set tr _ mode hlen2, strip_of_empty_set tr s mode hlen,
        List.filter_filter]
      congr 1
      funext c
      simp
    · rw [strip_of_inside tr _ C mode hC hi hlen2, strip_of_inside tr s C mode hC hi hlen,
        List.filter_filter]
      congr 1
      funext c
      simp
  · have hi2 : doStripInside mode = false := by simpa using hi
    rw [strip_of_not_inside tr _ C mode hi2 hlen2, strip_of_not_inside tr s C mode hi2 hlen]
    by_cases hf : doStripFront mode = true
    · by_cases hb : doStripBack mode = true
      · simp only [hf, hb, if_true]
        rw [dropWhile_rdropWhile_dropWhile, List.rdropWhile_idempotent]
      · simp only [hf, hb, if_true, Bool.false_eq_true, if_false]
        exact List.dropWhile_idempotent _ _
    · by_cases hb : doStripBack mode = true
      · simp only [hf, hb, if_true, Bool.false_eq_true, if_false]
        exact List.rdropWhile_idempotent _ _
      · simp only [hf, hb, Bool.false_eq_true, if_false]

/-- C38: for every string s (of fewer than `npos` characters), every set of characters C,
every mode m and either traits class, `strip(., C, m)` applied to its own result gives
that result again; so do `trim`, `trimLeft` and `trimRight`; the result of `strip` is
never longer than s, and the result of `trim(s, C)` neither starts nor ends with a
character of C. -/
theorem strip_idempotent (tr : CharTraits) (s C : List Char) (mode : StripTrimMode)
    (hlen : s.length < npos) :
    strip tr (strip tr s C mode) C mode = strip tr s C mode ∧
    trim tr (trim tr s C) C = trim tr s C ∧
    trimLeft tr (trimLeft tr s C) C = trimLeft tr s C ∧
    trimRight tr (trimRight tr s C) C = trimRight tr s C ∧
    (strip tr s C mode).length ≤ s.length ∧
    (∀ c, (trim tr s C).head? = some c → tr.contains C c = false) ∧
    (∀ c, (trim tr s C).getLast? = some c → tr.contains C c = false) ∧
    strip char_traits (strip char_traits "_a_b_".data "_".data StripTrimMode.INSIDE) "_".data
        StripTrimMode.INSIDE
      = strip char_traits "_a_b_".data "_".data StripTrimMode.INSIDE ∧
    strip char_traits (strip char_traits " a \tb ".data [] StripTrimMode.ALL) []
        StripTrimMode.ALL = "ab".data ∧
    trim char_traits (trim char_traits "xxaxbxx".data "x".data) "x".data = "axb".data := by
  have htrim : trim tr s C
      = (s.dropWhile (tr.contains C)).rdropWhile (tr.contains C) := by
    unfold trim
    rw [strip_of_not_inside tr s C _ flags_OUTSIDE.2.2 hlen]
    simp only [flags_OUTSIDE.1, flags_OUTSIDE.2.1, if_true]
  refine ⟨strip_strip tr s C mode hlen, strip_strip tr s C _ hlen, strip_strip tr s C _ hlen,
    strip_strip tr s C _ hlen, strip_length_le tr s C mode hlen, ?_, ?_, by decide, by decide,
    by decide⟩
  · intro c hc
    rw [htrim] at hc
    cases ht : s.dropWhile (tr.contains C) with
    | nil => simp [ht] at hc
    | cons x t =>
      have hx := dropWhile_head_not (tr.contains C) s x t ht
      rw [ht] at hc
      obtain ⟨u, hu⟩ := List.rdropWhile_prefix (tr.contains C) (x :: t)
      cases hr : (x :: t).rdropWhile (tr.contains C) with
      | nil => simp [hr] at hc
      | cons y r =>
        rw [hr] at hu hc
        simp only [List.cons_append, List.cons.injEq] at hu
        simp only [List.head?_cons, Option.some.injEq] at hc
        rw [← hc, hu.1]
        exact hx
  · intro c hc
    rw [htrim] at hc
    have hne : (s.dropWhile (tr.contains C)).rdropWhile (tr.contains C) ≠ [] := by
      intro h0
      simp [h0] at hc
    have hlast := List.rdropWhile_last_not (tr.contains C) (s.dropWhile (tr.contains C)) hne
    rw [List.getLast?_eq_getLast _ hne] at hc
    simp only [Option.some.injEq] at hc
    rw [hc] at hlast
    simpa using hlast

/-- Witness of C38: trimming `  ab c ` of blanks twice gives what trimming it once
gives. -/
theorem strip_idempotent_witness :
    "  ab c ".data.length < npos ∧
    trim char_traits (trim char_traits "  ab c ".data " ".data) " ".data
      = trim char_traits "  ab c ".data " ".data :=
  ⟨by decide, (strip_idempotent char_traits "  ab c ".data " ".data StripTrimMode.ALL
    (by decide)).2.1⟩

end util
